import Mathlib

/-!
# Storage layer of the node (`db.h`, `db.cpp`)

A shallow embedding of the database handle `CDB`, the process-wide environment
state (`fDbEnvInit`, `mapFileUseCount`), `DBFlush`, and the wallet wrappers
`ReadKey` / `WriteKey`.

The embedded key-value engine (Berkeley DB) is not part of the repository.  It
is represented by a small sequential reference model: every database file is a
finite map from key bytes to value bytes, transactions are nested and carry the
view of the data they operate on, and every engine call is appended to a call
log.  The return codes of the two `open` calls of the engine are inputs of the
constructor, because the code branches on them.
-/

namespace BitcoinDb

/-- A serialized buffer (`CDataStream` contents, `Dbt` payload). -/
abbrev Bytes := List Nat

/-- Constants of the engine header `db_cxx.h`, which is not part of the
repository.  They are parameters of the development; `DbConsts.WF` records the
only facts about them that are used. -/
structure DbConsts where
  DB_THREAD : Nat
  DB_CREATE : Nat
  DB_RDONLY : Nat
  DB_AUTO_COMMIT : Nat
  DB_NOOVERWRITE : Nat
  DB_NOTFOUND : Int
  DB_KEYEXIST : Int
  EINVAL : Int
deriving Repr, DecidableEq

/-- The open flags are non-zero and pairwise disjoint bit masks, the
no-overwrite put flag is non-zero, and error codes are non-zero. -/
structure DbConsts.WF (c : DbConsts) : Prop where
  thread_ne : c.DB_THREAD ≠ 0
  create_ne : c.DB_CREATE ≠ 0
  rdonly_ne : c.DB_RDONLY ≠ 0
  auto_ne : c.DB_AUTO_COMMIT ≠ 0
  thread_create : c.DB_THREAD &&& c.DB_CREATE = 0
  thread_rdonly : c.DB_THREAD &&& c.DB_RDONLY = 0
  thread_auto : c.DB_THREAD &&& c.DB_AUTO_COMMIT = 0
  create_rdonly : c.DB_CREATE &&& c.DB_RDONLY = 0
  create_auto : c.DB_CREATE &&& c.DB_AUTO_COMMIT = 0
  rdonly_auto : c.DB_RDONLY &&& c.DB_AUTO_COMMIT = 0
  nooverwrite_ne : c.DB_NOOVERWRITE ≠ 0
  notfound_ne : c.DB_NOTFOUND ≠ 0
  keyexist_ne : c.DB_KEYEXIST ≠ 0
  einval_ne : c.EINVAL ≠ 0

/-- A concrete choice of the constants (the values of one release of the
engine header), used to evaluate the model on examples. -/
def sampleConsts : DbConsts :=
  { DB_THREAD := 0x20, DB_CREATE := 0x1, DB_RDONLY := 0x400, DB_AUTO_COMMIT := 0x100,
    DB_NOOVERWRITE := 20, DB_NOTFOUND := -30988, DB_KEYEXIST := -30995, EINVAL := 22 }

/-! ## The engine model: stores, files, transactions, call log -/

/-- One database (a B-tree): key bytes to value bytes, kept in key order. -/
abbrev Store := List (Bytes × Bytes)

/-- Lexicographic order on byte strings, the key order of the B-tree. -/
def bytesLt : Bytes → Bytes → Bool
  | [], [] => false
  | [], _ :: _ => true
  | _ :: _, [] => false
  | a :: as, b :: bs => if a < b then true else if b < a then false else bytesLt as bs

/-- Point lookup in a store. -/
def storeGet : Store → Bytes → Option Bytes
  | [], _ => none
  | (k', v') :: rest, k => if k' = k then some v' else storeGet rest k

/-- Insert or replace a record, keeping key order. -/
def storePut : Store → Bytes → Bytes → Store
  | [], k, v => [(k, v)]
  | (k', v') :: rest, k, v =>
    if k' = k then (k, v) :: rest
    else if bytesLt k k' then (k, v) :: (k', v') :: rest
    else (k', v') :: storePut rest k v

/-- Delete the record of a key. -/
def storeDel (s : Store) (k : Bytes) : Store :=
  s.filter (fun e => decide (e.1 ≠ k))

/-- The database files of the environment, by file name. -/
abbrev Files := List (String × Store)

/-- The store of a file; a file that was never written is empty. -/
def filesGet : Files → String → Store
  | [], _ => []
  | (g, s) :: rest, f => if g = f then s else filesGet rest f

/-- Replace the store of a file. -/
def filesSet : Files → String → Store → Files
  | [], f, s => [(f, s)]
  | (g, s') :: rest, f, s => if g = f then (f, s) :: rest else (g, s') :: filesSet rest f s

/-- An active engine transaction (`DbTxn`): its identity, its parent, and the
contents of the files as seen from inside it. -/
structure DbTxn where
  id : Nat
  parent : Option Nat
  view : Files
deriving Repr, DecidableEq

/-- Calls made to the engine, recorded in the call log. -/
inductive Call where
  | envOpen
  | envClose
  | dbOpen (file : String) (nFlags : Nat)
  | dbClose (file : String)
  | get (file : String) (txn : Option Nat) (key : Bytes)
  | put (file : String) (txn : Option Nat) (key value : Bytes) (flags : Nat)
  | del (file : String) (txn : Option Nat) (key : Bytes)
  | dbExists (file : String) (txn : Option Nat) (key : Bytes)
  | txnBegin (parent : Option Nat) (created : Option Nat)
  | txnCommit (txn : Nat)
  | txnAbort (txn : Nat)
  | txnCheckpoint
  | lsnReset (file : String)
  | logArchive
deriving Repr, DecidableEq

/-- The process-wide state: the statics of `db.cpp` (`fDbEnvInit`,
`mapFileUseCount`) and the state of the engine (`dbenv`). -/
structure World where
  fDbEnvInit : Bool
  mapFileUseCount : List (String × Int)
  data : Files
  txns : List DbTxn
  nextTxn : Nat
  log : List Call
deriving Repr, DecidableEq

/-- State at program start: `fDbEnvInit = false`, empty `mapFileUseCount`. -/
def World.init : World :=
  { fDbEnvInit := false, mapFileUseCount := [], data := [], txns := [], nextTxn := 0, log := [] }

/-- Append a call to the log (most recent first). -/
def World.logCall (w : World) (call : Call) : World :=
  { w with log := call :: w.log }

/-- The file contents visible through a transaction argument: the committed
data for a null transaction, the view of an active transaction otherwise;
`none` when the argument is not an active transaction. -/
def engineView (w : World) : Option Nat → Option Files
  | none => some w.data
  | some id => (w.txns.find? (fun t => decide (t.id = id))).map (fun t => t.view)

/-- Store new file contents behind a transaction argument. -/
def engineSetView (w : World) (txn : Option Nat) (fs : Files) : World :=
  match txn with
  | none => { w with data := fs }
  | some id =>
    { w with txns := w.txns.map (fun t => if t.id = id then { t with view := fs } else t) }

/-- Remove the transactions in `dead` and all their descendants from the
table (the table is in creation order, so parents precede children). -/
def dropSubtree : List Nat → List DbTxn → List DbTxn
  | _, [] => []
  | dead, t :: ts =>
    if t.id ∈ dead ∨ (∃ p, t.parent = some p ∧ p ∈ dead) then dropSubtree (t.id :: dead) ts
    else t :: dropSubtree dead ts

/-- A database object (`Db`), bound to a file of the environment. -/
structure Db where
  file : String
deriving Repr, DecidableEq

variable (c : DbConsts)

/-- Modelled from the spec: the engine call `Db::get` (Berkeley DB, outside the
repository): a point get under a transaction argument, giving the return code
and the value buffer (null when the key is absent). -/
def Db.get (w : World) (db : Db) (txn : Option Nat) (key : Bytes) : World × Int × Option Bytes :=
  let w1 := w.logCall (Call.get db.file txn key)
  match engineView w txn with
  | none => (w1, c.EINVAL, none)
  | some fs =>
    match storeGet (filesGet fs db.file) key with
    | some v => (w1, 0, some v)
    | none => (w1, c.DB_NOTFOUND, none)

/-- Modelled from the spec: the engine call `Db::put` (Berkeley DB, outside the
repository): with `DB_NOOVERWRITE` a collision returns the key-exists error
rather than overwriting. -/
def Db.put (w : World) (db : Db) (txn : Option Nat) (key value : Bytes) (flags : Nat) :
    World × Int :=
  let w1 := w.logCall (Call.put db.file txn key value flags)
  match engineView w txn with
  | none => (w1, c.EINVAL)
  | some fs =>
    let s := filesGet fs db.file
    if flags = c.DB_NOOVERWRITE ∧ (storeGet s key).isSome then (w1, c.DB_KEYEXIST)
    else (engineSetView w1 txn (filesSet fs db.file (storePut s key value)), 0)

/-- Modelled from the spec: the engine call `Db::del` (Berkeley DB, outside the
repository): a point delete, `DB_NOTFOUND` when the key is absent. -/
def Db.del (w : World) (db : Db) (txn : Option Nat) (key : Bytes) : World × Int :=
  let w1 := w.logCall (Call.del db.file txn key)
  match engineView w txn with
  | none => (w1, c.EINVAL)
  | some fs =>
    let s := filesGet fs db.file
    if (storeGet s key).isSome then
      (engineSetView w1 txn (filesSet fs db.file (storeDel s key)), 0)
    else (w1, c.DB_NOTFOUND)

/-- Modelled from the spec: the engine call `Db::exists` (Berkeley DB, outside
the repository): a probe that does not materialize the value. -/
def Db.dbExists (w : World) (db : Db) (txn : Option Nat) (key : Bytes) : World × Int :=
  let w1 := w.logCall (Call.dbExists db.file txn key)
  match engineView w txn with
  | none => (w1, c.EINVAL)
  | some fs =>
    if (storeGet (filesGet fs db.file) key).isSome then (w1, 0) else (w1, c.DB_NOTFOUND)

/-- Modelled from the spec: the engine call `DbEnv::txn_begin` (Berkeley DB,
outside the repository): the new transaction is a child of the given parent (a
root when the parent is null) and starts from the view of its parent, or from
the committed data. -/
def envTxnBegin (w : World) (parent : Option Nat) : World × Int × Option Nat :=
  match engineView w parent with
  | none => (w.logCall (Call.txnBegin parent none), c.EINVAL, none)
  | some fs =>
    let id := w.nextTxn
    ({ w with txns := w.txns ++ [{ id := id, parent := parent, view := fs }],
              nextTxn := id + 1,
              log := Call.txnBegin parent (some id) :: w.log }, 0, some id)

/-- Modelled from the spec: the engine call `DbTxn::commit` (Berkeley DB,
outside the repository): the view of the transaction becomes the view of its
parent (or the committed data); the transaction is resolved. -/
def txnCommit (w : World) (id : Nat) : World × Int :=
  let w1 := w.logCall (Call.txnCommit id)
  match w.txns.find? (fun t => decide (t.id = id)) with
  | none => (w1, c.EINVAL)
  | some t =>
    let w2 := engineSetView w1 t.parent t.view
    ({ w2 with txns := dropSubtree [id] w2.txns }, 0)

/-- Modelled from the spec: the engine call `DbTxn::abort` (Berkeley DB, outside
the repository): the transaction is discarded, which cascades to its children. -/
def txnAbort (w : World) (id : Nat) : World × Int :=
  let w1 := w.logCall (Call.txnAbort id)
  match w.txns.find? (fun t => decide (t.id = id)) with
  | none => (w1, c.EINVAL)
  | some _ => ({ w1 with txns := dropSubtree [id] w1.txns }, 0)

/-! ## `mapFileUseCount` -/

/-- The open-count of a file, an absent entry counted as 0. -/
def mapCount : List (String × Int) → String → Int
  | [], _ => 0
  | (g, n) :: rest, f => if g = f then n else mapCount rest f

/-- `mapFileUseCount[f] += d`: `operator[]` creates a zero entry when the key is
absent; entries are kept in key order as in `std::map`. -/
def mapAdd : List (String × Int) → String → Int → List (String × Int)
  | [], f, d => [(f, 0 + d)]
  | (g, n) :: rest, f, d =>
    if g = f then (g, n + d) :: rest
    else if f < g then (f, 0 + d) :: (g, n) :: rest
    else (g, n) :: mapAdd rest f d

/-! ## Serialization -/

/-- `CDataStream << x` and `CDataStream >> x` for one type.  The serializer
(`serialize.h`) is not part of these sources, so it is a parameter; a failing
`>>` is `none`. -/
structure Codec (α : Type) where
  enc : α → Bytes
  dec : Bytes → Option α

/-- The serializers the constructor itself needs, and the `VERSION` constant. -/
structure Env where
  consts : DbConsts
  strCodec : Codec String
  intCodec : Codec Int
  VERSION : Int

/-! ## The handle `CDB` -/

/-- The data members of `CDB`. -/
structure CDB where
  pdb : Option Db
  strFile : String
  vTxn : List Nat
deriving Repr, DecidableEq

/-- `CDB::GetTxn`: the back of `vTxn`, or null. -/
def CDB.GetTxn (h : CDB) : Option Nat :=
  if h.vTxn ≠ [] then h.vTxn.getLast? else none

/-- Result of `CDB::Read`: the returned flag and the value left in the output
argument, or an exception from `ssValue >> value`. -/
inductive ReadOut (T : Type) where
  | ret (ok : Bool) (value : T)
  | threw
deriving Repr, DecidableEq

/-- `CDB::Read`. -/
def CDB.Read {K T : Type} (ck : Codec K) (cv : Codec T) (h : CDB) (w : World)
    (key : K) (value : T) : World × ReadOut T :=
  match h.pdb with
  | none => (w, ReadOut.ret false value)
  | some db =>
    let datKey := ck.enc key
    let r := Db.get c w db h.GetTxn datKey
    match r.2.2 with
    | none => (r.1, ReadOut.ret false value)
    | some datValue =>
      match cv.dec datValue with
      | none => (r.1, ReadOut.threw)
      | some v => (r.1, ReadOut.ret (decide (r.2.1 = 0)) v)

/-- `CDB::Write`. -/
def CDB.Write {K T : Type} (ck : Codec K) (cv : Codec T) (h : CDB) (w : World)
    (key : K) (value : T) (fOverwrite : Bool) : World × Bool :=
  match h.pdb with
  | none => (w, false)
  | some db =>
    let datKey := ck.enc key
    let datValue := cv.enc value
    let r := Db.put c w db h.GetTxn datKey datValue (if fOverwrite then 0 else c.DB_NOOVERWRITE)
    (r.1, decide (r.2 = 0))

/-- `CDB::Erase`. -/
def CDB.Erase {K : Type} (ck : Codec K) (h : CDB) (w : World) (key : K) : World × Bool :=
  match h.pdb with
  | none => (w, false)
  | some db =>
    let datKey := ck.enc key
    let r := Db.del c w db h.GetTxn datKey
    (r.1, decide (r.2 = 0 ∨ r.2 = c.DB_NOTFOUND))

/-- `CDB::Exists`. -/
def CDB.Exists {K : Type} (ck : Codec K) (h : CDB) (w : World) (key : K) : World × Bool :=
  match h.pdb with
  | none => (w, false)
  | some db =>
    let datKey := ck.enc key
    let r := Db.dbExists c w db h.GetTxn datKey
    (r.1, decide (r.2 = 0))

/-- `CDB::TxnBegin`. -/
def CDB.TxnBegin (h : CDB) (w : World) : World × CDB × Bool :=
  match h.pdb with
  | none => (w, h, false)
  | some _ =>
    let r := envTxnBegin c w h.GetTxn
    match r.2.2 with
    | none => (r.1, h, false)
    | some ptxn =>
      if r.2.1 ≠ 0 then (r.1, h, false)
      else (r.1, { h with vTxn := h.vTxn ++ [ptxn] }, true)

/-- `CDB::TxnCommit`. -/
def CDB.TxnCommit (h : CDB) (w : World) : World × CDB × Bool :=
  match h.pdb with
  | none => (w, h, false)
  | some _ =>
    match h.vTxn.getLast? with
    | none => (w, h, false)
    | some back =>
      let r := txnCommit c w back
      (r.1, { h with vTxn := h.vTxn.dropLast }, decide (r.2 = 0))

/-- `CDB::TxnAbort`. -/
def CDB.TxnAbort (h : CDB) (w : World) : World × CDB × Bool :=
  match h.pdb with
  | none => (w, h, false)
  | some _ =>
    match h.vTxn.getLast? with
    | none => (w, h, false)
    | some back =>
      let r := txnAbort c w back
      (r.1, { h with vTxn := h.vTxn.dropLast }, decide (r.2 = 0))

/-- `CDB::WriteVersion`. -/
def CDB.WriteVersion (e : Env) (h : CDB) (w : World) (nVersion : Int) : World × Bool :=
  CDB.Write e.consts e.strCodec e.intCodec h w "version" nVersion true

/-- `strchr(psz, ch) != NULL` for a character other than the terminator. -/
def strchr (psz : String) (ch : Char) : Bool :=
  psz.toList.contains ch

/-- The flag word `nFlags` that the constructor passes to `Db::open`. -/
def openFlags (pszMode : String) (fTxn : Bool) : Nat :=
  let fCreate := strchr pszMode 'c'
  let fReadOnly := !strchr pszMode '+' && !strchr pszMode 'w'
  let nFlags := c.DB_THREAD
  let nFlags :=
    if fCreate then nFlags ||| c.DB_CREATE
    else if fReadOnly then nFlags ||| c.DB_RDONLY
    else nFlags
  if !fReadOnly || fTxn then nFlags ||| c.DB_AUTO_COMMIT else nFlags

/-- The `runtime_error` thrown by the constructor: which open failed, for
which file, with which code. -/
inductive DbError where
  | envOpen (ret : Int)
  | dbOpen (file : String) (ret : Int)
deriving Repr, DecidableEq

/-- Outcome of the constructor: the process state, the members of the handle
at the point of return or throw, and the exception if one was thrown. -/
structure CtorOut where
  world : World
  handle : CDB
  thrown : Option DbError
deriving Repr, DecidableEq

/-- The constructor after the `CRITICAL_BLOCK` on the environment: register
the use of the file, create and open the `Db`, undo on a failed open, write the
version record into a created file.  (`RandAddSeed` has no effect on this
state.) -/
def CDB.newOpen (e : Env) (w1 : World) (file : String) (pszMode : String) (fTxn : Bool)
    (dbRet : Int) : CtorOut :=
  let fCreate := strchr pszMode 'c'
  let nFlags := openFlags e.consts pszMode fTxn
  let h1 : CDB := { pdb := none, strFile := file, vTxn := [] }
  let w2 : World := { w1 with mapFileUseCount := mapAdd w1.mapFileUseCount h1.strFile 1 }
  -- pdb = new Db(&dbenv, 0); ret = pdb->open(NULL, pszFile, "main", DB_BTREE, nFlags, 0)
  let h2 : CDB := { h1 with pdb := some { file := file } }
  let w3 := w2.logCall (Call.dbOpen file nFlags)
  if dbRet > 0 then
    let h3 : CDB := { h2 with pdb := none }
    let w4 : World := { w3 with mapFileUseCount := mapAdd w3.mapFileUseCount h3.strFile (-1) }
    let h4 : CDB := { h3 with strFile := "" }
    { world := w4, handle := h4, thrown := some (DbError.dbOpen file dbRet) }
  else if fCreate then
    let rEx := CDB.Exists e.consts e.strCodec h2 w3 "version"
    if !rEx.2 then
      { world := (CDB.WriteVersion e h2 rEx.1 e.VERSION).1, handle := h2, thrown := none }
    else { world := rEx.1, handle := h2, thrown := none }
  else { world := w3, handle := h2, thrown := none }

/-- The constructor `CDB::CDB(pszFile, pszMode, fTxn)`.  `envRet` and `dbRet`
are the return codes of `dbenv.open` and `pdb->open`, should they be called. -/
def CDB.new (e : Env) (w : World) (pszFile : Option String) (pszMode : String) (fTxn : Bool)
    (envRet dbRet : Int) : CtorOut :=
  let h0 : CDB := { pdb := none, strFile := "", vTxn := [] }
  match pszFile with
  | none => { world := w, handle := h0, thrown := none }
  | some file =>
    if !w.fDbEnvInit then
      let wEnv := w.logCall Call.envOpen
      if envRet > 0 then
        { world := wEnv, handle := h0, thrown := some (DbError.envOpen envRet) }
      else CDB.newOpen e { wEnv with fDbEnvInit := true } file pszMode fTxn dbRet
    else CDB.newOpen e w file pszMode fTxn dbRet

/-- `CDB::Close`. -/
def CDB.Close (h : CDB) (w : World) : World × CDB :=
  match h.pdb with
  | none => (w, h)
  | some db =>
    let w1 : World :=
      match h.vTxn.head? with
      | some front => (txnAbort c w front).1
      | none => w
    let h1 : CDB := { h with vTxn := [] }
    let w2 := w1.logCall (Call.dbClose db.file)
    let h2 : CDB := { h1 with pdb := none }
    let w3 := w2.logCall Call.txnCheckpoint
    let w4 : World := { w3 with mapFileUseCount := mapAdd w3.mapFileUseCount h2.strFile (-1) }
    (w4, h2)

/-- The `while` loop of `DBFlush` over the entries of `mapFileUseCount`:
returns the entries that stay and the log extended by the `lsn_reset` calls. -/
def flushLoop (log : List Call) : List (String × Int) → List (String × Int) × List Call
  | [] => ([], log)
  | (strFile, nRefCount) :: rest =>
    if nRefCount = 0 then flushLoop (Call.lsnReset strFile :: log) rest
    else
      let r := flushLoop log rest
      ((strFile, nRefCount) :: r.1, r.2)

/-- `DBFlush(fShutdown)`. -/
def DBFlush (w : World) (fShutdown : Bool) : World :=
  let w1 := w.logCall Call.txnCheckpoint
  let r := flushLoop w1.log w1.mapFileUseCount
  let w2 : World := { w1 with mapFileUseCount := r.1, log := r.2 }
  if fShutdown then
    let w3 : World := if w2.mapFileUseCount.isEmpty then w2.logCall Call.logArchive else w2
    let w4 := w3.logCall Call.envClose
    { w4 with fDbEnvInit := false }
  else w2

/-! ## `CWalletDB` key records -/

/-- The serializers of the `("key", pubkey) -> privkey` records. -/
structure KeyCodec where
  key : Codec (String × Bytes)
  priv : Codec Bytes

/-- `CWalletDB::ReadKey`: the private key is cleared, then read. -/
def CWalletDB.ReadKey (kc : KeyCodec) (h : CDB) (w : World) (vchPubKey : Bytes)
    (_vchPrivKey : Bytes) : World × ReadOut Bytes :=
  CDB.Read c kc.key kc.priv h w ("key", vchPubKey) []

/-- `CWalletDB::WriteKey`: a put that does not overwrite. -/
def CWalletDB.WriteKey (kc : KeyCodec) (h : CDB) (w : World) (vchPubKey vchPrivKey : Bytes) :
    World × Bool :=
  CDB.Write c kc.key kc.priv h w ("key", vchPubKey) vchPrivKey false

/-! ## The process as a state machine -/

/-- The operations of the environment manager. -/
inductive Op where
  | construct (pszFile : Option String) (pszMode : String) (fTxn : Bool) (envRet dbRet : Int)
  | close (i : Nat)
  | flush (fShutdown : Bool)
deriving Repr, DecidableEq

/-- The process state together with the handle objects that exist. -/
structure Sys where
  world : World
  handles : List CDB
deriving Repr, DecidableEq

/-- The state at program start. -/
def Sys.init : Sys := { world := World.init, handles := [] }

/-- One operation.  A constructor that throws leaves no object behind; `close i`
calls `Close` on the `i`-th handle object. -/
def Sys.step (e : Env) (s : Sys) : Op → Sys
  | Op.construct pszFile pszMode fTxn envRet dbRet =>
    let r := CDB.new e s.world pszFile pszMode fTxn envRet dbRet
    match r.thrown with
    | some _ => { s with world := r.world }
    | none => { world := r.world, handles := s.handles ++ [r.handle] }
  | Op.close i =>
    match s.handles[i]? with
    | none => s
    | some h =>
      let r := CDB.Close e.consts h s.world
      { world := r.1, handles := s.handles.set i r.2 }
  | Op.flush fShutdown => { s with world := DBFlush s.world fShutdown }

/-- Run a sequence of operations. -/
def Sys.run (e : Env) : Sys → List Op → Sys
  | s, [] => s
  | s, op :: ops => Sys.run e (Sys.step e s op) ops

/-- Whether `op`, executed in state `s`, is a successful construction on `f`. -/
def opensOn (e : Env) (s : Sys) (op : Op) (f : String) : Bool :=
  match op with
  | Op.construct (some g) pszMode fTxn envRet dbRet =>
    decide (g = f) && (CDB.new e s.world (some g) pszMode fTxn envRet dbRet).thrown.isNone
  | _ => false

/-- Whether `op`, executed in state `s`, is a `Close` of a handle open on `f`. -/
def closesOn (s : Sys) (op : Op) (f : String) : Bool :=
  match op with
  | Op.close i =>
    match s.handles[i]? with
    | some h => h.pdb.isSome && decide (h.strFile = f)
    | none => false
  | _ => false

/-- Number of successful constructions on `f` along a run. -/
def countOpens (e : Env) : Sys → List Op → String → Nat
  | _, [], _ => 0
  | s, op :: ops, f =>
    (if opensOn e s op f then 1 else 0) + countOpens e (Sys.step e s op) ops f

/-- Number of `Close` calls on handles open on `f` along a run. -/
def countCloses (e : Env) : Sys → List Op → String → Nat
  | _, [], _ => 0
  | s, op :: ops, f =>
    (if closesOn s op f then 1 else 0) + countCloses e (Sys.step e s op) ops f

/-- An identity serializer on byte strings and simple serializers for the
constructor, used to evaluate the model on examples. -/
def bytesCodec : Codec Bytes := { enc := fun b => b, dec := fun b => some b }

/-- A sample serializer for strings: a length byte followed by the characters. -/
def sampleStrCodec : Codec String :=
  { enc := fun s => s.length :: s.toList.map Char.toNat,
    dec := fun b => some (String.mk ((b.drop 1).map Char.ofNat)) }

/-- A sample serializer for integers. -/
def sampleIntCodec : Codec Int :=
  { enc := fun n => [n.toNat], dec := fun b => some (Int.ofNat (b.headD 0)) }

/-- A sample environment of constants and serializers. -/
def sampleEnv : Env :=
  { consts := sampleConsts, strCodec := sampleStrCodec, intCodec := sampleIntCodec, VERSION := 105 }

/-- The value the engine holds for a key of a database, seen through a
transaction argument (`none` also when the argument is not an active
transaction). -/
def engineLookup (w : World) (db : Db) (txn : Option Nat) (key : Bytes) : Option Bytes :=
  (engineView w txn).bind (fun fs => storeGet (filesGet fs db.file) key)

/-- An open handle on `wallet.dat` with an empty transaction stack. -/
def sampleHandle : CDB := { pdb := some { file := "wallet.dat" }, strFile := "wallet.dat", vTxn := [] }

/-- Whether a handle object is open (database pointer non-null) on file `f`. -/
def CDB.openOnFile (h : CDB) (f : String) : Bool :=
  h.pdb.isSome && decide (h.strFile = f)

/-- Number of handle objects that are open on file `f`. -/
def openHandles (hs : List CDB) (f : String) : Nat :=
  hs.countP (fun h => h.openOnFile f)

/-- The representation invariant of `std::map`: keys strictly increasing. -/
def MapWF (m : List (String × Int)) : Prop :=
  (m.map Prod.fst).Pairwise (fun a b => a < b)

/-- Invariant of the state machine: `mapFileUseCount` is a well-formed map and
the count of every file is the number of handle objects open on it. -/
def Sys.Inv (s : Sys) : Prop :=
  MapWF s.world.mapFileUseCount ∧
  ∀ f, mapCount s.world.mapFileUseCount f = (openHandles s.handles f : Int)

/-- The flag word `w` contains the flag `F`. -/
def hasFlag (w F : Nat) : Prop := w &&& F = F

instance (w F : Nat) : Decidable (hasFlag w F) := by
  unfold hasFlag; infer_instance

/-- No entry of `mapFileUseCount` has a positive count. -/
def noFileInUse (w : World) : Bool :=
  w.mapFileUseCount.all (fun e => decide (e.2 ≤ 0))

/-- Along the run, every `DBFlush(true)` is invoked in a state in which no file
is in use. -/
def shutdownOnlyWhenIdle (e : Env) : Sys → List Op → Prop
  | _, [] => True
  | s, op :: ops =>
    (op = Op.flush true → noFileInUse s.world = true) ∧
    shutdownOnlyWhenIdle e (Sys.step e s op) ops

/-- Engine invariant: transaction identities are allocated below `nextTxn`. -/
def World.TxnWF (w : World) : Prop :=
  ∀ t ∈ w.txns, t.id < w.nextTxn

/-- The sequence `TxnBegin; Write(k, v); TxnAbort` on a handle. -/
def beginWriteAbort {K T : Type} (ck : Codec K) (cv : Codec T) (h : CDB) (w : World)
    (k : K) (v : T) : World × CDB :=
  let r1 := CDB.TxnBegin c h w
  let r2 := CDB.Write c ck cv r1.2.1 r1.1 k v true
  let r3 := CDB.TxnAbort c r1.2.1 r2.1
  (r3.1, r3.2.1)

/-- The sequence `TxnBegin; Write(k, v); TxnCommit` on a handle. -/
def beginWriteCommit {K T : Type} (ck : Codec K) (cv : Codec T) (h : CDB) (w : World)
    (k : K) (v : T) : World × CDB :=
  let r1 := CDB.TxnBegin c h w
  let r2 := CDB.Write c ck cv r1.2.1 r1.1 k v true
  let r3 := CDB.TxnCommit c r1.2.1 r2.1
  (r3.1, r3.2.1)

/-- The sequence `TxnBegin; TxnBegin; Write(k, v); TxnAbort; TxnCommit` on a
handle. -/
def beginBeginWriteAbortCommit {K T : Type} (ck : Codec K) (cv : Codec T) (h : CDB) (w : World)
    (k : K) (v : T) : World × CDB :=
  let r1 := CDB.TxnBegin c h w
  let r2 := CDB.TxnBegin c r1.2.1 r1.1
  let r3 := CDB.Write c ck cv r2.2.1 r2.1 k v true
  let r4 := CDB.TxnAbort c r2.2.1 r3.1
  let r5 := CDB.TxnCommit c r4.2.1 r4.1
  (r5.1, r5.2.1)

/-- A state with data in `wallet.dat` and a transaction of another handle in
progress. -/
def sampleWorld : World :=
  { fDbEnvInit := true, mapFileUseCount := [("wallet.dat", 1)],
    data := [("wallet.dat", [([5], [6])])],
    txns := [{ id := 3, parent := none, view := [("wallet.dat", [([5], [6])])] }],
    nextTxn := 4, log := [] }

/-- A wallet state that already holds the key record `[7] -> [8]`. -/
def sampleKeyWorld : World :=
  { World.init with fDbEnvInit := true, mapFileUseCount := [("wallet.dat", 1)],
                    data := [("wallet.dat", [([3, 7], [8])])] }

/-- A sample serializer of key records: a tag byte followed by the public key. -/
def sampleKeyCodec : KeyCodec :=
  { key := { enc := fun p => p.1.length :: p.2, dec := fun b => some ("key", b.drop 1) },
    priv := bytesCodec }

/-! ## Cursors -/

/-- The cursor operation codes of the engine header `db_cxx.h`, which is not
part of the repository; parameters of the development. -/
structure CursorConsts where
  DB_NEXT : Nat
  DB_SET : Nat
  DB_SET_RANGE : Nat
  DB_GET_BOTH : Nat
  DB_GET_BOTH_RANGE : Nat
deriving Repr, DecidableEq

/-- `DB_NEXT` is different from the operation codes that take a key. -/
structure CursorConsts.WF (cc : CursorConsts) : Prop where
  next_set : cc.DB_NEXT ≠ cc.DB_SET
  next_range : cc.DB_NEXT ≠ cc.DB_SET_RANGE
  next_both : cc.DB_NEXT ≠ cc.DB_GET_BOTH
  next_both_range : cc.DB_NEXT ≠ cc.DB_GET_BOTH_RANGE

/-- A concrete choice of the cursor operation codes. -/
def sampleCursorConsts : CursorConsts :=
  { DB_NEXT := 16, DB_SET := 26, DB_SET_RANGE := 27, DB_GET_BOTH := 8, DB_GET_BOTH_RANGE := 10 }

/-- A cursor (`Dbc`) over one database: the records of the database in key
order as of the creation of the cursor, and the records after the current
position. -/
structure Dbc where
  all : List (Bytes × Bytes)
  rest : List (Bytes × Bytes)
deriving Repr, DecidableEq

variable (cc : CursorConsts)

/-- Modelled from the spec: the engine call `Db::cursor` (Berkeley DB, outside
the repository): a cursor bound to no transaction, positioned before the first
record of the committed data. -/
def Db.cursor (w : World) (db : Db) : Int × Option Dbc :=
  (0, some { all := filesGet w.data db.file, rest := filesGet w.data db.file })

/-- Modelled from the spec: the engine call `Dbc::get` (Berkeley DB, outside
the repository).  `DB_SET_RANGE` moves to the first record whose key is not
below the given key, `DB_NEXT` to the next record; both give `DB_NOTFOUND` when
there is no such record.  Other operation codes are not modelled. -/
def Dbc.get (cur : Dbc) (datKey _datValue : Option Bytes) (flags : Nat) :
    Dbc × Int × Option Bytes × Option Bytes :=
  if flags = cc.DB_SET_RANGE then
    match datKey with
    | none => (cur, c.EINVAL, none, none)
    | some key =>
      match cur.all.dropWhile (fun r => bytesLt r.1 key) with
      | [] => (cur, c.DB_NOTFOUND, none, none)
      | r :: rs => ({ cur with rest := rs }, 0, some r.1, some r.2)
  else if flags = cc.DB_NEXT then
    match cur.rest with
    | [] => (cur, c.DB_NOTFOUND, none, none)
    | r :: rs => ({ cur with rest := rs }, 0, some r.1, some r.2)
  else (cur, c.EINVAL, none, none)

/-- `CDB::GetCursor`. -/
def CDB.GetCursor (h : CDB) (w : World) : Option Dbc :=
  match h.pdb with
  | none => none
  | some db =>
    let r := Db.cursor w db
    if r.1 ≠ 0 then none else r.2

/-- `CDB::ReadAtCursor`: the cursor after the call, the return code, and the
contents of `ssKey` and `ssValue` after the call. -/
def CDB.ReadAtCursor (pcursor : Dbc) (ssKey ssValue : Bytes) (fFlags : Nat) :
    Dbc × Int × Bytes × Bytes :=
  let datKey : Option Bytes :=
    if fFlags = cc.DB_SET ∨ fFlags = cc.DB_SET_RANGE ∨ fFlags = cc.DB_GET_BOTH ∨
        fFlags = cc.DB_GET_BOTH_RANGE then some ssKey else none
  let datValue : Option Bytes :=
    if fFlags = cc.DB_GET_BOTH ∨ fFlags = cc.DB_GET_BOTH_RANGE then some ssValue else none
  let r := Dbc.get c cc pcursor datKey datValue fFlags
  if r.2.1 ≠ 0 then (r.1, r.2.1, ssKey, ssValue)
  else
    match r.2.2.1, r.2.2.2 with
    | some k, some v => (r.1, 0, k, v)
    | _, _ => (r.1, 99999, ssKey, ssValue)

/-- The handle operations on `h` do nothing: every point operation and every
transaction operation returns false and leaves the process state (and so the
engine call log) as it was, `GetCursor` returns null, and `Close` changes
nothing. -/
def CDB.Inert (h : CDB) : Prop :=
  (∀ (K T : Type) (ck : Codec K) (cv : Codec T) (w : World) (k : K) (v : T),
    CDB.Read c ck cv h w k v = (w, ReadOut.ret false v) ∧
    (∀ fOverwrite, CDB.Write c ck cv h w k v fOverwrite = (w, false)) ∧
    CDB.Erase c ck h w k = (w, false) ∧
    CDB.Exists c ck h w k = (w, false)) ∧
  (∀ w : World,
    CDB.TxnBegin c h w = (w, h, false) ∧
    CDB.TxnCommit c h w = (w, h, false) ∧
    CDB.TxnAbort c h w = (w, h, false) ∧
    CDB.GetCursor h w = none ∧
    CDB.Close c h w = (w, h))

/-- The constructor `CTxDB::CTxDB(pszMode, fTxn)`: the file is `blkindex.dat`,
or null when the global `fClient` is set. -/
def CTxDB.new (e : Env) (w : World) (fClient : Bool) (pszMode : String) (fTxn : Bool)
    (envRet dbRet : Int) : CtorOut :=
  CDB.new e w (if !fClient then some "blkindex.dat" else none) pszMode fTxn envRet dbRet

/-! ## The transaction stack as a state machine -/

/-- The public transaction operations of a handle. -/
inductive TxnOp where
  | begin
  | commit
  | abort
deriving Repr, DecidableEq

/-- One transaction operation on a handle. -/
def CDB.txnStep (s : World × CDB) : TxnOp → World × CDB
  | TxnOp.begin => ((CDB.TxnBegin c s.2 s.1).1, (CDB.TxnBegin c s.2 s.1).2.1)
  | TxnOp.commit => ((CDB.TxnCommit c s.2 s.1).1, (CDB.TxnCommit c s.2 s.1).2.1)
  | TxnOp.abort => ((CDB.TxnAbort c s.2 s.1).1, (CDB.TxnAbort c s.2 s.1).2.1)

/-- A sequence of transaction operations on a handle. -/
def CDB.txnRun : World × CDB → List TxnOp → World × CDB
  | s, [] => s
  | s, op :: ops => CDB.txnRun (CDB.txnStep c s op) ops

/-- Transaction `id` was begun with the given parent (null for a root): the
engine call log holds the `txn_begin` call that created it. -/
def begunAs (log : List Call) (id : Nat) (parent : Option Nat) : Prop :=
  Call.txnBegin parent (some id) ∈ log

/-- The stack is a parent-to-child chain: its first element was begun with
parent `start`, every other element with the element before it as parent. -/
def StackChain (log : List Call) : Option Nat → List Nat → Prop
  | _, [] => True
  | start, t :: ts => begunAs log t start ∧ StackChain log (some t) ts

/-- Engine invariant on the call log: every transaction identity created by a
logged `txn_begin` is below `nextTxn`, and no identity was created twice. -/
def World.LogWF (w : World) : Prop :=
  (∀ p id, Call.txnBegin p (some id) ∈ w.log → id < w.nextTxn) ∧
  (∀ p q id, Call.txnBegin p (some id) ∈ w.log → Call.txnBegin q (some id) ∈ w.log → p = q)

/-- Invariant of a handle in a process state: the stack is a chain from a root,
has no repetition, holds identities below `nextTxn`, the call log is
well-formed, and a handle without a database has an empty stack. -/
def CDB.StackInv (w : World) (h : CDB) : Prop :=
  StackChain w.log none h.vTxn ∧ h.vTxn.Nodup ∧ (∀ t ∈ h.vTxn, t < w.nextTxn) ∧ w.LogWF ∧
  (h.pdb = none → h.vTxn = [])

/-! ## Cursor scans -/

/-- `CDataStream >> x` for one type: a value is taken off the front of the
stream and the rest of the stream is returned; `none` is the exception thrown
on malformed or missing data.  The serializer is not part of these sources, so
it is a parameter. -/
abbrev Unser (α : Type) := Bytes → Option (α × Bytes)

/-- How one pass through the body of a scan loop ends. -/
inductive BodyOut (σ : Type) where
  | next (st : σ)
  | brk (st : σ)
  | ret (b : Bool) (st : σ)
  | throw (st : σ)
  | fault (st : σ)
deriving Repr, DecidableEq

/-- How a scan loop ends: left by `break` or at the end of the data, left by
`return b`, left by an exception or by a null dereference; `outOfFuel` is the
bound of the model on the number of iterations. -/
inductive LoopOut (σ : Type) where
  | finished (st : σ)
  | returned (b : Bool) (st : σ)
  | threw (st : σ)
  | fault (st : σ)
  | outOfFuel
deriving Repr, DecidableEq

/-- The scan loop of the loaders:
`loop { if (fFlags == DB_SET_RANGE) ssKey << seek; ret = ReadAtCursor(...);
fFlags = DB_NEXT; if (ret == DB_NOTFOUND) break; else if (ret != 0) return
false; body }`. -/
def cursorLoop {σ : Type} (body : σ → Bytes → Bytes → BodyOut σ) (seek : Bytes) :
    Nat → Dbc → Nat → σ → LoopOut σ
  | 0, _, _, _ => LoopOut.outOfFuel
  | fuel + 1, pcursor, fFlags, st =>
    let ssKey : Bytes := if fFlags = cc.DB_SET_RANGE then seek else []
    let r := CDB.ReadAtCursor c cc pcursor ssKey [] fFlags
    if r.2.1 = c.DB_NOTFOUND then LoopOut.finished st
    else if r.2.1 ≠ 0 then LoopOut.returned false st
    else
      match body st r.2.2.1 r.2.2.2 with
      | BodyOut.next st' => cursorLoop body seek fuel r.1 cc.DB_NEXT st'
      | BodyOut.brk st' => LoopOut.finished st'
      | BodyOut.ret b st' => LoopOut.returned b st'
      | BodyOut.throw st' => LoopOut.threw st'
      | BodyOut.fault st' => LoopOut.fault st'

/-- The body of a scan loop run over a list of records in order. -/
def scanList {σ : Type} (body : σ → Bytes → Bytes → BodyOut σ) :
    List (Bytes × Bytes) → σ → LoopOut σ
  | [], st => LoopOut.finished st
  | r :: rs, st =>
    match body st r.1 r.2 with
    | BodyOut.next st' => scanList body rs st'
    | BodyOut.brk st' => LoopOut.finished st'
    | BodyOut.ret b st' => LoopOut.returned b st'
    | BodyOut.throw st' => LoopOut.threw st'
    | BodyOut.fault st' => LoopOut.fault st'

/-! ## The block index and its loader -/

/-- The on-disk block-index record `CDiskBlockIndex`.  The class is declared
outside these sources; the fields are those the loader reads. -/
structure CDiskBlockIndex where
  hashPrev : Nat
  hashNext : Nat
  nFile : Nat
  nBlockPos : Nat
  nHeight : Int
  nVersion : Int
  hashMerkleRoot : Nat
  nTime : Nat
  nBits : Nat
  nNonce : Nat
deriving Repr, DecidableEq

/-- The in-memory node `CBlockIndex`.  Pointers to nodes are indices into the
list of allocated nodes; `phashBlock` points at the key of the node in
`mapBlockIndex` and is represented by that key. -/
structure CBlockIndex where
  phashBlock : Option Nat
  pprev : Option Nat
  pnext : Option Nat
  nFile : Nat
  nBlockPos : Nat
  nHeight : Int
  nVersion : Int
  hashMerkleRoot : Nat
  nTime : Nat
  nBits : Nat
  nNonce : Nat
deriving Repr, DecidableEq

/-- The node made by `new CBlockIndex()`: null pointers, zero fields. -/
def CBlockIndex.null : CBlockIndex :=
  { phashBlock := none, pprev := none, pnext := none, nFile := 0, nBlockPos := 0, nHeight := 0,
    nVersion := 0, hashMerkleRoot := 0, nTime := 0, nBits := 0, nNonce := 0 }

/-- The globals the block-index loader works on: the allocated nodes,
`mapBlockIndex` (hash to node pointer), `pindexGenesisBlock`, `pindexBest`,
`hashBestChain`, `nBestHeight`. -/
structure Chain where
  heap : List CBlockIndex
  mapBlockIndex : List (Nat × Nat)
  pindexGenesisBlock : Option Nat
  pindexBest : Option Nat
  hashBestChain : Nat
  nBestHeight : Int
deriving Repr, DecidableEq

/-- The globals at program start: no node, empty `mapBlockIndex`. -/
def Chain.empty : Chain :=
  { heap := [], mapBlockIndex := [], pindexGenesisBlock := none, pindexBest := none,
    hashBestChain := 0, nBestHeight := -1 }

/-- `mapBlockIndex.find(hash)`. -/
def mapFind : List (Nat × Nat) → Nat → Option Nat
  | [], _ => none
  | (k, p) :: rest, hash => if k = hash then some p else mapFind rest hash

/-- What the loader needs from outside these sources: the hash of a record
(`CDiskBlockIndex::GetBlockHash`), the constant `hashGenesisBlock`, and the
serializers. -/
structure BlockEnv where
  GetBlockHash : CDiskBlockIndex → Nat
  hashGenesisBlock : Nat
  unserString : Unser String
  unserDiskIndex : Unser CDiskBlockIndex
  keyCodec : Codec (String × Nat)
  strCodec : Codec String
  hashCodec : Codec Nat

/-- `InsertBlockIndex(hash)`: null for the zero hash, the existing node of the
hash, or a new node entered into `mapBlockIndex`. -/
def InsertBlockIndex (st : Chain) (hash : Nat) : Chain × Option Nat :=
  if hash = 0 then (st, none)
  else
    match mapFind st.mapBlockIndex hash with
    | some p => (st, some p)
    | none =>
      let pindexNew := st.heap.length
      ({ st with heap := st.heap ++ [{ CBlockIndex.null with phashBlock := some hash }],
                 mapBlockIndex := st.mapBlockIndex ++ [(hash, pindexNew)] }, some pindexNew)

/-- The assignments `pindexNew->pprev = ...` to `pindexNew->nNonce = ...` of
`LoadBlockIndex`; `phashBlock` is left as it is. -/
def CBlockIndex.assign (n : CBlockIndex) (pprev pnext : Option Nat) (diskindex : CDiskBlockIndex) :
    CBlockIndex :=
  { n with pprev := pprev, pnext := pnext, nFile := diskindex.nFile,
           nBlockPos := diskindex.nBlockPos, nHeight := diskindex.nHeight,
           nVersion := diskindex.nVersion, hashMerkleRoot := diskindex.hashMerkleRoot,
           nTime := diskindex.nTime, nBits := diskindex.nBits, nNonce := diskindex.nNonce }

/-- The block `// Construct block index object` of `LoadBlockIndex` for one
decoded record, with the watch for the genesis block. -/
def constructBlockIndex (be : BlockEnv) (st : Chain) (diskindex : CDiskBlockIndex) :
    BodyOut Chain :=
  let r1 := InsertBlockIndex st (be.GetBlockHash diskindex)
  let r2 := InsertBlockIndex r1.1 diskindex.hashPrev
  match r1.2 with
  | none => BodyOut.fault r2.1
  | some pindexNew =>
    let r3 := InsertBlockIndex r2.1 diskindex.hashNext
    let st3 := r3.1
    let st4 : Chain :=
      { st3 with heap := st3.heap.modify (fun n => n.assign r2.2 r3.2 diskindex) pindexNew }
    if st4.pindexGenesisBlock = none ∧ be.GetBlockHash diskindex = be.hashGenesisBlock then
      BodyOut.next { st4 with pindexGenesisBlock := some pindexNew }
    else BodyOut.next st4

/-- The body of the scan loop of `CTxDB::LoadBlockIndex`. -/
def loadBlockIndexBody (be : BlockEnv) (st : Chain) (ssKey ssValue : Bytes) : BodyOut Chain :=
  match be.unserString ssKey with
  | none => BodyOut.throw st
  | some (strType, _) =>
    if strType = "blockindex" then
      match be.unserDiskIndex ssValue with
      | none => BodyOut.throw st
      | some (diskindex, _) => constructBlockIndex be st diskindex
    else BodyOut.brk st

/-- How a loader call ends: it returns a flag, an exception propagates, a null
pointer is dereferenced, or the iteration bound of the model is hit. -/
inductive CallOut where
  | ret (b : Bool)
  | threw
  | fault
  | outOfFuel
deriving Repr, DecidableEq

/-- `CTxDB::ReadHashBestChain` followed by the tail of `LoadBlockIndex`. -/
def loadBestChain (be : BlockEnv) (h : CDB) (w : World) (st : Chain) : World × Chain × CallOut :=
  let r := CDB.Read c be.strCodec be.hashCodec h w "hashBestChain" st.hashBestChain
  match r.2 with
  | ReadOut.threw => (r.1, st, CallOut.threw)
  | ReadOut.ret ok value =>
    let st1 : Chain := { st with hashBestChain := value }
    if !ok then
      if st1.pindexGenesisBlock = none then (r.1, st1, CallOut.ret true)
      else (r.1, st1, CallOut.ret false)
    else
      match mapFind st1.mapBlockIndex st1.hashBestChain with
      | none => (r.1, st1, CallOut.ret false)
      | some pindexBest =>
        match st1.heap[pindexBest]? with
        | none => (r.1, { st1 with pindexBest := some pindexBest }, CallOut.fault)
        | some node =>
          (r.1, { st1 with pindexBest := some pindexBest, nBestHeight := node.nHeight },
            CallOut.ret true)

/-- `CTxDB::LoadBlockIndex`. -/
def CTxDB.LoadBlockIndex (be : BlockEnv) (h : CDB) (w : World) (st : Chain) :
    World × Chain × CallOut :=
  match CDB.GetCursor h w with
  | none => (w, st, CallOut.ret false)
  | some pcursor =>
    match cursorLoop c cc (loadBlockIndexBody be) (be.keyCodec.enc ("blockindex", 0))
        (pcursor.all.length + 1) pcursor cc.DB_SET_RANGE st with
    | LoopOut.finished st1 => loadBestChain c be h w st1
    | LoopOut.returned b st1 => (w, st1, CallOut.ret b)
    | LoopOut.threw st1 => (w, st1, CallOut.threw)
    | LoopOut.fault st1 => (w, st1, CallOut.fault)
    | LoopOut.outOfFuel => (w, st, CallOut.outOfFuel)

/-! ## Sample serializers, for evaluating the loaders on examples -/

/-- A sample string serializer: a length byte followed by the characters. -/
def sampleSerString (s : String) : Bytes :=
  s.length :: s.toList.map Char.toNat

/-- The matching `>>`: fails when the stream is shorter than the length byte
says. -/
def sampleUnserString : Unser String
  | [] => none
  | len :: rest =>
    if len ≤ rest.length then some (String.mk ((rest.take len).map Char.ofNat), rest.drop len)
    else none

/-- A sample `>>` for a fixed number of bytes, read as one little-endian
number. -/
def sampleUnserFixed (n : Nat) : Unser Nat := fun b =>
  if n ≤ b.length then some ((b.take n).foldr (fun x acc => x + 256 * acc) 0, b.drop n)
  else none

/-- A sample serializer of block-index records: ten fields, one byte each. -/
def sampleSerDiskIndex (d : CDiskBlockIndex) : Bytes :=
  [d.hashPrev, d.hashNext, d.nFile, d.nBlockPos, d.nHeight.toNat, d.nVersion.toNat,
    d.hashMerkleRoot, d.nTime, d.nBits, d.nNonce]

/-- The matching `>>`. -/
def sampleUnserDiskIndex : Unser CDiskBlockIndex
  | a :: b :: f :: p :: ht :: v :: m :: t :: bits :: n :: rest =>
    some ({ hashPrev := a, hashNext := b, nFile := f, nBlockPos := p, nHeight := ht,
            nVersion := v, hashMerkleRoot := m, nTime := t, nBits := bits, nNonce := n }, rest)
  | _ => none

/-- A sample environment of the block-index loader.  Like the hash of the
sources, the sample block hash is a function of header fields only (here the
nonce) and not of `nFile`, `nBlockPos`, `nHeight` or `hashNext`. -/
def sampleBlockEnv : BlockEnv :=
  { GetBlockHash := fun d => d.nNonce,
    hashGenesisBlock := 1,
    unserString := sampleUnserString,
    unserDiskIndex := sampleUnserDiskIndex,
    keyCodec := { enc := fun p => sampleSerString p.1 ++ [p.2], dec := fun _ => none },
    strCodec := { enc := sampleSerString, dec := fun b => (sampleUnserString b).map Prod.fst },
    hashCodec := { enc := fun n => [n], dec := fun b => b.head? } }

/-- A sample block-index record with the given previous hash, next hash,
height and nonce. -/
def sampleDiskIndex (hashPrev hashNext : Nat) (nHeight : Int) (nNonce : Nat) : CDiskBlockIndex :=
  { hashPrev := hashPrev, hashNext := hashNext, nFile := 1, nBlockPos := 0, nHeight := nHeight,
    nVersion := 1, hashMerkleRoot := 0, nTime := 0, nBits := 0, nNonce := nNonce }

/-- An open handle on `blkindex.dat` with an empty transaction stack. -/
def sampleTxHandle : CDB :=
  { pdb := some { file := "blkindex.dat" }, strFile := "blkindex.dat", vTxn := [] }

/-- A process state whose `blkindex.dat` holds the given records. -/
def sampleTxWorld (records : Store) : World :=
  { World.init with fDbEnvInit := true, mapFileUseCount := [("blkindex.dat", 1)],
                    data := [("blkindex.dat", records)] }

/-- The state left by one pass through a loop body. -/
def BodyOut.state {σ : Type} : BodyOut σ → σ
  | BodyOut.next st => st
  | BodyOut.brk st => st
  | BodyOut.ret _ st => st
  | BodyOut.throw st => st
  | BodyOut.fault st => st

/-- The node pointer for a hash: null for the zero hash, the entry of
`mapBlockIndex` otherwise. -/
def nodeFor (st : Chain) (hash : Nat) : Option Nat :=
  if hash = 0 then none else mapFind st.mapBlockIndex hash

/-- The record `r` is represented in the block index: `mapBlockIndex` has a
node for its hash, the scalar fields of the node are those of the record,
`pprev` and `pnext` are the nodes of `hashPrev` and `hashNext` (null for a zero
hash), and those nodes exist. -/
def Chain.Holds (be : BlockEnv) (st : Chain) (r : CDiskBlockIndex) : Prop :=
  ∃ p, mapFind st.mapBlockIndex (be.GetBlockHash r) = some p ∧
    st.heap[p]? = some (CBlockIndex.assign
      { CBlockIndex.null with phashBlock := some (be.GetBlockHash r) }
      (nodeFor st r.hashPrev) (nodeFor st r.hashNext) r) ∧
    (r.hashPrev ≠ 0 → (mapFind st.mapBlockIndex r.hashPrev).isSome) ∧
    (r.hashNext ≠ 0 → (mapFind st.mapBlockIndex r.hashNext).isSome)

/-- Representation invariant of the block index: the pointers in
`mapBlockIndex` are the allocated nodes, one each; keys are not repeated and
not zero; the node of a key carries that key. -/
def Chain.WF (st : Chain) : Prop :=
  st.mapBlockIndex.map Prod.snd = List.range st.heap.length ∧
  (st.mapBlockIndex.map Prod.fst).Nodup ∧
  0 ∉ st.mapBlockIndex.map Prod.fst ∧
  ∀ k p, mapFind st.mapBlockIndex k = some p →
    ∃ n, st.heap[p]? = some n ∧ n.phashBlock = some k

/-- The block index `st'` extends `st`: entries of `mapBlockIndex` and
allocated nodes are kept. -/
def Chain.Ext (st st' : Chain) : Prop :=
  (∀ k q, mapFind st.mapBlockIndex k = some q → mapFind st'.mapBlockIndex k = some q) ∧
  (∀ i, i < st.heap.length → st'.heap[i]? = st.heap[i]?)

/-- The records delivered to the loop of `LoadBlockIndex`, processed in
order. -/
def loadRecords (be : BlockEnv) (st : Chain) (recs : List CDiskBlockIndex) : Chain :=
  recs.foldl (fun st r => (constructBlockIndex be st r).state) st

/-- The raw records `raw` are `"blockindex"` records that decode to `recs`, in
the same order. -/
def DeliversRecords (be : BlockEnv) (raw : List (Bytes × Bytes)) (recs : List CDiskBlockIndex) :
    Prop :=
  List.Forall₂ (fun kv r => ∃ restKey restValue,
    be.unserString kv.1 = some ("blockindex", restKey) ∧
    be.unserDiskIndex kv.2 = some (r, restValue)) raw recs

/-- The records after the `"blockindex"` family: none, or a first record
whose tag decodes to another family. -/
def StopsAt (be : BlockEnv) (tail : List (Bytes × Bytes)) : Prop :=
  tail = [] ∨ ∃ kv rest strType restKey, tail = kv :: rest ∧
    be.unserString kv.1 = some (strType, restKey) ∧ strType ≠ "blockindex"

/-- Three sample records forming the chain 1 - 2 - 3. -/
def sampleRecs : List CDiskBlockIndex :=
  [sampleDiskIndex 0 2 0 1, sampleDiskIndex 1 3 1 2, sampleDiskIndex 2 0 2 3]

/-- The key of a sample `"blockindex"` record. -/
def sampleBlockKey (hash : Nat) : Bytes :=
  sampleBlockEnv.keyCodec.enc ("blockindex", hash)

/-- The sample records as raw records of `blkindex.dat`. -/
def sampleRawRecs : List (Bytes × Bytes) :=
  [(sampleBlockKey 1, sampleSerDiskIndex (sampleDiskIndex 0 2 0 1)),
   (sampleBlockKey 2, sampleSerDiskIndex (sampleDiskIndex 1 3 1 2)),
   (sampleBlockKey 3, sampleSerDiskIndex (sampleDiskIndex 2 0 2 3))]

/-- A `blkindex.dat` with the three sample records and best chain 3. -/
def sampleBlockStore : Store :=
  sampleRawRecs ++ [(sampleSerString "hashBestChain", [3])]

/-- A `blkindex.dat` with two records, stored under the keys 1 and 2, whose
block hash is 7 in both cases and whose heights are 0 and 5. -/
def sampleSameHashStore : Store :=
  [(sampleBlockKey 1, sampleSerDiskIndex (sampleDiskIndex 0 0 0 7)),
   (sampleBlockKey 2, sampleSerDiskIndex (sampleDiskIndex 0 0 5 7))]

/-- A `blkindex.dat` with one record of hash 1 whose next hash is 2, and best
chain 2; there is no record of hash 2. -/
def sampleDanglingStore : Store :=
  [(sampleBlockKey 1, sampleSerDiskIndex (sampleDiskIndex 0 2 0 1)),
   (sampleSerString "hashBestChain", [2])]

/-! ## The owner scan -/

/-- A position in the block files, `CDiskTxPos`: file, block position,
transaction position. -/
abbrev DiskTxPos := Nat × Nat × Nat

/-- What `ReadOwnerTxes` needs from outside these sources: the serializers, the
encoded seek key `"owner"`, `hash160`, `CDiskTxPos(0, 0, 0)`, the external
block reader `CTransaction::ReadFromDisk` (`none` when it fails) and the
default-constructed transaction. -/
structure OwnerEnv (Tx : Type) where
  unserString : Unser String
  unserHash160 : Unser Nat
  unserPos : Unser DiskTxPos
  unserInt : Unser Int
  seekKey : Nat → Bytes
  readFromDisk : DiskTxPos → Option Tx
  txNull : Tx

/-- The body of the scan loop of `CTxDB::ReadOwnerTxes`: the whole key and the
value are unserialized, then the tag and the hash are compared. -/
def readOwnerTxesBody {Tx : Type} (oe : OwnerEnv Tx) (hash160 : Nat) (nMinHeight : Int)
    (vtx : List Tx) (ssKey ssValue : Bytes) : BodyOut (List Tx) :=
  match oe.unserString ssKey with
  | none => BodyOut.throw vtx
  | some (strType, ssKey1) =>
    match oe.unserHash160 ssKey1 with
    | none => BodyOut.throw vtx
    | some (hashItem, ssKey2) =>
      match oe.unserPos ssKey2 with
      | none => BodyOut.throw vtx
      | some (pos, _) =>
        match oe.unserInt ssValue with
        | none => BodyOut.throw vtx
        | some (nItemHeight, _) =>
          if strType ≠ "owner" ∨ hashItem ≠ hash160 then BodyOut.brk vtx
          else if nItemHeight ≥ nMinHeight then
            match oe.readFromDisk pos with
            | none => BodyOut.ret false (vtx ++ [oe.txNull])
            | some tx => BodyOut.next (vtx ++ [tx])
          else BodyOut.next vtx

/-- `CTxDB::ReadOwnerTxes(hash160, nMinHeight, vtx)`, called with `fClient`
false: the contents of `vtx` at the end and how the call ends. -/
def CTxDB.ReadOwnerTxes {Tx : Type} (oe : OwnerEnv Tx) (h : CDB) (w : World) (hash160 : Nat)
    (nMinHeight : Int) : List Tx × CallOut :=
  match CDB.GetCursor h w with
  | none => ([], CallOut.ret false)
  | some pcursor =>
    match cursorLoop c cc (readOwnerTxesBody oe hash160 nMinHeight) (oe.seekKey hash160)
        (pcursor.all.length + 1) pcursor cc.DB_SET_RANGE [] with
    | LoopOut.finished vtx => (vtx, CallOut.ret true)
    | LoopOut.returned b vtx => (vtx, CallOut.ret b)
    | LoopOut.threw vtx => (vtx, CallOut.threw)
    | LoopOut.fault vtx => (vtx, CallOut.fault)
    | LoopOut.outOfFuel => ([], CallOut.outOfFuel)

/-- A number as `n` little-endian bytes. -/
def sampleSerFixed : Nat → Nat → Bytes
  | 0, _ => []
  | n + 1, x => x % 256 :: sampleSerFixed n (x / 256)

/-- A sample serializer of positions: three numbers of four bytes. -/
def sampleUnserPos : Unser DiskTxPos := fun b =>
  match sampleUnserFixed 4 b with
  | none => none
  | some (nFile, b1) =>
    match sampleUnserFixed 4 b1 with
    | none => none
    | some (nBlockPos, b2) =>
      match sampleUnserFixed 4 b2 with
      | none => none
      | some (nTxPos, b3) => some ((nFile, nBlockPos, nTxPos), b3)

/-- The key of a sample `"owner"` record: the tag, twenty bytes of hash,
twelve bytes of position. -/
def sampleOwnerKey (hash160 : Nat) (pos : DiskTxPos) : Bytes :=
  sampleSerString "owner" ++ sampleSerFixed 20 hash160 ++
    (sampleSerFixed 4 pos.1 ++ sampleSerFixed 4 pos.2.1 ++ sampleSerFixed 4 pos.2.2)

/-- A sample environment of the owner scan; the block reader returns the
position itself as the transaction. -/
def sampleOwnerEnv : OwnerEnv DiskTxPos :=
  { unserString := sampleUnserString,
    unserHash160 := sampleUnserFixed 20,
    unserPos := sampleUnserPos,
    unserInt := fun b => (sampleUnserFixed 4 b).map (fun r => (Int.ofNat r.1, r.2)),
    seekKey := fun hash160 => sampleOwnerKey hash160 (0, 0, 0),
    readFromDisk := fun pos => some pos,
    txNull := (0, 0, 0) }

/-- A `blkindex.dat` with one `"owner"` record for hash 9 at height 5 and the
`"version"` record that the constructor writes into every created file. -/
def sampleOwnerStore : Store :=
  [(sampleOwnerKey 9 (1, 100, 7), sampleSerFixed 4 5),
   (sampleSerString "version", sampleSerFixed 4 105)]

/-! ## The wallet and its loader -/

/-- Lookup in an in-memory `std::map`, kept as an association list. -/
def amGet {κ ν : Type} [DecidableEq κ] : List (κ × ν) → κ → Option ν
  | [], _ => none
  | (k', v') :: rest, k => if k' = k then some v' else amGet rest k

/-- The assignment `m[k] = v` on an in-memory `std::map`. -/
def amSet {κ ν : Type} [DecidableEq κ] : List (κ × ν) → κ → ν → List (κ × ν)
  | [], k, v => [(k, v)]
  | (k', v') :: rest, k, v => if k' = k then (k, v) :: rest else (k', v') :: amSet rest k v

/-- The access `m[k]` on an in-memory `std::map`, which enters the default
value when the key is absent. -/
def amTouch {κ ν : Type} [DecidableEq κ] (m : List (κ × ν)) (k : κ) (dflt : ν) : List (κ × ν) :=
  match amGet m k with
  | some _ => m
  | none => amSet m k dflt

/-- The globals the wallet loader fills: `mapAddressBook`, `mapWallet`,
`mapKeys`, `mapPubKeys` and the settings.  `WTx` stands for `CWalletTx`, `Addr`
for `CAddress`; both classes are declared outside these sources. -/
structure WalletState (WTx Addr : Type) where
  mapAddressBook : List (String × String)
  mapWallet : List (Nat × WTx)
  mapKeys : List (Bytes × Bytes)
  mapPubKeys : List (Nat × Bytes)
  fGenerateBitcoins : Bool
  nTransactionFee : Int
  addrIncoming : Addr

/-- What the wallet loader needs from outside these sources: the serializers,
`Hash160`, and the default-constructed `CWalletTx`. -/
structure WalletEnv (WTx Addr : Type) where
  unserString : Unser String
  unserHash : Unser Nat
  unserBytes : Unser Bytes
  unserPrivKey : Unser Bytes
  unserWalletTx : Unser WTx
  unserBool : Unser Bool
  unserInt64 : Unser Int
  unserAddr : Unser Addr
  Hash160 : Bytes → Nat
  wtxNull : WTx

/-- The `"setting"` branch of the wallet loader.  The three `if`s of the source
compare `strKey` with three different literals, so at most one applies. -/
def loadWalletSetting {WTx Addr : Type} (we : WalletEnv WTx Addr)
    (st : WalletState WTx Addr × Bytes) (strKey : String) (ssValue : Bytes) :
    BodyOut (WalletState WTx Addr × Bytes) :=
  if strKey = "fGenerateBitcoins" then
    match we.unserBool ssValue with
    | none => BodyOut.throw st
    | some (b, _) => BodyOut.next ({ st.1 with fGenerateBitcoins := b }, st.2)
  else if strKey = "nTransactionFee" then
    match we.unserInt64 ssValue with
    | none => BodyOut.throw st
    | some (n, _) => BodyOut.next ({ st.1 with nTransactionFee := n }, st.2)
  else if strKey = "addrIncoming" then
    match we.unserAddr ssValue with
    | none => BodyOut.throw st
    | some (a, _) => BodyOut.next ({ st.1 with addrIncoming := a }, st.2)
  else BodyOut.next st

/-- The body of the scan loop of `CWalletDB::LoadWallet`.  The state is the
wallet globals together with the output argument `vchDefaultKeyRet`.  A
failing `>>` throws; the entry that `mapAddressBook[strAddress]` or
`mapWallet[hash]` has created by then stays.  A `"tx"` record whose hash does
not match its key is reported with `printf` and kept. -/
def loadWalletBody {WTx Addr : Type} (we : WalletEnv WTx Addr)
    (st : WalletState WTx Addr × Bytes) (ssKey ssValue : Bytes) :
    BodyOut (WalletState WTx Addr × Bytes) :=
  match we.unserString ssKey with
  | none => BodyOut.throw st
  | some (strType, ssKey1) =>
    if strType = "name" then
      match we.unserString ssKey1 with
      | none => BodyOut.throw st
      | some (strAddress, _) =>
        match we.unserString ssValue with
        | none =>
          BodyOut.throw
            ({ st.1 with mapAddressBook := amTouch st.1.mapAddressBook strAddress "" }, st.2)
        | some (strName, _) =>
          BodyOut.next
            ({ st.1 with mapAddressBook := amSet st.1.mapAddressBook strAddress strName }, st.2)
    else if strType = "tx" then
      match we.unserHash ssKey1 with
      | none => BodyOut.throw st
      | some (hash, _) =>
        match we.unserWalletTx ssValue with
        | none =>
          BodyOut.throw ({ st.1 with mapWallet := amTouch st.1.mapWallet hash we.wtxNull }, st.2)
        | some (wtx, _) =>
          BodyOut.next ({ st.1 with mapWallet := amSet st.1.mapWallet hash wtx }, st.2)
    else if strType = "key" then
      match we.unserBytes ssKey1 with
      | none => BodyOut.throw st
      | some (vchPubKey, _) =>
        match we.unserPrivKey ssValue with
        | none => BodyOut.throw st
        | some (vchPrivKey, _) =>
          BodyOut.next
            ({ st.1 with mapKeys := amSet st.1.mapKeys vchPubKey vchPrivKey,
                         mapPubKeys := amSet st.1.mapPubKeys (we.Hash160 vchPubKey) vchPubKey },
              st.2)
    else if strType = "defaultkey" then
      match we.unserBytes ssValue with
      | none => BodyOut.throw st
      | some (vchDefaultKey, _) => BodyOut.next (st.1, vchDefaultKey)
    else if strType = "setting" then
      match we.unserString ssKey1 with
      | none => BodyOut.throw st
      | some (strKey, _) => loadWalletSetting we st strKey ssValue
    else BodyOut.next st

/-- `CWalletDB::LoadWallet(vchDefaultKeyRet)`: the wallet globals and
`vchDefaultKeyRet` at the end, and how the call ends. -/
def CWalletDB.LoadWallet {WTx Addr : Type} (we : WalletEnv WTx Addr) (h : CDB) (w : World)
    (ws : WalletState WTx Addr) : (WalletState WTx Addr × Bytes) × CallOut :=
  match CDB.GetCursor h w with
  | none => ((ws, []), CallOut.ret false)
  | some pcursor =>
    match cursorLoop c cc (loadWalletBody we) [] (pcursor.all.length + 1) pcursor cc.DB_NEXT
        (ws, []) with
    | LoopOut.finished st => (st, CallOut.ret true)
    | LoopOut.returned b st => (st, CallOut.ret b)
    | LoopOut.threw st => (st, CallOut.threw)
    | LoopOut.fault st => (st, CallOut.fault)
    | LoopOut.outOfFuel => ((ws, []), CallOut.outOfFuel)

/-! ## The orchestrator `LoadWallet()` -/

/-- Modelled from the spec: the class `CKey` (`key.h`, outside these sources)
as the key pair it holds; `SetPubKey` and `SetPrivKey` store their argument,
`GetPubKey` and `GetPrivKey` return it. -/
structure CKey where
  vchPubKey : Bytes
  vchPrivKey : Bytes
deriving Repr, DecidableEq

/-- What `LoadWallet()` needs from outside these sources: the key pair that
`MakeNewKey` produces, `PubKeyToAddress`, `AddKey` (which changes the process
state and the wallet globals and may return false or throw), and the
serializers of the records it writes. -/
structure WalletDeps (WTx Addr : Type) where
  MakeNewKey : CKey
  PubKeyToAddress : Bytes → String
  AddKey : World → WalletState WTx Addr → CKey → (World × WalletState WTx Addr) × CallOut
  nameKey : Codec (String × String)
  pubKey : Codec Bytes

/-- The constructor `CWalletDB::CWalletDB(pszMode, fTxn)`: the file is
`wallet.dat`. -/
def CWalletDB.new (e : Env) (w : World) (pszMode : String) (fTxn : Bool) (envRet dbRet : Int) :
    CtorOut :=
  CDB.new e w (some "wallet.dat") pszMode fTxn envRet dbRet

/-- `CWalletDB::WriteName`. -/
def CWalletDB.WriteName {WTx Addr : Type} (e : Env) (wd : WalletDeps WTx Addr) (h : CDB)
    (w : World) (ws : WalletState WTx Addr) (strAddress strName : String) :
    (World × WalletState WTx Addr) × Bool :=
  let ws1 := { ws with mapAddressBook := amSet ws.mapAddressBook strAddress strName }
  let r := CDB.Write e.consts wd.nameKey e.strCodec h w ("name", strAddress) strName true
  ((r.1, ws1), r.2)

/-- `CWalletDB::WriteDefaultKey`. -/
def CWalletDB.WriteDefaultKey {WTx Addr : Type} (e : Env) (wd : WalletDeps WTx Addr) (h : CDB)
    (w : World) (vchPubKey : Bytes) : World × Bool :=
  CDB.Write e.consts e.strCodec wd.pubKey h w "defaultkey" vchPubKey true

/-- `SetAddressBookName`: `CWalletDB().WriteName(strAddress, strName)`, the
temporary handle destroyed at the end. -/
def SetAddressBookName {WTx Addr : Type} (e : Env) (wd : WalletDeps WTx Addr) (w : World)
    (ws : WalletState WTx Addr) (strAddress strName : String) (envRet dbRet : Int) :
    (World × WalletState WTx Addr) × CallOut :=
  let ctor := CWalletDB.new e w "r+" false envRet dbRet
  match ctor.thrown with
  | some _ => ((ctor.world, ws), CallOut.threw)
  | none =>
    let r := CWalletDB.WriteName e wd ctor.handle ctor.world ws strAddress strName
    (((CDB.Close e.consts ctor.handle r.1.1).1, r.1.2), CallOut.ret r.2)

/-- Outcome of `LoadWallet()`: the process state, the wallet globals, the global
`keyUser`, whether `keyUser.MakeNewKey()` was called, and how the call ends. -/
structure LoadWalletOut (WTx Addr : Type) where
  world : World
  wallet : WalletState WTx Addr
  keyUser : CKey
  madeNewKey : Bool
  out : CallOut

/-- The `else` branch of `LoadWallet()`: create a new `keyUser` and set it as
the default key.  (`RandAddSeed` has no effect on this state.) -/
def loadWalletNewKey {WTx Addr : Type} (e : Env) (wd : WalletDeps WTx Addr) (w : World)
    (ws : WalletState WTx Addr) (envRet2 dbRet2 envRet3 dbRet3 : Int) : LoadWalletOut WTx Addr :=
  let keyUser := wd.MakeNewKey
  let a := wd.AddKey w ws keyUser
  match a.2 with
  | CallOut.ret true =>
    let s := SetAddressBookName e wd a.1.1 a.1.2 (wd.PubKeyToAddress keyUser.vchPubKey)
      "Your Address" envRet2 dbRet2
    match s.2 with
    | CallOut.ret true =>
      let ctor := CWalletDB.new e s.1.1 "r+" false envRet3 dbRet3
      match ctor.thrown with
      | some _ =>
        { world := ctor.world, wallet := s.1.2, keyUser := keyUser, madeNewKey := true,
          out := CallOut.threw }
      | none =>
        let r := CWalletDB.WriteDefaultKey e wd ctor.handle ctor.world keyUser.vchPubKey
        { world := (CDB.Close e.consts ctor.handle r.1).1, wallet := s.1.2, keyUser := keyUser,
          madeNewKey := true, out := CallOut.ret true }
    | CallOut.ret false =>
      { world := s.1.1, wallet := s.1.2, keyUser := keyUser, madeNewKey := true,
        out := CallOut.ret false }
    | o => { world := s.1.1, wallet := s.1.2, keyUser := keyUser, madeNewKey := true, out := o }
  | CallOut.ret false =>
    { world := a.1.1, wallet := a.1.2, keyUser := keyUser, madeNewKey := true,
      out := CallOut.ret false }
  | o => { world := a.1.1, wallet := a.1.2, keyUser := keyUser, madeNewKey := true, out := o }

/-- The free function `LoadWallet()`.  The three pairs of return codes are those
of `dbenv.open` and `pdb->open` for the three handles it may construct.  The
temporary `CWalletDB("cr")` is destroyed when the scan has ended, also when the
scan has thrown. -/
def LoadWallet {WTx Addr : Type} (e : Env) (we : WalletEnv WTx Addr) (wd : WalletDeps WTx Addr)
    (w : World) (ws : WalletState WTx Addr) (keyUser : CKey)
    (envRet1 dbRet1 envRet2 dbRet2 envRet3 dbRet3 : Int) : LoadWalletOut WTx Addr :=
  let ctor := CWalletDB.new e w "cr" false envRet1 dbRet1
  match ctor.thrown with
  | some _ =>
    { world := ctor.world, wallet := ws, keyUser := keyUser, madeNewKey := false,
      out := CallOut.threw }
  | none =>
    let scan := CWalletDB.LoadWallet e.consts cc we ctor.handle ctor.world ws
    let w1 := (CDB.Close e.consts ctor.handle ctor.world).1
    match scan.2 with
    | CallOut.ret true =>
      let vchDefaultKey := scan.1.2
      match amGet scan.1.1.mapKeys vchDefaultKey with
      | some vchPrivKey =>
        { world := w1, wallet := scan.1.1,
          keyUser := { vchPubKey := vchDefaultKey, vchPrivKey := vchPrivKey },
          madeNewKey := false, out := CallOut.ret true }
      | none => loadWalletNewKey e wd w1 scan.1.1 envRet2 dbRet2 envRet3 dbRet3
    | o => { world := w1, wallet := scan.1.1, keyUser := keyUser, madeNewKey := false, out := o }

/-- The record is tagged `"defaultkey"` and its value unserializes to `P`. -/
def IsDefaultKeyRec {WTx Addr : Type} (we : WalletEnv WTx Addr) (r : Bytes × Bytes)
    (P : Bytes) : Prop :=
  ∃ k1 v1, we.unserString r.1 = some ("defaultkey", k1) ∧ we.unserBytes r.2 = some (P, v1)

/-- The record is tagged `"key"`, the rest of its key unserializes to the
public key `P` and its value to the private key `K`. -/
def IsKeyRec {WTx Addr : Type} (we : WalletEnv WTx Addr) (r : Bytes × Bytes) (P K : Bytes) :
    Prop :=
  ∃ k1 k2 v1, we.unserString r.1 = some ("key", k1) ∧ we.unserBytes k1 = some (P, k2) ∧
    we.unserPrivKey r.2 = some (K, v1)

/-- The record unserializes for the loader, whatever the state of the wallet
globals. -/
def WalletRecDecodes {WTx Addr : Type} (we : WalletEnv WTx Addr) (r : Bytes × Bytes) : Prop :=
  ∀ st, ∃ st', loadWalletBody we st r.1 r.2 = BodyOut.next st'

/-! ## Sample wallets -/

/-- A sample serializer for byte vectors: a length byte followed by the bytes. -/
def sampleSerBytes (b : Bytes) : Bytes := b.length :: b

/-- The matching `>>`. -/
def sampleUnserBytes : Unser Bytes
  | [] => none
  | len :: rest => if len ≤ rest.length then some (rest.take len, rest.drop len) else none

/-- A sample environment of the wallet loader: transactions and addresses are
numbers of four bytes. -/
def sampleWalletEnv : WalletEnv Nat Nat :=
  { unserString := sampleUnserString,
    unserHash := sampleUnserFixed 4,
    unserBytes := sampleUnserBytes,
    unserPrivKey := sampleUnserBytes,
    unserWalletTx := sampleUnserFixed 4,
    unserBool := fun b => (sampleUnserFixed 1 b).map (fun r => (decide (r.1 ≠ 0), r.2)),
    unserInt64 := fun b => (sampleUnserFixed 8 b).map (fun r => (Int.ofNat r.1, r.2)),
    unserAddr := sampleUnserFixed 4,
    Hash160 := fun b => b.foldr (fun x acc => x + 256 * acc) 0,
    wtxNull := 0 }

/-- Sample wallet globals at program start. -/
def sampleWalletState : WalletState Nat Nat :=
  { mapAddressBook := [], mapWallet := [], mapKeys := [], mapPubKeys := [],
    fGenerateBitcoins := false, nTransactionFee := 0, addrIncoming := 0 }

/-- Sample collaborators of `LoadWallet()`; `AddKey` enters the key into the
maps and writes nothing. -/
def sampleWalletDeps : WalletDeps Nat Nat :=
  { MakeNewKey := { vchPubKey := [42], vchPrivKey := [43] },
    PubKeyToAddress := fun _ => "addr",
    AddKey := fun w ws key =>
      ((w, { ws with mapKeys := amSet ws.mapKeys key.vchPubKey key.vchPrivKey,
                     mapPubKeys := amSet ws.mapPubKeys 42 key.vchPubKey }),
        CallOut.ret true),
    nameKey := { enc := fun p => sampleSerString p.1 ++ sampleSerString p.2,
                 dec := fun _ => none },
    pubKey := { enc := sampleSerBytes, dec := fun b => (sampleUnserBytes b).map Prod.fst } }

/-- A process state whose `wallet.dat` holds the given records and is not
open. -/
def sampleWalletWorld (records : Store) : World :=
  { World.init with fDbEnvInit := true, data := [("wallet.dat", records)] }

/-- The `"key"` record `[7] -> [8]`. -/
def sampleKeyRec : Bytes × Bytes :=
  (sampleSerString "key" ++ sampleSerBytes [7], sampleSerBytes [8])

/-- The `"version"` record that the constructor writes with the sample
serializers. -/
def sampleVersionRec : Bytes × Bytes :=
  (sampleStrCodec.enc "version", sampleIntCodec.enc 105)

/-- The `"defaultkey"` record with value `[7]`. -/
def sampleDefaultKeyRec : Bytes × Bytes :=
  (sampleSerString "defaultkey", sampleSerBytes [7])

/-- A `wallet.dat` with a key record, a `"name"` record whose value is cut
short, and a default-key record. -/
def sampleBrokenWallet : Store :=
  [sampleKeyRec, (sampleSerString "name" ++ sampleSerString "a", [5, 66]), sampleVersionRec,
    sampleDefaultKeyRec]

/-- A `wallet.dat` with a key record, the version record and the default-key
record that names the key. -/
def sampleGoodWallet : Store := [sampleKeyRec, sampleVersionRec, sampleDefaultKeyRec]

/-- The same without the version record. -/
def sampleUnversionedWallet : Store := [sampleKeyRec, sampleDefaultKeyRec]

/-- A `wallet.dat` with a second record whose key starts with the tag
`"defaultkey"`. -/
def sampleTwoDefaultsWallet : Store :=
  [sampleKeyRec, sampleVersionRec, sampleDefaultKeyRec,
    (sampleSerString "defaultkey" ++ [0], sampleSerBytes [9])]

/-- An open handle on `wallet.dat` with an empty transaction stack. -/
def sampleWalletHandle : CDB :=
  { pdb := some { file := "wallet.dat" }, strFile := "wallet.dat", vTxn := [] }

/-! ## The schema of wallet records, as the specification words it -/

/-- A wallet record decoded per the schema of its tag, following the record
table of the specification: `"name"` (address string to name), `"tx"` (hash to
wallet transaction), `"key"` (public key to private key), `"defaultkey"` (public
key), the three defined settings, and `ignored` for an unknown tag or an
unknown setting. -/
inductive WalletRecord (WTx Addr : Type) where
  | name (strAddress strName : String)
  | tx (hash : Nat) (wtx : WTx)
  | key (vchPubKey vchPrivKey : Bytes)
  | defaultkey (vchPubKey : Bytes)
  | generate (value : Bool)
  | fee (value : Int)
  | incoming (value : Addr)
  | ignored
deriving Repr, DecidableEq

/-- The typed value of a setting, by the setting name; an unknown setting is
ignored. -/
def specDecodeSetting {WTx Addr : Type} (we : WalletEnv WTx Addr) (strKey : String)
    (ssValue : Bytes) : Option (WalletRecord WTx Addr) :=
  if strKey = "fGenerateBitcoins" then
    (we.unserBool ssValue).map (fun r => WalletRecord.generate r.1)
  else if strKey = "nTransactionFee" then
    (we.unserInt64 ssValue).map (fun r => WalletRecord.fee r.1)
  else if strKey = "addrIncoming" then
    (we.unserAddr ssValue).map (fun r => WalletRecord.incoming r.1)
  else some WalletRecord.ignored

/-- Decoding of the key and value bytes of a wallet record per the schema of
its tag, as the specification words it; `none` when the key or the value bytes
fail to decode. -/
def specDecodeWalletRecord {WTx Addr : Type} (we : WalletEnv WTx Addr) (ssKey ssValue : Bytes) :
    Option (WalletRecord WTx Addr) :=
  (we.unserString ssKey).bind (fun tag =>
    if tag.1 = "name" then
      (we.unserString tag.2).bind (fun a =>
        (we.unserString ssValue).map (fun n => WalletRecord.name a.1 n.1))
    else if tag.1 = "tx" then
      (we.unserHash tag.2).bind (fun hsh =>
        (we.unserWalletTx ssValue).map (fun t => WalletRecord.tx hsh.1 t.1))
    else if tag.1 = "key" then
      (we.unserBytes tag.2).bind (fun pub =>
        (we.unserPrivKey ssValue).map (fun priv => WalletRecord.key pub.1 priv.1))
    else if tag.1 = "defaultkey" then
      (we.unserBytes ssValue).map (fun pub => WalletRecord.defaultkey pub.1)
    else if tag.1 = "setting" then
      (we.unserString tag.2).bind (fun nm => specDecodeSetting we nm.1 ssValue)
    else some WalletRecord.ignored)

/-- What applying a decoded record to the in-memory state means, as the
specification words it: `"name"` populates the address book, `"tx"` the
wallet-transaction map, `"key"` both the private-key-by-public-key map and the
public-key-by-hash160 map, `"defaultkey"` the default public key, a setting its
global. -/
def specApplyWalletRecord {WTx Addr : Type} (we : WalletEnv WTx Addr)
    (st : WalletState WTx Addr × Bytes) : WalletRecord WTx Addr → WalletState WTx Addr × Bytes
  | WalletRecord.name a n => ({ st.1 with mapAddressBook := amSet st.1.mapAddressBook a n }, st.2)
  | WalletRecord.tx hsh t => ({ st.1 with mapWallet := amSet st.1.mapWallet hsh t }, st.2)
  | WalletRecord.key pub priv =>
    ({ st.1 with mapKeys := amSet st.1.mapKeys pub priv,
                 mapPubKeys := amSet st.1.mapPubKeys (we.Hash160 pub) pub }, st.2)
  | WalletRecord.defaultkey pub => (st.1, pub)
  | WalletRecord.generate b => ({ st.1 with fGenerateBitcoins := b }, st.2)
  | WalletRecord.fee n => ({ st.1 with nTransactionFee := n }, st.2)
  | WalletRecord.incoming a => ({ st.1 with addrIncoming := a }, st.2)
  | WalletRecord.ignored => st

/-- The state `st2` differs from `st1` at most by one default entry that
`operator[]` has entered into `mapAddressBook` or into `mapWallet`. -/
def TouchedOnly {WTx Addr : Type} (we : WalletEnv WTx Addr)
    (st1 st2 : WalletState WTx Addr × Bytes) : Prop :=
  st2 = st1 ∨
  (∃ a, st2 = ({ st1.1 with mapAddressBook := amTouch st1.1.mapAddressBook a "" }, st1.2)) ∨
  (∃ hsh, st2 = ({ st1.1 with mapWallet := amTouch st1.1.mapWallet hsh we.wtxNull }, st1.2))

/-- A `wallet.dat` with one record of every kind: a transaction, a key, a name,
a setting, the version record and the default key. -/
def sampleFullWallet : Store :=
  [(sampleSerString "tx" ++ sampleSerFixed 4 77, sampleSerFixed 4 77),
   sampleKeyRec,
   (sampleSerString "name" ++ sampleSerString "a", sampleSerString "Bob"),
   (sampleSerString "setting" ++ sampleSerString "nTransactionFee", sampleSerFixed 8 3),
   sampleVersionRec,
   sampleDefaultKeyRec]

/-! # Theorems -/

/-! ## Lemmas on the engine model -/

theorem storeGet_storePut_self (s : Store) (k v : Bytes) : storeGet (storePut s k v) k = some v := by
  induction s with
  | nil => simp [storePut, storeGet]
  | cons e rest ih =>
    obtain ⟨k', v'⟩ := e
    unfold storePut
    by_cases h1 : k' = k
    · simp [h1, storeGet]
    · by_cases h2 : bytesLt k k' = true
      · simp [h1, h2, storeGet]
      · simp [h1, h2, storeGet, ih]

theorem storeGet_storeDel_self (s : Store) (k : Bytes) : storeGet (storeDel s k) k = none := by
  induction s with
  | nil => simp [storeDel, storeGet]
  | cons e rest ih =>
    obtain ⟨k', v'⟩ := e
    by_cases h1 : k' = k
    · simpa [storeDel, h1] using ih
    · simpa [storeDel, h1, storeGet] using ih

theorem filesGet_filesSet_self (fs : Files) (f : String) (s : Store) :
    filesGet (filesSet fs f s) f = s := by
  induction fs with
  | nil => simp [filesSet, filesGet]
  | cons e rest ih =>
    obtain ⟨g, s'⟩ := e
    by_cases h1 : g = f
    · simp [filesSet, h1, filesGet]
    · simp [filesSet, h1, filesGet, ih]

theorem engineView_logCall (w : World) (call : Call) (txn : Option Nat) :
    engineView (w.logCall call) txn = engineView w txn := by
  cases txn <;> rfl

theorem find_map_setView (l : List DbTxn) (id : Nat) (fs : Files) (t : DbTxn)
    (h : l.find? (fun t => decide (t.id = id)) = some t) :
    (l.map (fun t => if t.id = id then { t with view := fs } else t)).find?
      (fun t => decide (t.id = id)) = some { t with view := fs } := by
  induction l with
  | nil => simp at h
  | cons a rest ih =>
    by_cases h1 : a.id = id
    · simp [List.find?, h1] at h ⊢
      subst h
      exact ⟨h1.symm, rfl⟩
    · simp [List.find?, h1] at h ⊢
      simpa using ih h

theorem engineView_engineSetView (w : World) (txn : Option Nat) (fs fs0 : Files)
    (h : engineView w txn = some fs0) : engineView (engineSetView w txn fs) txn = some fs := by
  cases txn with
  | none => rfl
  | some id =>
    simp only [engineView, Option.map_eq_some'] at h
    obtain ⟨t, ht, _⟩ := h
    simp [engineView, engineSetView, find_map_setView _ _ fs t ht]

theorem sampleConsts_wf : sampleConsts.WF := by
  constructor <;> decide

theorem engineLookup_logCall (w : World) (call : Call) (db : Db) (txn : Option Nat) (key : Bytes) :
    engineLookup (w.logCall call) db txn key = engineLookup w db txn key := by
  simp [engineLookup, engineView_logCall]

theorem Db.get_value (w : World) (db : Db) (txn : Option Nat) (key : Bytes) :
    (Db.get c w db txn key).2.2 = engineLookup w db txn key := by
  unfold Db.get engineLookup
  cases engineView w txn with
  | none => rfl
  | some fs =>
    simp only [Option.some_bind]
    cases storeGet (filesGet fs db.file) key <;> rfl

theorem Db.get_ret_of_some (w : World) (db : Db) (txn : Option Nat) (key v : Bytes)
    (h : engineLookup w db txn key = some v) : (Db.get c w db txn key).2.1 = 0 := by
  unfold Db.get
  unfold engineLookup at h
  cases hv : engineView w txn with
  | none => simp [hv] at h
  | some fs =>
    simp only [hv, Option.some_bind] at h
    simp [h]

theorem Db.get_world (w : World) (db : Db) (txn : Option Nat) (key : Bytes) :
    (Db.get c w db txn key).1 = w.logCall (Call.get db.file txn key) := by
  unfold Db.get
  cases engineView w txn with
  | none => rfl
  | some fs => simp only; cases storeGet (filesGet fs db.file) key <;> rfl

theorem Db.put_lookup (hwf : c.WF) (w : World) (db : Db) (txn : Option Nat) (key value : Bytes)
    (flags : Nat) (h : (Db.put c w db txn key value flags).2 = 0) :
    engineLookup (Db.put c w db txn key value flags).1 db txn key = some value := by
  unfold Db.put at h ⊢
  cases hv : engineView w txn with
  | none => simp [hv, hwf.einval_ne] at h
  | some fs =>
    simp only [hv] at h ⊢
    split at h
    · exact absurd h hwf.keyexist_ne
    · rename_i hno
      rw [if_neg hno]
      have hv1 : engineView (w.logCall (Call.put db.file txn key value flags)) txn = some fs := by
        rw [engineView_logCall]; exact hv
      simp [engineLookup, engineView_engineSetView _ _ _ fs hv1, filesGet_filesSet_self,
        storeGet_storePut_self]

theorem Db.del_lookup (w : World) (db : Db) (txn : Option Nat) (key : Bytes) :
    engineLookup (Db.del c w db txn key).1 db txn key = none := by
  unfold Db.del
  cases hv : engineView w txn with
  | none => simp [engineLookup, engineView_logCall, hv]
  | some fs =>
    have hv1 : engineView (w.logCall (Call.del db.file txn key)) txn = some fs := by
      rw [engineView_logCall]; exact hv
    simp only
    split
    · simp [engineLookup, engineView_engineSetView _ _ _ fs hv1, filesGet_filesSet_self,
        storeGet_storeDel_self]
    · rename_i hp
      simp only [engineLookup, hv1, Option.some_bind]
      simpa using hp

theorem Db.dbExists_ret (hwf : c.WF) (w : World) (db : Db) (txn : Option Nat) (key : Bytes) :
    (Db.dbExists c w db txn key).2 = 0 ↔ (engineLookup w db txn key).isSome = true := by
  unfold Db.dbExists engineLookup
  cases hv : engineView w txn with
  | none => simp [hwf.einval_ne]
  | some fs =>
    simp only [Option.some_bind]
    split
    · rename_i hp; simp [hp]
    · rename_i hp; simp [hp, hwf.notfound_ne]

/-- C1. On an open handle, a `Write(k, v)` with overwrite that returns true is
followed by a `Read(k)` that returns true and yields `v`; an `Erase(k)` that
returns true is followed by an `Exists(k)` that returns false. -/
theorem write_read_and_erase_exists {K T : Type} (ck : Codec K) (cv : Codec T)
    (hwf : c.WF) (hdec : ∀ v, cv.dec (cv.enc v) = some v)
    (h : CDB) (w : World) (hopen : h.pdb ≠ none) (k : K) (v v0 : T) :
    ((CDB.Write c ck cv h w k v true).2 = true →
      (CDB.Read c ck cv h (CDB.Write c ck cv h w k v true).1 k v0).2 = ReadOut.ret true v) ∧
    ((CDB.Erase c ck h w k).2 = true →
      (CDB.Exists c ck h (CDB.Erase c ck h w k).1 k).2 = false) := by
  obtain ⟨db, hdb⟩ := Option.ne_none_iff_exists'.mp hopen
  constructor
  · intro hw
    simp only [CDB.Write, hdb, if_true, decide_eq_true_eq] at hw ⊢
    have hl := Db.put_lookup c hwf w db h.GetTxn (ck.enc k) (cv.enc v) 0 hw
    simp only [CDB.Read, hdb, Db.get_value, hl, hdec, Db.get_ret_of_some c _ _ _ _ _ hl]
    simp
  · intro _
    simp only [CDB.Erase, hdb, CDB.Exists]
    have hl := Db.del_lookup c w db h.GetTxn (ck.enc k)
    have hx := (Db.dbExists_ret c hwf (Db.del c w db h.GetTxn (ck.enc k)).1 db h.GetTxn
      (ck.enc k)).not
    rw [hl] at hx
    simpa using hx

/-- Witness for C1: on an open wallet handle whose file stores `[5] -> [6]`,
writing `[9]` under key `[5]` is read back as `[9]`; and `[5]`, which `Exists`
finds before, is erased with success and `Exists` no longer finds it, the
record being gone from the file. -/
theorem write_read_and_erase_exists_witness :
    sampleConsts.WF ∧ (∀ v, bytesCodec.dec (bytesCodec.enc v) = some v) ∧
    sampleHandle.pdb ≠ none ∧
    (CDB.Write sampleConsts bytesCodec bytesCodec sampleHandle sampleWorld [5] [9] true).2 = true ∧
    (CDB.Read sampleConsts bytesCodec bytesCodec sampleHandle
      (CDB.Write sampleConsts bytesCodec bytesCodec sampleHandle sampleWorld [5] [9] true).1
      [5] []).2 = ReadOut.ret true [9] ∧
    (CDB.Exists sampleConsts bytesCodec sampleHandle sampleWorld [5]).2 = true ∧
    (CDB.Erase sampleConsts bytesCodec sampleHandle sampleWorld [5]).2 = true ∧
    (CDB.Exists sampleConsts bytesCodec sampleHandle
      (CDB.Erase sampleConsts bytesCodec sampleHandle sampleWorld [5]).1 [5]).2 = false ∧
    sampleWorld.data = [("wallet.dat", [([5], [6])])] ∧
    (CDB.Erase sampleConsts bytesCodec sampleHandle sampleWorld [5]).1.data =
      [("wallet.dat", [])] :=
  have hthm := write_read_and_erase_exists sampleConsts bytesCodec bytesCodec sampleConsts_wf
    (fun _ => rfl) sampleHandle sampleWorld (by decide) [5] [9] []
  ⟨sampleConsts_wf, fun _ => rfl, by decide, by decide, hthm.1 (by decide), by decide, by decide,
    hthm.2 (by decide), by decide, by decide⟩

/-! ## Frame lemmas: what the engine calls leave alone -/

theorem engineSetView_counts (w : World) (txn : Option Nat) (fs : Files) :
    (engineSetView w txn fs).mapFileUseCount = w.mapFileUseCount ∧
    (engineSetView w txn fs).fDbEnvInit = w.fDbEnvInit := by
  cases txn <;> exact ⟨rfl, rfl⟩

theorem Db.put_counts (w : World) (db : Db) (txn : Option Nat) (key value : Bytes) (flags : Nat) :
    (Db.put c w db txn key value flags).1.mapFileUseCount = w.mapFileUseCount ∧
    (Db.put c w db txn key value flags).1.fDbEnvInit = w.fDbEnvInit := by
  unfold Db.put
  cases engineView w txn with
  | none => exact ⟨rfl, rfl⟩
  | some fs =>
    simp only
    split
    · exact ⟨rfl, rfl⟩
    · exact engineSetView_counts _ _ _

theorem Db.dbExists_counts (w : World) (db : Db) (txn : Option Nat) (key : Bytes) :
    (Db.dbExists c w db txn key).1.mapFileUseCount = w.mapFileUseCount ∧
    (Db.dbExists c w db txn key).1.fDbEnvInit = w.fDbEnvInit := by
  unfold Db.dbExists
  cases engineView w txn with
  | none => exact ⟨rfl, rfl⟩
  | some fs => simp only; split <;> exact ⟨rfl, rfl⟩

theorem txnAbort_counts (w : World) (id : Nat) :
    (txnAbort c w id).1.mapFileUseCount = w.mapFileUseCount ∧
    (txnAbort c w id).1.fDbEnvInit = w.fDbEnvInit := by
  unfold txnAbort
  cases w.txns.find? (fun t => decide (t.id = id)) <;> exact ⟨rfl, rfl⟩

theorem CDB.Exists_counts {K : Type} (ck : Codec K) (h : CDB) (w : World) (key : K) :
    (CDB.Exists c ck h w key).1.mapFileUseCount = w.mapFileUseCount ∧
    (CDB.Exists c ck h w key).1.fDbEnvInit = w.fDbEnvInit := by
  unfold CDB.Exists
  cases h.pdb with
  | none => exact ⟨rfl, rfl⟩
  | some db => exact Db.dbExists_counts c _ _ _ _

theorem CDB.Write_counts {K T : Type} (ck : Codec K) (cv : Codec T) (h : CDB) (w : World)
    (key : K) (value : T) (fOverwrite : Bool) :
    (CDB.Write c ck cv h w key value fOverwrite).1.mapFileUseCount = w.mapFileUseCount ∧
    (CDB.Write c ck cv h w key value fOverwrite).1.fDbEnvInit = w.fDbEnvInit := by
  unfold CDB.Write
  cases h.pdb with
  | none => exact ⟨rfl, rfl⟩
  | some db => exact Db.put_counts c _ _ _ _ _ _

/-! ## `mapFileUseCount` lemmas -/

theorem mapCount_of_not_mem (m : List (String × Int)) (f : String)
    (h : f ∉ m.map Prod.fst) : mapCount m f = 0 := by
  induction m with
  | nil => rfl
  | cons a rest ih =>
    obtain ⟨a, n⟩ := a
    simp only [List.map_cons, List.mem_cons, not_or] at h
    simp [mapCount, Ne.symm h.1, ih h.2]

theorem not_mem_keys_of_lt (a : String) (n : Int) (rest : List (String × Int)) (f : String)
    (hwf : MapWF ((a, n) :: rest)) (hlt : f < a) : f ∉ rest.map Prod.fst := by
  intro hm
  simp only [MapWF, List.map_cons, List.pairwise_cons] at hwf
  exact lt_irrefl f (lt_trans hlt (hwf.1 f hm))

theorem mapCount_mapAdd (m : List (String × Int)) (f g : String) (d : Int) (hwf : MapWF m) :
    mapCount (mapAdd m f d) g = if g = f then mapCount m f + d else mapCount m g := by
  induction m with
  | nil =>
    by_cases h : g = f
    · simp [mapAdd, mapCount, h]
    · simp [mapAdd, mapCount, h, Ne.symm h]
  | cons a rest ih =>
    obtain ⟨a, n⟩ := a
    have hrest : MapWF rest := by
      simp only [MapWF, List.map_cons, List.pairwise_cons] at hwf; exact hwf.2
    unfold mapAdd
    by_cases h1 : a = f
    · subst h1
      by_cases h : g = a
      · simp [mapCount, h]
      · simp [mapCount, h, Ne.symm h]
    · rw [if_neg h1]
      by_cases h2 : f < a
      · rw [if_pos h2]
        have h0 := mapCount_of_not_mem rest f (not_mem_keys_of_lt a n rest f hwf h2)
        by_cases h : g = f
        · subst h; simp [mapCount, h1, h0]
        · simp [mapCount, h, Ne.symm h]
      · rw [if_neg h2]
        by_cases h : g = f
        · subst h; simp [mapCount, h1, ih hrest]
        · simp only [mapCount, ih hrest, if_neg h]

theorem mem_keys_mapAdd (m : List (String × Int)) (f g : String) (d : Int) :
    g ∈ (mapAdd m f d).map Prod.fst ↔ g = f ∨ g ∈ m.map Prod.fst := by
  induction m with
  | nil => simp [mapAdd]
  | cons a rest ih =>
    obtain ⟨a, n⟩ := a
    unfold mapAdd
    by_cases h1 : a = f
    · subst h1; simp
    · rw [if_neg h1]
      by_cases h2 : f < a
      · rw [if_pos h2]; simp
      · rw [if_neg h2]
        simp only [List.map_cons, List.mem_cons, ih]
        tauto

theorem MapWF_mapAdd (m : List (String × Int)) (f : String) (d : Int) (hwf : MapWF m) :
    MapWF (mapAdd m f d) := by
  induction m with
  | nil => simp [mapAdd, MapWF]
  | cons a rest ih =>
    obtain ⟨a, n⟩ := a
    have hwf0 := hwf
    simp only [MapWF, List.map_cons, List.pairwise_cons] at hwf
    unfold mapAdd
    by_cases h1 : a = f
    · subst h1; simpa [MapWF] using hwf
    · rw [if_neg h1]
      by_cases h2 : f < a
      · rw [if_pos h2]
        simp only [MapWF, List.map_cons, List.pairwise_cons, List.mem_cons]
        refine ⟨?_, hwf⟩
        intro b hb
        rcases hb with hb | hb
        · rw [hb]; exact h2
        · exact lt_trans h2 (hwf.1 b hb)
      · rw [if_neg h2]
        have hlt : a < f := lt_of_le_of_ne (not_lt.mp h2) h1
        have ih' := ih hwf.2
        simp only [MapWF] at ih'
        simp only [MapWF, List.map_cons, List.pairwise_cons]
        refine ⟨?_, ih'⟩
        intro b hb
        rcases (mem_keys_mapAdd rest f b d).mp hb with hb | hb
        · rw [hb]; exact hlt
        · exact hwf.1 b hb

theorem flushLoop_entries (log : List Call) (m : List (String × Int)) :
    (flushLoop log m).1 = m.filter (fun e => decide (e.2 ≠ 0)) := by
  induction m generalizing log with
  | nil => rfl
  | cons a rest ih =>
    obtain ⟨a, n⟩ := a
    unfold flushLoop
    by_cases h : n = 0
    · simp [h, ih]
    · simp [h, ih]

theorem MapWF_filter (m : List (String × Int)) (p : String × Int → Bool) (hwf : MapWF m) :
    MapWF (m.filter p) := by
  unfold MapWF at *
  exact List.Pairwise.sublist ((List.filter_sublist m).map Prod.fst) hwf

theorem mapCount_filter_ne_zero (m : List (String × Int)) (f : String) (hwf : MapWF m) :
    mapCount (m.filter (fun e => decide (e.2 ≠ 0))) f = mapCount m f := by
  induction m with
  | nil => rfl
  | cons a rest ih =>
    obtain ⟨a, n⟩ := a
    have hrest : MapWF rest := by
      simp only [MapWF, List.map_cons, List.pairwise_cons] at hwf; exact hwf.2
    by_cases h : n = 0
    · subst h
      simp only [List.filter, ne_eq, not_true_eq_false, decide_False, mapCount]
      rw [ih hrest]
      by_cases hf : a = f
      · subst hf
        rw [if_pos rfl]
        apply mapCount_of_not_mem
        intro hm
        simp only [MapWF, List.map_cons, List.pairwise_cons] at hwf
        exact lt_irrefl a (hwf.1 a hm)
      · rw [if_neg hf]
    · rw [List.filter_cons_of_pos (by simpa using h)]
      simp only [mapCount, ih hrest]

/-! ## Effect of the constructor, `Close` and `DBFlush` on the process state -/

theorem CDB.newOpen_fail (e : Env) (w1 : World) (file pszMode : String) (fTxn : Bool)
    (dbRet : Int) (hret : dbRet > 0) :
    (CDB.newOpen e w1 file pszMode fTxn dbRet).thrown = some (DbError.dbOpen file dbRet) ∧
    (CDB.newOpen e w1 file pszMode fTxn dbRet).handle = { pdb := none, strFile := "", vTxn := [] } ∧
    (CDB.newOpen e w1 file pszMode fTxn dbRet).world.mapFileUseCount =
      mapAdd (mapAdd w1.mapFileUseCount file 1) file (-1) ∧
    (CDB.newOpen e w1 file pszMode fTxn dbRet).world.fDbEnvInit = w1.fDbEnvInit := by
  simp [CDB.newOpen, hret, World.logCall]

theorem CDB.newOpen_ok (e : Env) (w1 : World) (file pszMode : String) (fTxn : Bool)
    (dbRet : Int) (hret : ¬ dbRet > 0) :
    (CDB.newOpen e w1 file pszMode fTxn dbRet).thrown = none ∧
    (CDB.newOpen e w1 file pszMode fTxn dbRet).handle =
      { pdb := some { file := file }, strFile := file, vTxn := [] } ∧
    (CDB.newOpen e w1 file pszMode fTxn dbRet).world.mapFileUseCount =
      mapAdd w1.mapFileUseCount file 1 ∧
    (CDB.newOpen e w1 file pszMode fTxn dbRet).world.fDbEnvInit = w1.fDbEnvInit := by
  unfold CDB.newOpen
  simp only [if_neg hret]
  by_cases hc : strchr pszMode 'c' = true
  · simp only [hc, if_true]
    split
    · simp [CDB.WriteVersion, (CDB.Write_counts _ _ _ _ _ _ _ _).1,
        (CDB.Write_counts _ _ _ _ _ _ _ _).2, (CDB.Exists_counts _ _ _ _ _).1,
        (CDB.Exists_counts _ _ _ _ _).2, World.logCall]
    · simp [(CDB.Exists_counts _ _ _ _ _).1, (CDB.Exists_counts _ _ _ _ _).2, World.logCall]
  · simp [hc, World.logCall]

theorem CDB.Close_open (h : CDB) (w : World) (db : Db) (hdb : h.pdb = some db) :
    (CDB.Close c h w).2 = { pdb := none, strFile := h.strFile, vTxn := [] } ∧
    (CDB.Close c h w).1.mapFileUseCount = mapAdd w.mapFileUseCount h.strFile (-1) ∧
    (CDB.Close c h w).1.fDbEnvInit = w.fDbEnvInit := by
  unfold CDB.Close
  simp only [hdb]
  cases h.vTxn.head? with
  | none => simp [World.logCall]
  | some front =>
    simp [World.logCall, (txnAbort_counts c w front).1, (txnAbort_counts c w front).2]

theorem CDB.Close_null (h : CDB) (w : World) (hdb : h.pdb = none) :
    CDB.Close c h w = (w, h) := by
  unfold CDB.Close
  simp only [hdb]

theorem DBFlush_counts (w : World) (fShutdown : Bool) :
    (DBFlush w fShutdown).mapFileUseCount = w.mapFileUseCount.filter (fun e => decide (e.2 ≠ 0)) := by
  unfold DBFlush
  cases fShutdown
  · simp only [flushLoop_entries, World.logCall]; rfl
  · simp only [flushLoop_entries, World.logCall, if_true]; split <;> rfl

theorem CDB.newOpen_counts (e : Env) (w1 : World) (file pszMode : String) (fTxn : Bool)
    (dbRet : Int) (hwf : MapWF w1.mapFileUseCount) :
    MapWF (CDB.newOpen e w1 file pszMode fTxn dbRet).world.mapFileUseCount ∧
    ∀ g, mapCount (CDB.newOpen e w1 file pszMode fTxn dbRet).world.mapFileUseCount g =
        mapCount w1.mapFileUseCount g +
          (if (CDB.newOpen e w1 file pszMode fTxn dbRet).thrown = none ∧ file = g then 1 else 0) ∧
      ((CDB.newOpen e w1 file pszMode fTxn dbRet).thrown = none →
        (CDB.newOpen e w1 file pszMode fTxn dbRet).handle.openOnFile g = decide (file = g)) := by
  by_cases hret : dbRet > 0
  · obtain ⟨ht, _, hm, _⟩ := CDB.newOpen_fail e w1 file pszMode fTxn dbRet hret
    rw [hm, ht]
    refine ⟨MapWF_mapAdd _ _ _ (MapWF_mapAdd _ _ _ hwf), fun g => ⟨?_, by simp⟩⟩
    rw [mapCount_mapAdd _ _ _ _ (MapWF_mapAdd _ _ _ hwf), mapCount_mapAdd _ _ _ _ hwf,
      mapCount_mapAdd _ _ _ _ hwf]
    by_cases hg : g = file
    · subst hg; simp
    · simp [hg]
  · obtain ⟨ht, hh, hm, _⟩ := CDB.newOpen_ok e w1 file pszMode fTxn dbRet hret
    rw [hm, ht, hh]
    refine ⟨MapWF_mapAdd _ _ _ hwf, fun g => ⟨?_, by simp [CDB.openOnFile]⟩⟩
    rw [mapCount_mapAdd _ _ _ _ hwf]
    by_cases hg : g = file
    · subst hg; simp
    · simp [hg, Ne.symm hg]

theorem CDB.new_counts (e : Env) (w : World) (pszFile : Option String) (pszMode : String)
    (fTxn : Bool) (envRet dbRet : Int) (hwf : MapWF w.mapFileUseCount) :
    MapWF (CDB.new e w pszFile pszMode fTxn envRet dbRet).world.mapFileUseCount ∧
    ∀ g, mapCount (CDB.new e w pszFile pszMode fTxn envRet dbRet).world.mapFileUseCount g =
        mapCount w.mapFileUseCount g +
          (if (CDB.new e w pszFile pszMode fTxn envRet dbRet).thrown = none ∧ pszFile = some g
            then 1 else 0) ∧
      ((CDB.new e w pszFile pszMode fTxn envRet dbRet).thrown = none →
        (CDB.new e w pszFile pszMode fTxn envRet dbRet).handle.openOnFile g =
          decide (pszFile = some g)) := by
  cases pszFile with
  | none => exact ⟨hwf, fun g => ⟨by simp [CDB.new], by simp [CDB.new, CDB.openOnFile]⟩⟩
  | some file =>
    unfold CDB.new
    simp only
    by_cases hinit : w.fDbEnvInit = true
    · simp only [hinit, Bool.not_true, Bool.false_eq_true, if_false, Option.some.injEq]
      exact CDB.newOpen_counts e w file pszMode fTxn dbRet hwf
    · simp only [hinit, Bool.not_false, if_true, Option.some.injEq]
      by_cases henv : envRet > 0
      · simp only [henv, if_true]
        exact ⟨hwf, fun g => ⟨by simp [World.logCall], by simp⟩⟩
      · simp only [henv, if_false]
        exact CDB.newOpen_counts e _ file pszMode fTxn dbRet hwf

/-! ## The open-count invariant -/

theorem openHandles_append (hs : List CDB) (h : CDB) (f : String) :
    openHandles (hs ++ [h]) f = openHandles hs f + (if h.openOnFile f then 1 else 0) := by
  simp [openHandles, List.countP_append, List.countP_cons]

theorem openHandles_set (hs : List CDB) (i : Nat) (h h' : CDB) (f : String)
    (hget : hs[i]? = some h) :
    openHandles (hs.set i h') f + (if h.openOnFile f then 1 else 0) =
      openHandles hs f + (if h'.openOnFile f then 1 else 0) := by
  induction hs generalizing i with
  | nil => simp at hget
  | cons a rest ih =>
    cases i with
    | zero =>
      simp only [List.getElem?_cons_zero, Option.some.injEq] at hget
      subst hget
      simp only [openHandles, List.set_cons_zero, List.countP_cons]
      omega
    | succ j =>
      simp only [List.getElem?_cons_succ] at hget
      have := ih j hget
      simp only [openHandles, List.set_cons_succ, List.countP_cons] at this ⊢
      omega

theorem Sys.step_inv (e : Env) (s : Sys) (op : Op) (hinv : s.Inv) :
    (Sys.step e s op).Inv ∧
    ∀ f, mapCount (Sys.step e s op).world.mapFileUseCount f =
      mapCount s.world.mapFileUseCount f + (if opensOn e s op f then 1 else 0)
        - (if closesOn s op f then 1 else 0) := by
  obtain ⟨hwf, hcnt⟩ := hinv
  cases op with
  | construct pszFile pszMode fTxn envRet dbRet =>
    obtain ⟨hwf', hc⟩ := CDB.new_counts e s.world pszFile pszMode fTxn envRet dbRet hwf
    cases ht : (CDB.new e s.world pszFile pszMode fTxn envRet dbRet).thrown with
    | some err =>
      have hstep : Sys.step e s (Op.construct pszFile pszMode fTxn envRet dbRet) =
          { s with world := (CDB.new e s.world pszFile pszMode fTxn envRet dbRet).world } := by
        simp only [Sys.step, ht]
      rw [hstep]
      refine ⟨⟨hwf', fun f => ?_⟩, fun f => ?_⟩
      · rw [(hc f).1, ht]; simpa using hcnt f
      · rw [(hc f).1, ht]
        cases pszFile <;> simp [opensOn, closesOn, ht]
    | none =>
      have hstep : Sys.step e s (Op.construct pszFile pszMode fTxn envRet dbRet) =
          { world := (CDB.new e s.world pszFile pszMode fTxn envRet dbRet).world,
            handles := s.handles ++ [(CDB.new e s.world pszFile pszMode fTxn envRet dbRet).handle] } := by
        simp only [Sys.step, ht]
      rw [hstep]
      refine ⟨⟨hwf', fun f => ?_⟩, fun f => ?_⟩
      · rw [(hc f).1, openHandles_append, (hc f).2 ht, hcnt f, ht]
        by_cases hf : pszFile = some f <;> simp [hf]
      · rw [(hc f).1, ht]
        cases pszFile with
        | none => simp [opensOn, closesOn]
        | some g =>
          by_cases hg : g = f
          · subst hg; simp [opensOn, closesOn, ht]
          · simp [opensOn, closesOn, ht, hg]
  | close i =>
    cases hget : s.handles[i]? with
    | none =>
      have hstep : Sys.step e s (Op.close i) = s := by simp only [Sys.step, hget]
      rw [hstep]
      exact ⟨⟨hwf, hcnt⟩, fun f => by simp [opensOn, closesOn, hget]⟩
    | some h =>
      have hstep : Sys.step e s (Op.close i) =
          { world := (CDB.Close e.consts h s.world).1,
            handles := s.handles.set i (CDB.Close e.consts h s.world).2 } := by
        simp only [Sys.step, hget]
      rw [hstep]
      cases hdb : h.pdb with
      | none =>
        rw [CDB.Close_null e.consts h s.world hdb]
        have hset := fun f => openHandles_set s.handles i h h f hget
        refine ⟨⟨hwf, fun f => ?_⟩, fun f => ?_⟩
        · have := hset f
          simp only at this ⊢
          rw [hcnt f]; omega
        · simp [opensOn, closesOn, hget, hdb]
      | some db =>
        obtain ⟨hh, hm, _⟩ := CDB.Close_open e.consts h s.world db hdb
        have hset := fun f =>
          openHandles_set s.handles i h { pdb := none, strFile := h.strFile, vTxn := [] } f hget
        refine ⟨⟨?_, fun f => ?_⟩, fun f => ?_⟩
        · show MapWF (CDB.Close e.consts h s.world).1.mapFileUseCount
          rw [hm]; exact MapWF_mapAdd _ _ _ hwf
        · show mapCount (CDB.Close e.consts h s.world).1.mapFileUseCount f =
            (openHandles (s.handles.set i (CDB.Close e.consts h s.world).2) f : Int)
          rw [hm, hh]
          have h1 := hset f
          have h2 := hcnt f
          rw [mapCount_mapAdd _ _ _ _ hwf]
          by_cases hf : f = h.strFile
          · subst hf
            simp only [CDB.openOnFile, hdb, Option.isSome_some, Option.isSome_none, decide_True,
              Bool.and_self, Bool.false_and, if_true] at h1
            simp only [if_true]
            simp only [Bool.false_eq_true, if_false] at h1
            omega
          · simp only [CDB.openOnFile, hdb, Option.isSome_some, Option.isSome_none,
              Bool.false_and, Ne.symm hf, decide_False, Bool.and_false] at h1
            simp only [if_neg hf]
            simp only [Bool.false_eq_true, if_false] at h1
            omega
        · show mapCount (CDB.Close e.consts h s.world).1.mapFileUseCount f = _
          rw [hm, mapCount_mapAdd _ _ _ _ hwf]
          by_cases hf : f = h.strFile
          · subst hf; simp [opensOn, closesOn, hget, hdb]; ring
          · simp [opensOn, closesOn, hget, hdb, hf, Ne.symm hf]
  | flush fShutdown =>
    have hstep : Sys.step e s (Op.flush fShutdown) =
        { s with world := DBFlush s.world fShutdown } := rfl
    rw [hstep]
    have hm := DBFlush_counts s.world fShutdown
    refine ⟨⟨?_, fun f => ?_⟩, fun f => ?_⟩
    · show MapWF (DBFlush s.world fShutdown).mapFileUseCount
      rw [hm]; exact MapWF_filter _ _ hwf
    · show mapCount (DBFlush s.world fShutdown).mapFileUseCount f = _
      rw [hm, mapCount_filter_ne_zero _ _ hwf]; exact hcnt f
    · show mapCount (DBFlush s.world fShutdown).mapFileUseCount f = _
      rw [hm, mapCount_filter_ne_zero _ _ hwf]; simp [opensOn, closesOn]

theorem Sys.run_inv (e : Env) (ops : List Op) (s : Sys) (hinv : s.Inv) :
    (Sys.run e s ops).Inv ∧
    ∀ f, mapCount (Sys.run e s ops).world.mapFileUseCount f =
      mapCount s.world.mapFileUseCount f + (countOpens e s ops f : Int)
        - (countCloses e s ops f : Int) := by
  induction ops generalizing s with
  | nil => exact ⟨hinv, fun f => by simp [Sys.run, countOpens, countCloses]⟩
  | cons op ops ih =>
    obtain ⟨hinv1, hstep⟩ := Sys.step_inv e s op hinv
    obtain ⟨hinv2, hrun⟩ := ih (Sys.step e s op) hinv1
    refine ⟨hinv2, fun f => ?_⟩
    simp only [Sys.run, countOpens, countCloses]
    rw [hrun f, hstep f]
    push_cast
    split <;> split <;> simp <;> ring

theorem Sys.init_inv : Sys.init.Inv :=
  ⟨by simp [Sys.init, World.init, MapWF], fun f => by simp [Sys.init, World.init, mapCount, openHandles]⟩

/-- C2. After any sequence of constructions, `Close` calls and `DBFlush` calls
from program start, the open-count of every file (an absent entry counted as 0)
is the number of successful constructions on it minus the number of `Close`
calls on handles that were open on it, and is not negative. -/
theorem use_count_eq_opens_minus_closes (e : Env) (ops : List Op) (f : String) :
    mapCount (Sys.run e Sys.init ops).world.mapFileUseCount f =
      (countOpens e Sys.init ops f : Int) - (countCloses e Sys.init ops f : Int) ∧
    0 ≤ mapCount (Sys.run e Sys.init ops).world.mapFileUseCount f := by
  obtain ⟨hinv, hrun⟩ := Sys.run_inv e ops Sys.init Sys.init_inv
  refine ⟨?_, ?_⟩
  · rw [hrun f]; simp [Sys.init, World.init, mapCount]
  · rw [hinv.2 f]; exact Int.natCast_nonneg _

/-! ## The open flags derived from the mode string -/

theorem strchr_iff (psz : String) (ch : Char) : strchr psz ch = true ↔ ch ∈ psz.toList := by
  simp [strchr]

theorem openFlags_and (hwf : c.WF) (pszMode : String) (fTxn : Bool) :
    (openFlags c pszMode fTxn &&& c.DB_CREATE =
      if strchr pszMode 'c' then c.DB_CREATE else 0) ∧
    (openFlags c pszMode fTxn &&& c.DB_RDONLY =
      if !strchr pszMode 'c' && (!strchr pszMode '+' && !strchr pszMode 'w')
        then c.DB_RDONLY else 0) ∧
    (openFlags c pszMode fTxn &&& c.DB_AUTO_COMMIT =
      if !(!strchr pszMode '+' && !strchr pszMode 'w') || fTxn then c.DB_AUTO_COMMIT else 0) := by
  have h1 := hwf.thread_create
  have h2 := hwf.thread_rdonly
  have h3 := hwf.thread_auto
  have h4 := hwf.create_rdonly
  have h5 := hwf.create_auto
  have h6 := hwf.rdonly_auto
  have h4' : c.DB_RDONLY &&& c.DB_CREATE = 0 := by rw [Nat.and_comm]; exact h4
  have h5' : c.DB_AUTO_COMMIT &&& c.DB_CREATE = 0 := by rw [Nat.and_comm]; exact h5
  have h6' : c.DB_AUTO_COMMIT &&& c.DB_RDONLY = 0 := by rw [Nat.and_comm]; exact h6
  unfold openFlags
  cases strchr pszMode 'c' <;> cases strchr pszMode '+' <;> cases strchr pszMode 'w' <;>
    cases fTxn <;>
    simp [Nat.and_distrib_right, h1, h2, h3, h4, h5, h6, h4', h5', h6']

/-- C5 (as amended). The flag word passed to the database open contains
`DB_AUTO_COMMIT` if and only if the mode contains `'+'` or `'w'`, or the
transactional parameter is true. -/
theorem auto_commit_iff_write_or_txn (hwf : c.WF) (pszMode : String) (fTxn : Bool) :
    hasFlag (openFlags c pszMode fTxn) c.DB_AUTO_COMMIT ↔
      ('+' ∈ pszMode.toList ∨ 'w' ∈ pszMode.toList) ∨ fTxn = true := by
  rw [← strchr_iff, ← strchr_iff, hasFlag, (openFlags_and c hwf pszMode fTxn).2.2]
  have hne := hwf.auto_ne
  cases strchr pszMode '+' <;> cases strchr pszMode 'w' <;> cases fTxn <;> simp [Ne.symm hne]

/-- Witness for C5 (as amended): mode `"r+"`, not transactional. -/
theorem auto_commit_iff_write_or_txn_witness :
    sampleConsts.WF ∧
    (hasFlag (openFlags sampleConsts "r+" false) sampleConsts.DB_AUTO_COMMIT ↔
      ('+' ∈ "r+".toList ∨ 'w' ∈ "r+".toList) ∨ false = true) :=
  ⟨sampleConsts_wf, auto_commit_iff_write_or_txn sampleConsts sampleConsts_wf "r+" false⟩

/-- C5, counterexample to the claim as stated: with mode `"c"` and the
transactional parameter false the mode contains `'c'`, yet the flag word does
not contain `DB_AUTO_COMMIT`. -/
theorem auto_commit_create_counterexample :
    ¬ (hasFlag (openFlags sampleConsts "c" false) sampleConsts.DB_AUTO_COMMIT ↔
      'c' ∈ "c".toList ∨ ('+' ∈ "c".toList ∨ 'w' ∈ "c".toList) ∨ false = true) := by
  decide

/-- C6 (as amended). The flag word passed to the database open contains
`DB_RDONLY` if and only if the mode contains none of `'c'`, `'+'`, `'w'`; it
contains `DB_CREATE` if and only if the mode contains `'c'`. -/
theorem rdonly_create_iff (hwf : c.WF) (pszMode : String) (fTxn : Bool) :
    (hasFlag (openFlags c pszMode fTxn) c.DB_RDONLY ↔
      ('c' ∉ pszMode.toList ∧ '+' ∉ pszMode.toList ∧ 'w' ∉ pszMode.toList)) ∧
    (hasFlag (openFlags c pszMode fTxn) c.DB_CREATE ↔ 'c' ∈ pszMode.toList) := by
  rw [← strchr_iff, ← strchr_iff, ← strchr_iff, hasFlag, hasFlag,
    (openFlags_and c hwf pszMode fTxn).1, (openFlags_and c hwf pszMode fTxn).2.1]
  have hne := hwf.rdonly_ne
  have hne' := hwf.create_ne
  cases strchr pszMode 'c' <;> cases strchr pszMode '+' <;> cases strchr pszMode 'w' <;>
    simp [Ne.symm hne, Ne.symm hne']

/-- Witness for C6 (as amended): mode `"r"`. -/
theorem rdonly_create_iff_witness :
    sampleConsts.WF ∧
    (hasFlag (openFlags sampleConsts "r" false) sampleConsts.DB_RDONLY ↔
      ('c' ∉ "r".toList ∧ '+' ∉ "r".toList ∧ 'w' ∉ "r".toList)) ∧
    (hasFlag (openFlags sampleConsts "r" false) sampleConsts.DB_CREATE ↔ 'c' ∈ "r".toList) :=
  ⟨sampleConsts_wf, rdonly_create_iff sampleConsts sampleConsts_wf "r" false⟩

/-- C6, counterexample to the claim as stated: mode `"c"` contains neither
`'+'` nor `'w'`, yet the flag word does not contain `DB_RDONLY`. -/
theorem rdonly_create_counterexample :
    ¬ ((hasFlag (openFlags sampleConsts "c" false) sampleConsts.DB_RDONLY ↔
        ('+' ∉ "c".toList ∧ 'w' ∉ "c".toList)) ∧
      (hasFlag (openFlags sampleConsts "c" false) sampleConsts.DB_CREATE ↔ 'c' ∈ "c".toList)) := by
  decide

/-! ## The constructor and negative return codes of the engine -/

/-- C3, evaluation at the failing input: when `pdb->open` returns `-1` the
constructor throws nothing, keeps the database pointer and the file name, and
leaves the open-count of the file incremented. -/
theorem db_open_negative_code_accepted :
    (CDB.new sampleEnv World.init (some "wallet.dat") "r+" false 0 (-1)).thrown = none ∧
    (CDB.new sampleEnv World.init (some "wallet.dat") "r+" false 0 (-1)).handle.pdb =
      some { file := "wallet.dat" } ∧
    (CDB.new sampleEnv World.init (some "wallet.dat") "r+" false 0 (-1)).handle.strFile =
      "wallet.dat" ∧
    mapCount World.init.mapFileUseCount "wallet.dat" = 0 ∧
    mapCount (CDB.new sampleEnv World.init (some "wallet.dat") "r+" false 0 (-1)).world.mapFileUseCount
      "wallet.dat" = 1 := by
  decide

/-- C4, evaluation at the failing input: when the environment is not
initialized and `dbenv.open` returns `-1` the constructor throws nothing, sets
`fDbEnvInit` and goes on to register and open the file. -/
theorem env_open_negative_code_accepted :
    World.init.fDbEnvInit = false ∧
    (CDB.new sampleEnv World.init (some "wallet.dat") "r+" false (-1) 0).thrown = none ∧
    (CDB.new sampleEnv World.init (some "wallet.dat") "r+" false (-1) 0).world.fDbEnvInit = true ∧
    mapCount (CDB.new sampleEnv World.init (some "wallet.dat") "r+" false (-1) 0).world.mapFileUseCount
      "wallet.dat" = 1 := by
  decide

/-! ## `DBFlush` -/

theorem flushLoop_log (log : List Call) (m : List (String × Int)) :
    (flushLoop log m).2 =
      ((m.filter (fun e => decide (e.2 = 0))).map (fun e => Call.lsnReset e.1)).reverse ++ log := by
  induction m generalizing log with
  | nil => rfl
  | cons a rest ih =>
    obtain ⟨a, n⟩ := a
    unfold flushLoop
    by_cases h : n = 0
    · simp [h, ih]
    · simp [h, ih]

theorem count_resets_of_not_mem (m : List (String × Int)) (f : String)
    (h : f ∉ m.map Prod.fst) :
    ((m.filter (fun e => decide (e.2 = 0))).map (fun e => Call.lsnReset e.1)).count
      (Call.lsnReset f) = 0 := by
  rw [List.count_eq_zero]
  intro hm
  simp only [List.mem_map, List.mem_filter, decide_eq_true_eq, Call.lsnReset.injEq] at hm
  obtain ⟨e, ⟨he, _⟩, hf⟩ := hm
  exact h (List.mem_map.mpr ⟨e, he, hf⟩)

theorem count_resets (m : List (String × Int)) (f : String) (hwf : MapWF m) :
    ((m.filter (fun e => decide (e.2 = 0))).map (fun e => Call.lsnReset e.1)).count
      (Call.lsnReset f) = if (f, (0 : Int)) ∈ m then 1 else 0 := by
  induction m with
  | nil => rfl
  | cons a rest ih =>
    obtain ⟨a, n⟩ := a
    have hrest : MapWF rest := by
      simp only [MapWF, List.map_cons, List.pairwise_cons] at hwf; exact hwf.2
    have hnot : a ∉ rest.map Prod.fst := by
      intro hm
      simp only [MapWF, List.map_cons, List.pairwise_cons] at hwf
      exact lt_irrefl a (hwf.1 a hm)
    by_cases hf : a = f
    · subst hf
      have hnm : (a, (0 : Int)) ∉ rest := fun hm => hnot (List.mem_map.mpr ⟨_, hm, rfl⟩)
      by_cases hn : n = 0
      · subst hn
        rw [List.filter_cons_of_pos (by simp), List.map_cons, List.count_cons_self,
          count_resets_of_not_mem rest a hnot]
        simp
      · rw [List.filter_cons_of_neg (by simpa using hn), count_resets_of_not_mem rest a hnot]
        simp [hnm, Ne.symm hn]
    · have hne : (f, (0 : Int)) ≠ (a, n) := fun h => hf (by injection h with h1 _; exact h1.symm)
      by_cases hn : n = 0
      · subst hn
        rw [List.filter_cons_of_pos (by simp), List.map_cons,
          List.count_cons_of_ne (by simpa using Ne.symm hf), ih hrest]
        simp [hne]
      · rw [List.filter_cons_of_neg (by simpa using hn), ih hrest]
        simp [hne]

/-- C7. `DBFlush(false)` leaves in `mapFileUseCount` exactly the entries whose
count was non-zero, unchanged; the calls it issues to the engine contain
`lsn_reset` once for each file whose entry had count zero and for no other
file, and no close of the environment; `fDbEnvInit` is unchanged. -/
theorem flush_false_prunes_idle_files (w : World) (hwf : MapWF w.mapFileUseCount) :
    (DBFlush w false).mapFileUseCount = w.mapFileUseCount.filter (fun e => decide (e.2 ≠ 0)) ∧
    (∃ issued, (DBFlush w false).log = issued ++ w.log ∧
      (∀ f, issued.count (Call.lsnReset f) = if (f, (0 : Int)) ∈ w.mapFileUseCount then 1 else 0) ∧
      Call.envClose ∉ issued) ∧
    (DBFlush w false).fDbEnvInit = w.fDbEnvInit := by
  refine ⟨DBFlush_counts w false, ?_, rfl⟩
  refine ⟨((w.mapFileUseCount.filter (fun e => decide (e.2 = 0))).map
    (fun e => Call.lsnReset e.1)).reverse ++ [Call.txnCheckpoint], ?_, ?_, ?_⟩
  · simp [DBFlush, flushLoop_log, World.logCall]
  · intro f
    rw [List.count_append, List.count_reverse, count_resets _ _ hwf]
    simp
  · simp

/-- Witness for C7: `addr.dat` in use once, `wallet.dat` idle. -/
theorem flush_false_prunes_idle_files_witness :
    MapWF [("addr.dat", 1), ("wallet.dat", 0)] ∧
    (DBFlush { World.init with fDbEnvInit := true,
                               mapFileUseCount := [("addr.dat", 1), ("wallet.dat", 0)] }
      false).mapFileUseCount = [("addr.dat", 1)] ∧
    (DBFlush { World.init with fDbEnvInit := true,
                               mapFileUseCount := [("addr.dat", 1), ("wallet.dat", 0)] }
      false).log = [Call.lsnReset "wallet.dat", Call.txnCheckpoint] ∧
    (DBFlush { World.init with fDbEnvInit := true,
                               mapFileUseCount := [("addr.dat", 1), ("wallet.dat", 0)] }
      false).fDbEnvInit = true :=
  have hwf : MapWF [("addr.dat", 1), ("wallet.dat", 0)] := by simp [MapWF]; decide
  have h := flush_false_prunes_idle_files
    { World.init with fDbEnvInit := true,
                      mapFileUseCount := [("addr.dat", 1), ("wallet.dat", 0)] } hwf
  ⟨hwf, by rw [h.1]; decide, by decide, h.2.2⟩

/-! ## The environment stays open while a file is in use -/

theorem CDB.newOpen_envInit (e : Env) (w1 : World) (file pszMode : String) (fTxn : Bool)
    (dbRet : Int) :
    (CDB.newOpen e w1 file pszMode fTxn dbRet).world.fDbEnvInit = w1.fDbEnvInit := by
  by_cases hret : dbRet > 0
  · exact (CDB.newOpen_fail e w1 file pszMode fTxn dbRet hret).2.2.2
  · exact (CDB.newOpen_ok e w1 file pszMode fTxn dbRet hret).2.2.2

theorem CDB.new_envInit (e : Env) (w : World) (pszFile : Option String) (pszMode : String)
    (fTxn : Bool) (envRet dbRet : Int) :
    (CDB.new e w pszFile pszMode fTxn envRet dbRet).world.fDbEnvInit = true ∨
    ((CDB.new e w pszFile pszMode fTxn envRet dbRet).world.fDbEnvInit = w.fDbEnvInit ∧
      (CDB.new e w pszFile pszMode fTxn envRet dbRet).world.mapFileUseCount =
        w.mapFileUseCount) := by
  cases pszFile with
  | none => exact Or.inr ⟨rfl, rfl⟩
  | some file =>
    unfold CDB.new
    simp only
    by_cases hinit : w.fDbEnvInit = true
    · simp only [hinit, Bool.not_true, Bool.false_eq_true, if_false]
      left
      rw [CDB.newOpen_envInit]; exact hinit
    · simp only [hinit, Bool.not_false, if_true]
      by_cases henv : envRet > 0
      · simp only [henv, if_true]
        exact Or.inr ⟨by simpa [World.logCall] using hinit, rfl⟩
      · simp only [henv, if_false]
        left
        rw [CDB.newOpen_envInit]

theorem mapCount_nonpos_of_noFileInUse (m : List (String × Int)) (f : String)
    (h : m.all (fun e => decide (e.2 ≤ 0)) = true) : mapCount m f ≤ 0 := by
  induction m with
  | nil => simp [mapCount]
  | cons a rest ih =>
    obtain ⟨a, n⟩ := a
    simp only [List.all_cons, Bool.and_eq_true, decide_eq_true_eq] at h
    unfold mapCount
    split
    · exact h.1
    · exact ih h.2

theorem Sys.step_envInit (e : Env) (s : Sys) (op : Op) (hinv : s.Inv)
    (hguard : op = Op.flush true → noFileInUse s.world = true)
    (henv : ∀ f, 0 < mapCount s.world.mapFileUseCount f → s.world.fDbEnvInit = true) :
    ∀ f, 0 < mapCount (Sys.step e s op).world.mapFileUseCount f →
      (Sys.step e s op).world.fDbEnvInit = true := by
  obtain ⟨hwf, _⟩ := hinv
  intro f hpos
  cases op with
  | construct pszFile pszMode fTxn envRet dbRet =>
    have hw : (Sys.step e s (Op.construct pszFile pszMode fTxn envRet dbRet)).world =
        (CDB.new e s.world pszFile pszMode fTxn envRet dbRet).world := by
      simp only [Sys.step]; split <;> rfl
    rw [hw] at hpos ⊢
    rcases CDB.new_envInit e s.world pszFile pszMode fTxn envRet dbRet with h | ⟨h1, h2⟩
    · exact h
    · rw [h1]; rw [h2] at hpos; exact henv f hpos
  | close i =>
    cases hget : s.handles[i]? with
    | none =>
      have hstep : Sys.step e s (Op.close i) = s := by simp only [Sys.step, hget]
      rw [hstep] at hpos ⊢
      exact henv f hpos
    | some h =>
      have hw : (Sys.step e s (Op.close i)).world = (CDB.Close e.consts h s.world).1 := by
        simp only [Sys.step, hget]
      rw [hw] at hpos ⊢
      cases hdb : h.pdb with
      | none =>
        rw [CDB.Close_null e.consts h s.world hdb] at hpos ⊢
        exact henv f hpos
      | some db =>
        obtain ⟨_, hm, hi⟩ := CDB.Close_open e.consts h s.world db hdb
        rw [hm, mapCount_mapAdd _ _ _ _ hwf] at hpos
        rw [hi]
        by_cases hf : f = h.strFile
        · rw [if_pos hf] at hpos
          exact henv h.strFile (by omega)
        · rw [if_neg hf] at hpos
          exact henv f hpos
  | flush fShutdown =>
    have hw : (Sys.step e s (Op.flush fShutdown)).world = DBFlush s.world fShutdown := rfl
    rw [hw] at hpos ⊢
    rw [DBFlush_counts, mapCount_filter_ne_zero _ _ hwf] at hpos
    cases fShutdown with
    | false => exact henv f hpos
    | true =>
      have := mapCount_nonpos_of_noFileInUse s.world.mapFileUseCount f (hguard rfl)
      omega

theorem Sys.run_envInit (e : Env) (ops : List Op) (s : Sys) (hinv : s.Inv)
    (hguard : shutdownOnlyWhenIdle e s ops)
    (henv : ∀ f, 0 < mapCount s.world.mapFileUseCount f → s.world.fDbEnvInit = true) :
    ∀ f, 0 < mapCount (Sys.run e s ops).world.mapFileUseCount f →
      (Sys.run e s ops).world.fDbEnvInit = true := by
  induction ops generalizing s with
  | nil => exact henv
  | cons op ops ih =>
    exact ih (Sys.step e s op) (Sys.step_inv e s op hinv).1 hguard.2
      (Sys.step_envInit e s op hinv hguard.1 henv)

/-- C8 (as amended). In every state reached from program start by handle
constructions, `Close` calls, `DBFlush(false)` calls and `DBFlush(true)` calls
made only when no file is in use: if some file has a positive open-count then
`fDbEnvInit` is true. -/
theorem env_open_while_file_in_use (e : Env) (ops : List Op)
    (hguard : shutdownOnlyWhenIdle e Sys.init ops) (f : String)
    (hpos : 0 < mapCount (Sys.run e Sys.init ops).world.mapFileUseCount f) :
    (Sys.run e Sys.init ops).world.fDbEnvInit = true :=
  Sys.run_envInit e ops Sys.init Sys.init_inv hguard
    (fun f h => by simp [Sys.init, World.init, mapCount] at h) f hpos

/-- Witness for C8 (as amended): open and close the wallet, shut down, open it
again. -/
theorem env_open_while_file_in_use_witness :
    shutdownOnlyWhenIdle sampleEnv Sys.init
      [Op.construct (some "wallet.dat") "cr+" false 0 0, Op.close 0, Op.flush true,
        Op.construct (some "wallet.dat") "r+" false 0 0] ∧
    0 < mapCount (Sys.run sampleEnv Sys.init
      [Op.construct (some "wallet.dat") "cr+" false 0 0, Op.close 0, Op.flush true,
        Op.construct (some "wallet.dat") "r+" false 0 0]).world.mapFileUseCount "wallet.dat" ∧
    (Sys.run sampleEnv Sys.init
      [Op.construct (some "wallet.dat") "cr+" false 0 0, Op.close 0, Op.flush true,
        Op.construct (some "wallet.dat") "r+" false 0 0]).world.fDbEnvInit = true :=
  have hg : shutdownOnlyWhenIdle sampleEnv Sys.init
      [Op.construct (some "wallet.dat") "cr+" false 0 0, Op.close 0, Op.flush true,
        Op.construct (some "wallet.dat") "r+" false 0 0] := by
    simp only [shutdownOnlyWhenIdle, and_true]
    decide
  ⟨hg, by decide, env_open_while_file_in_use sampleEnv _ hg "wallet.dat" (by decide)⟩

/-- C8, counterexample to the claim as stated: after a handle on `wallet.dat`
is constructed and `DBFlush(true)` is called, the open-count of `wallet.dat` is
1 and `fDbEnvInit` is false. -/
theorem env_closed_while_in_use_counterexample :
    ¬ (0 < mapCount (Sys.run sampleEnv Sys.init
          [Op.construct (some "wallet.dat") "r+" false 0 0, Op.flush true]).world.mapFileUseCount
          "wallet.dat" →
        (Sys.run sampleEnv Sys.init
          [Op.construct (some "wallet.dat") "r+" false 0 0, Op.flush true]).world.fDbEnvInit
          = true) := by
  decide

/-! ## Wallet keys are not overwritten -/

theorem Db.put_keyexist (w : World) (db : Db) (txn : Option Nat) (key value old : Bytes)
    (h : engineLookup w db txn key = some old) :
    Db.put c w db txn key value c.DB_NOOVERWRITE =
      (w.logCall (Call.put db.file txn key value c.DB_NOOVERWRITE), c.DB_KEYEXIST) := by
  unfold Db.put
  unfold engineLookup at h
  cases hv : engineView w txn with
  | none => simp [hv] at h
  | some fs =>
    simp only [hv, Option.some_bind] at h
    simp [h]

/-- C9. When the wallet file holds a record `("key", pub) -> priv1`, a
`WriteKey(pub, priv2)` issues a put with the no-overwrite flag, returns false,
and a following `ReadKey(pub)` returns true and yields `priv1`. -/
theorem write_key_keeps_first_value (hwf : c.WF) (kc : KeyCodec)
    (hdec : ∀ v, kc.priv.dec (kc.priv.enc v) = some v)
    (h : CDB) (w : World) (db : Db) (hdb : h.pdb = some db) (pub priv1 priv2 priv0 : Bytes)
    (hrec : engineLookup w db h.GetTxn (kc.key.enc ("key", pub)) = some (kc.priv.enc priv1)) :
    (CWalletDB.WriteKey c kc h w pub priv2).2 = false ∧
    (CWalletDB.WriteKey c kc h w pub priv2).1.log =
      Call.put db.file h.GetTxn (kc.key.enc ("key", pub)) (kc.priv.enc priv2) c.DB_NOOVERWRITE
        :: w.log ∧
    (CWalletDB.ReadKey c kc h (CWalletDB.WriteKey c kc h w pub priv2).1 pub priv0).2 =
      ReadOut.ret true priv1 := by
  have hput := Db.put_keyexist c w db h.GetTxn (kc.key.enc ("key", pub)) (kc.priv.enc priv2) _ hrec
  have hw : CWalletDB.WriteKey c kc h w pub priv2 =
      (w.logCall (Call.put db.file h.GetTxn (kc.key.enc ("key", pub)) (kc.priv.enc priv2)
        c.DB_NOOVERWRITE), false) := by
    simp [CWalletDB.WriteKey, CDB.Write, hdb, hput, hwf.keyexist_ne]
  rw [hw]
  refine ⟨rfl, rfl, ?_⟩
  have hl : engineLookup (w.logCall (Call.put db.file h.GetTxn (kc.key.enc ("key", pub))
      (kc.priv.enc priv2) c.DB_NOOVERWRITE)) db h.GetTxn (kc.key.enc ("key", pub)) =
      some (kc.priv.enc priv1) := by
    rw [engineLookup_logCall]; exact hrec
  simp only [CWalletDB.ReadKey, CDB.Read, hdb, Db.get_value, hl, hdec,
    Db.get_ret_of_some c _ _ _ _ _ hl]
  simp

/-- Witness for C9: the wallet holds `[7] -> [8]`; writing `[7] -> [9]` fails. -/
theorem write_key_keeps_first_value_witness :
    sampleConsts.WF ∧ (∀ v, sampleKeyCodec.priv.dec (sampleKeyCodec.priv.enc v) = some v) ∧
    sampleHandle.pdb = some { file := "wallet.dat" } ∧
    engineLookup sampleKeyWorld { file := "wallet.dat" } sampleHandle.GetTxn
      (sampleKeyCodec.key.enc ("key", [7])) = some (sampleKeyCodec.priv.enc [8]) ∧
    (CWalletDB.WriteKey sampleConsts sampleKeyCodec sampleHandle sampleKeyWorld [7] [9]).2 = false ∧
    (CWalletDB.ReadKey sampleConsts sampleKeyCodec sampleHandle
      (CWalletDB.WriteKey sampleConsts sampleKeyCodec sampleHandle sampleKeyWorld [7] [9]).1
      [7] []).2 = ReadOut.ret true [8] :=
  have h := write_key_keeps_first_value sampleConsts sampleConsts_wf sampleKeyCodec
    (fun _ => rfl) sampleHandle sampleKeyWorld { file := "wallet.dat" } rfl [7] [8] [9] []
    (by decide)
  ⟨sampleConsts_wf, fun _ => rfl, rfl, by decide, h.1, h.2.2⟩

/-! ## Nested transactions -/

theorem find_append_fresh (l : List DbTxn) (t0 : DbTxn) (h : ∀ t ∈ l, t.id ≠ t0.id) :
    (l ++ [t0]).find? (fun t => decide (t.id = t0.id)) = some t0 := by
  induction l with
  | nil => simp [List.find?]
  | cons a rest ih =>
    have ha : a.id ≠ t0.id := h a (List.mem_cons_self _ _)
    rw [List.cons_append, List.find?_cons_of_neg _ (by simpa using ha)]
    exact ih (fun t ht => h t (List.mem_cons_of_mem _ ht))

theorem find_map_setView_ne (l : List DbTxn) (i j : Nat) (fs : Files) (hij : i ≠ j) :
    (l.map (fun t => if t.id = j then { t with view := fs } else t)).find?
      (fun t => decide (t.id = i)) = l.find? (fun t => decide (t.id = i)) := by
  induction l with
  | nil => rfl
  | cons a rest ih =>
    rw [List.map_cons]
    by_cases h2 : a.id = i
    · have h1 : ¬ a.id = j := fun h => hij (h2.symm.trans h)
      rw [if_neg h1, List.find?_cons_of_pos _ (by simpa using h2),
        List.find?_cons_of_pos _ (by simpa using h2)]
    · have hga : decide ((if a.id = j then ({ a with view := fs } : DbTxn) else a).id = i)
          = false := by
        by_cases h1 : a.id = j
        · rw [if_pos h1]; simpa using h2
        · rw [if_neg h1]; simpa using h2
      have h2' : decide (a.id = i) = false := by simpa using h2
      simp only [List.find?_cons, hga, h2']
      exact ih

theorem find_dropSubtree_root (l : List DbTxn) (dead : List Nat) (i : Nat) (t : DbTxn)
    (hfind : l.find? (fun t => decide (t.id = i)) = some t) (hroot : t.parent = none)
    (hdead : i ∉ dead) :
    (dropSubtree dead l).find? (fun t => decide (t.id = i)) = some t := by
  induction l generalizing dead with
  | nil => simp at hfind
  | cons a rest ih =>
    by_cases h1 : a.id = i
    · rw [List.find?_cons_of_pos _ (by simpa using h1)] at hfind
      have hat : a = t := Option.some.inj hfind
      have hkeep : ¬ (a.id ∈ dead ∨ ∃ p, a.parent = some p ∧ p ∈ dead) := by
        rw [h1, hat, hroot]; simp [hdead]
      rw [dropSubtree, if_neg hkeep, List.find?_cons_of_pos _ (by simpa using h1), hat]
    · rw [List.find?_cons_of_neg _ (by simpa using h1)] at hfind
      unfold dropSubtree
      split
      · exact ih (a.id :: dead) hfind (by simp [hdead, Ne.symm h1])
      · rw [List.find?_cons_of_neg _ (by simpa using h1)]
        exact ih dead hfind hdead

theorem CDB.GetTxn_append (h : CDB) (vs : List Nat) (n : Nat) :
    ({ h with vTxn := vs ++ [n] } : CDB).GetTxn = some n := by
  simp [CDB.GetTxn]

theorem CDB.TxnBegin_eq (h : CDB) (w : World) (db : Db) (fs : Files) (hdb : h.pdb = some db)
    (hv : engineView w h.GetTxn = some fs) :
    CDB.TxnBegin c h w =
      ({ w with txns := w.txns ++ [{ id := w.nextTxn, parent := h.GetTxn, view := fs }],
                nextTxn := w.nextTxn + 1,
                log := Call.txnBegin h.GetTxn (some w.nextTxn) :: w.log },
        { h with vTxn := h.vTxn ++ [w.nextTxn] }, true) := by
  simp [CDB.TxnBegin, hdb, envTxnBegin, hv]

theorem CDB.Write_eq {K T : Type} (hwf : c.WF) (ck : Codec K) (cv : Codec T) (h : CDB) (w : World)
    (db : Db) (fs : Files) (k : K) (v : T) (hdb : h.pdb = some db)
    (hv : engineView w h.GetTxn = some fs) :
    CDB.Write c ck cv h w k v true =
      (engineSetView (w.logCall (Call.put db.file h.GetTxn (ck.enc k) (cv.enc v) 0)) h.GetTxn
        (filesSet fs db.file (storePut (filesGet fs db.file) (ck.enc k) (cv.enc v))), true) := by
  simp [CDB.Write, hdb, Db.put, hv, Ne.symm hwf.nooverwrite_ne]

theorem CDB.TxnAbort_eq (h : CDB) (w : World) (db : Db) (vs : List Nat) (n : Nat) (t : DbTxn)
    (hdb : h.pdb = some db) (hvs : h.vTxn = vs ++ [n])
    (hfind : w.txns.find? (fun t => decide (t.id = n)) = some t) :
    CDB.TxnAbort c h w =
      ({ w with log := Call.txnAbort n :: w.log, txns := dropSubtree [n] w.txns },
        { h with vTxn := vs }, true) := by
  simp [CDB.TxnAbort, hdb, hvs, txnAbort, hfind, World.logCall]

theorem CDB.TxnCommit_eq (h : CDB) (w : World) (db : Db) (vs : List Nat) (n : Nat) (t : DbTxn)
    (hdb : h.pdb = some db) (hvs : h.vTxn = vs ++ [n])
    (hfind : w.txns.find? (fun t => decide (t.id = n)) = some t) :
    CDB.TxnCommit c h w =
      ({ engineSetView (w.logCall (Call.txnCommit n)) t.parent t.view with
          txns := dropSubtree [n]
            (engineSetView (w.logCall (Call.txnCommit n)) t.parent t.view).txns },
        { h with vTxn := vs }, true) := by
  simp [CDB.TxnCommit, hdb, hvs, txnCommit, hfind]

theorem CDB.GetTxn_nil (h : CDB) (hstack : h.vTxn = []) : h.GetTxn = none := by
  simp [CDB.GetTxn, hstack]

theorem engineView_begin (w : World) (p : Option Nat) (fs : Files) (call : Call)
    (htx : w.TxnWF) :
    engineView { w with txns := w.txns ++ [{ id := w.nextTxn, parent := p, view := fs }],
                        nextTxn := w.nextTxn + 1, log := call :: w.log } (some w.nextTxn)
      = some fs := by
  simp only [engineView]
  rw [find_append_fresh w.txns { id := w.nextTxn, parent := p, view := fs }
    (fun t ht => Nat.ne_of_lt (htx t ht))]
  rfl

/-- C10. On an open handle with an empty transaction stack:
`TxnBegin; Write(k,v); TxnAbort` leaves the committed data as before;
`TxnBegin; Write(k,v); TxnCommit` leaves the committed data with `k` mapped to
`v`; `TxnBegin; TxnBegin; Write(k,v); TxnAbort; TxnCommit` leaves the committed
data as before.  The call logs show that each put is issued under the
transaction created by the most recent `txn_begin`. -/
theorem nested_txn_atomicity {K T : Type} (hwf : c.WF) (ck : Codec K) (cv : Codec T)
    (h : CDB) (w : World) (db : Db) (hdb : h.pdb = some db) (hstack : h.vTxn = [])
    (htx : w.TxnWF) (k : K) (v : T) :
    ((beginWriteAbort c ck cv h w k v).1.data = w.data ∧
      (beginWriteAbort c ck cv h w k v).1.log =
        Call.txnAbort w.nextTxn ::
        Call.put db.file (some w.nextTxn) (ck.enc k) (cv.enc v) 0 ::
        Call.txnBegin none (some w.nextTxn) :: w.log) ∧
    ((beginWriteCommit c ck cv h w k v).1.data =
        filesSet w.data db.file (storePut (filesGet w.data db.file) (ck.enc k) (cv.enc v)) ∧
      engineLookup (beginWriteCommit c ck cv h w k v).1 db none (ck.enc k) = some (cv.enc v) ∧
      (beginWriteCommit c ck cv h w k v).1.log =
        Call.txnCommit w.nextTxn ::
        Call.put db.file (some w.nextTxn) (ck.enc k) (cv.enc v) 0 ::
        Call.txnBegin none (some w.nextTxn) :: w.log) ∧
    ((beginBeginWriteAbortCommit c ck cv h w k v).1.data = w.data ∧
      (beginBeginWriteAbortCommit c ck cv h w k v).1.log =
        Call.txnCommit w.nextTxn ::
        Call.txnAbort (w.nextTxn + 1) ::
        Call.put db.file (some (w.nextTxn + 1)) (ck.enc k) (cv.enc v) 0 ::
        Call.txnBegin (some w.nextTxn) (some (w.nextTxn + 1)) ::
        Call.txnBegin none (some w.nextTxn) :: w.log) := by
  have hg0 : h.GetTxn = none := CDB.GetTxn_nil h hstack
  have hb1 := CDB.TxnBegin_eq c h w db w.data hdb (by rw [hg0]; rfl)
  rw [hg0, hstack] at hb1
  simp only [List.nil_append] at hb1
  -- the state after the first `TxnBegin`
  generalize hw1 : ({ w with txns := w.txns ++ [{ id := w.nextTxn, parent := none, view := w.data }],
                             nextTxn := w.nextTxn + 1,
                             log := Call.txnBegin none (some w.nextTxn) :: w.log } : World) = w1
    at hb1
  generalize hh1 : ({ h with vTxn := [w.nextTxn] } : CDB) = h1 at hb1
  have hdb1 : h1.pdb = some db := by rw [← hh1]; exact hdb
  have hvs1 : h1.vTxn = [] ++ [w.nextTxn] := by rw [← hh1]; rfl
  have hg1 : h1.GetTxn = some w.nextTxn := by rw [← hh1]; exact CDB.GetTxn_append h [] w.nextTxn
  have hv1 : engineView w1 (some w.nextTxn) = some w.data := by
    rw [← hw1]; exact engineView_begin w none w.data _ htx
  have hwr1 := CDB.Write_eq c hwf ck cv h1 w1 db w.data k v hdb1 (by rw [hg1]; exact hv1)
  rw [hg1] at hwr1
  have hf1 : w1.txns.find? (fun t => decide (t.id = w.nextTxn)) =
      some { id := w.nextTxn, parent := none, view := w.data } := by
    rw [← hw1]
    exact find_append_fresh w.txns { id := w.nextTxn, parent := none, view := w.data }
      (fun t ht => Nat.ne_of_lt (htx t ht))
  have hd1 : w1.data = w.data := by rw [← hw1]
  have hl1 : w1.log = Call.txnBegin none (some w.nextTxn) :: w.log := by rw [← hw1]
  refine ⟨?_, ?_, ?_⟩
  · -- abort
    have hf2 := find_map_setView w1.txns w.nextTxn
      (filesSet w.data db.file (storePut (filesGet w.data db.file) (ck.enc k) (cv.enc v))) _ hf1
    have hab := CDB.TxnAbort_eq c h1
      (engineSetView (w1.logCall (Call.put db.file (some w.nextTxn) (ck.enc k) (cv.enc v) 0))
        (some w.nextTxn)
        (filesSet w.data db.file (storePut (filesGet w.data db.file) (ck.enc k) (cv.enc v))))
      db [] w.nextTxn _ hdb1 hvs1 hf2
    simp only [beginWriteAbort, hb1, hwr1, hab]
    simp [engineSetView, World.logCall, hd1, hl1]
  · -- commit
    have hf2 := find_map_setView w1.txns w.nextTxn
      (filesSet w.data db.file (storePut (filesGet w.data db.file) (ck.enc k) (cv.enc v))) _ hf1
    have hco := CDB.TxnCommit_eq c h1
      (engineSetView (w1.logCall (Call.put db.file (some w.nextTxn) (ck.enc k) (cv.enc v) 0))
        (some w.nextTxn)
        (filesSet w.data db.file (storePut (filesGet w.data db.file) (ck.enc k) (cv.enc v))))
      db [] w.nextTxn _ hdb1 hvs1 hf2
    simp only [beginWriteCommit, hb1, hwr1, hco]
    simp [engineSetView, World.logCall, hl1, engineLookup, engineView, filesGet_filesSet_self,
      storeGet_storePut_self]
  · -- nested
    have htx1 : w1.TxnWF := by
      rw [← hw1]
      intro t ht
      simp only [List.mem_append, List.mem_singleton] at ht
      rcases ht with ht | ht
      · exact Nat.lt_succ_of_lt (htx t ht)
      · rw [ht]; exact Nat.lt_succ_self _
    have hn1 : w1.nextTxn = w.nextTxn + 1 := by rw [← hw1]
    have hb2 := CDB.TxnBegin_eq c h1 w1 db w.data hdb1 (by rw [hg1]; exact hv1)
    rw [hg1, hvs1, hn1, hl1] at hb2
    simp only [List.nil_append] at hb2
    generalize hw2 : ({ w1 with
        txns := w1.txns ++ [{ id := w.nextTxn + 1, parent := some w.nextTxn, view := w.data }],
        nextTxn := w.nextTxn + 1 + 1,
        log := Call.txnBegin (some w.nextTxn) (some (w.nextTxn + 1)) ::
          Call.txnBegin none (some w.nextTxn) :: w.log } : World) = w2 at hb2
    generalize hh2 : ({ h1 with vTxn := [w.nextTxn] ++ [w.nextTxn + 1] } : CDB) = h2 at hb2
    have hdb2 : h2.pdb = some db := by rw [← hh2]; exact hdb1
    have hvs2 : h2.vTxn = [w.nextTxn] ++ [w.nextTxn + 1] := by rw [← hh2]
    have hg2 : h2.GetTxn = some (w.nextTxn + 1) := by
      rw [← hh2]; exact CDB.GetTxn_append h1 [w.nextTxn] (w.nextTxn + 1)
    have hd2 : w2.data = w.data := by rw [← hw2]; exact hd1
    have hl2 : w2.log = Call.txnBegin (some w.nextTxn) (some (w.nextTxn + 1)) ::
        Call.txnBegin none (some w.nextTxn) :: w.log := by rw [← hw2]
    have hf2a : w2.txns.find? (fun t => decide (t.id = w.nextTxn + 1)) =
        some { id := w.nextTxn + 1, parent := some w.nextTxn, view := w.data } := by
      rw [← hw2]
      exact find_append_fresh w1.txns
        { id := w.nextTxn + 1, parent := some w.nextTxn, view := w.data }
        (fun t ht => Nat.ne_of_lt (hn1 ▸ htx1 t ht))
    have hf2b : w2.txns.find? (fun t => decide (t.id = w.nextTxn)) =
        some { id := w.nextTxn, parent := none, view := w.data } := by
      rw [← hw2]
      simp only [List.find?_append, hf1]
      rfl
    have hv2 : engineView w2 (some (w.nextTxn + 1)) = some w.data := by
      simp only [engineView, hf2a, Option.map_some']
    have hwr2 := CDB.Write_eq c hwf ck cv h2 w2 db w.data k v hdb2 (by rw [hg2]; exact hv2)
    rw [hg2] at hwr2
    generalize hw3 : engineSetView
        (w2.logCall (Call.put db.file (some (w.nextTxn + 1)) (ck.enc k) (cv.enc v) 0))
        (some (w.nextTxn + 1))
        (filesSet w.data db.file (storePut (filesGet w.data db.file) (ck.enc k) (cv.enc v)))
        = w3 at hwr2
    have hd3 : w3.data = w.data := by rw [← hw3]; exact hd2
    have hl3 : w3.log = Call.put db.file (some (w.nextTxn + 1)) (ck.enc k) (cv.enc v) 0 ::
        Call.txnBegin (some w.nextTxn) (some (w.nextTxn + 1)) ::
        Call.txnBegin none (some w.nextTxn) :: w.log := by
      rw [← hw3]; simp [engineSetView, World.logCall, hl2]
    have hf3a : w3.txns.find? (fun t => decide (t.id = w.nextTxn + 1)) =
        some { id := w.nextTxn + 1, parent := some w.nextTxn,
               view := filesSet w.data db.file
                 (storePut (filesGet w.data db.file) (ck.enc k) (cv.enc v)) } := by
      rw [← hw3]
      exact find_map_setView w2.txns (w.nextTxn + 1)
        (filesSet w.data db.file (storePut (filesGet w.data db.file) (ck.enc k) (cv.enc v))) _ hf2a
    have hf3b : w3.txns.find? (fun t => decide (t.id = w.nextTxn)) =
        some { id := w.nextTxn, parent := none, view := w.data } := by
      rw [← hw3, ← hf2b]
      exact find_map_setView_ne w2.txns w.nextTxn (w.nextTxn + 1) _ (Nat.ne_of_lt (Nat.lt_succ_self _))
    have hab := CDB.TxnAbort_eq c h2 w3 db [w.nextTxn] (w.nextTxn + 1) _ hdb2 hvs2 hf3a
    have hf4 : (dropSubtree [w.nextTxn + 1] w3.txns).find? (fun t => decide (t.id = w.nextTxn)) =
        some { id := w.nextTxn, parent := none, view := w.data } :=
      find_dropSubtree_root w3.txns [w.nextTxn + 1] w.nextTxn _ hf3b rfl (by simp)
    have hco := CDB.TxnCommit_eq c ({ h2 with vTxn := [w.nextTxn] } : CDB)
      ({ w3 with log := Call.txnAbort (w.nextTxn + 1) :: w3.log,
                 txns := dropSubtree [w.nextTxn + 1] w3.txns } : World)
      db [] w.nextTxn _ hdb2 rfl hf4
    simp only [beginBeginWriteAbortCommit, hb1, hb2, hwr2, hab, hco]
    simp [engineSetView, World.logCall, hl3]

/-- Witness for C10: the three sequences on an open wallet handle, in a state
where another transaction is in progress. -/
theorem nested_txn_atomicity_witness :
    sampleConsts.WF ∧ sampleHandle.pdb = some { file := "wallet.dat" } ∧
    sampleHandle.vTxn = [] ∧ sampleWorld.TxnWF ∧
    (beginWriteAbort sampleConsts bytesCodec bytesCodec sampleHandle sampleWorld [1] [2]).1.data
      = sampleWorld.data ∧
    engineLookup
      (beginWriteCommit sampleConsts bytesCodec bytesCodec sampleHandle sampleWorld [1] [2]).1
      { file := "wallet.dat" } none [1] = some [2] ∧
    (beginBeginWriteAbortCommit sampleConsts bytesCodec bytesCodec sampleHandle sampleWorld
      [1] [2]).1.data = sampleWorld.data :=
  have htx : sampleWorld.TxnWF := by
    intro t ht
    simp only [sampleWorld, List.mem_singleton] at ht
    rw [ht]; decide
  have h := nested_txn_atomicity sampleConsts sampleConsts_wf bytesCodec bytesCodec
    sampleHandle sampleWorld { file := "wallet.dat" } rfl rfl htx [1] [2]
  ⟨sampleConsts_wf, rfl, rfl, htx, h.1.1, h.2.1.2.1, h.2.2.1⟩

/-! ## `Close` and inert handles -/

theorem txnAbort_log (w : World) (id : Nat) :
    (txnAbort c w id).1.log = Call.txnAbort id :: w.log := by
  unfold txnAbort
  cases w.txns.find? (fun t => decide (t.id = id)) <;> rfl

/-- C14. `Close` on an open handle issues to the engine: one abort, of the
front (first-begun) transaction of the stack, when the stack is not empty and
no abort when it is empty; then the close of the database and a checkpoint.  It
leaves the stack empty and the database pointer null, decrements the open-count
of the handle's file by one and leaves the count of every other file as it
was. -/
theorem close_aborts_bottom_and_releases (h : CDB) (w : World) (db : Db)
    (hdb : h.pdb = some db) (hwf : MapWF w.mapFileUseCount) :
    (CDB.Close c h w).1.log =
      Call.txnCheckpoint :: Call.dbClose db.file ::
        ((h.vTxn.head?.map Call.txnAbort).toList ++ w.log) ∧
    (CDB.Close c h w).2.vTxn = [] ∧
    (CDB.Close c h w).2.pdb = none ∧
    ∀ g, mapCount (CDB.Close c h w).1.mapFileUseCount g =
      mapCount w.mapFileUseCount g - (if g = h.strFile then 1 else 0) := by
  obtain ⟨hh, hm, _⟩ := CDB.Close_open c h w db hdb
  refine ⟨?_, by rw [hh], by rw [hh], fun g => ?_⟩
  · unfold CDB.Close
    simp only [hdb]
    cases h.vTxn.head? with
    | none => simp [World.logCall]
    | some front => simp [World.logCall, txnAbort_log]
  · rw [hm, mapCount_mapAdd _ _ _ _ hwf]
    by_cases hg : g = h.strFile
    · simp [hg]; ring
    · simp [hg]

/-- Witness for C14: a wallet handle with two transactions on its stack, in a
state in which they are active. -/
theorem close_aborts_bottom_and_releases_witness :
    ({ sampleHandle with vTxn := [3, 4] } : CDB).pdb = some { file := "wallet.dat" } ∧
    MapWF [("wallet.dat", 1)] ∧
    (CDB.Close sampleConsts { sampleHandle with vTxn := [3, 4] }
      { sampleWorld with txns := sampleWorld.txns ++
          [{ id := 4, parent := some 3, view := sampleWorld.data }], nextTxn := 5 }).1.log =
      [Call.txnCheckpoint, Call.dbClose "wallet.dat", Call.txnAbort 3] ∧
    (CDB.Close sampleConsts { sampleHandle with vTxn := [3, 4] }
      { sampleWorld with txns := sampleWorld.txns ++
          [{ id := 4, parent := some 3, view := sampleWorld.data }], nextTxn := 5 }).1.txns = [] ∧
    mapCount (CDB.Close sampleConsts { sampleHandle with vTxn := [3, 4] }
      { sampleWorld with txns := sampleWorld.txns ++
          [{ id := 4, parent := some 3, view := sampleWorld.data }], nextTxn := 5 }
      ).1.mapFileUseCount "wallet.dat" = 0 :=
  have hwf : MapWF [("wallet.dat", 1)] := by simp [MapWF]
  have h := close_aborts_bottom_and_releases sampleConsts { sampleHandle with vTxn := [3, 4] }
    { sampleWorld with txns := sampleWorld.txns ++
        [{ id := 4, parent := some 3, view := sampleWorld.data }], nextTxn := 5 }
    { file := "wallet.dat" } rfl hwf
  ⟨rfl, hwf, h.1, by decide, by rw [h.2.2.2]; decide⟩

theorem CDB.inert_of_null (h : CDB) (hdb : h.pdb = none) : CDB.Inert c h := by
  refine ⟨fun K T ck cv w k v => ⟨?_, fun fOverwrite => ?_, ?_, ?_⟩, fun w => ⟨?_, ?_, ?_, ?_, ?_⟩⟩
  · simp [CDB.Read, hdb]
  · simp [CDB.Write, hdb]
  · simp [CDB.Erase, hdb]
  · simp [CDB.Exists, hdb]
  · simp [CDB.TxnBegin, hdb]
  · simp [CDB.TxnCommit, hdb]
  · simp [CDB.TxnAbort, hdb]
  · simp [CDB.GetCursor, hdb]
  · exact CDB.Close_null c h w hdb

theorem CDB.Close_pdb (h : CDB) (w : World) : (CDB.Close c h w).2.pdb = none := by
  cases hdb : h.pdb with
  | none => rw [CDB.Close_null c h w hdb]; exact hdb
  | some db => rw [(CDB.Close_open c h w db hdb).1]

/-- C18. The constructor with a null file name (as `CTxDB` passes when
`fClient` is set) leaves the process state as it
was (so `fDbEnvInit`, `mapFileUseCount` and the engine call log are unchanged)
and throws nothing, and the handle it yields is inert: `Read`, `Write`, `Erase`,
`Exists`, `TxnBegin`, `TxnCommit`, `TxnAbort` return false and leave the state
and the engine call log as they were, `GetCursor` returns null, `Close` changes
nothing.  Every handle is inert after `Close`, so a second `Close` leaves the
open-counts as they are. -/
theorem null_file_and_closed_handles_inert (e : Env) (w : World) (pszMode : String)
    (fTxn : Bool) (envRet dbRet : Int) (h : CDB) (w' : World) :
    (CDB.new e w none pszMode fTxn envRet dbRet).world = w ∧
    (CDB.new e w none pszMode fTxn envRet dbRet).thrown = none ∧
    CDB.Inert c (CDB.new e w none pszMode fTxn envRet dbRet).handle ∧
    CTxDB.new e w true pszMode fTxn envRet dbRet =
      CDB.new e w none pszMode fTxn envRet dbRet ∧
    CDB.Inert c (CDB.Close c h w).2 ∧
    CDB.Close c (CDB.Close c h w).2 w' = (w', (CDB.Close c h w).2) :=
  ⟨rfl, rfl, CDB.inert_of_null c _ rfl, rfl, CDB.inert_of_null c _ (CDB.Close_pdb c h w),
    CDB.Close_null c _ w' (CDB.Close_pdb c h w)⟩

/-! ## The transaction stack is strictly nested -/

theorem txnCommit_log (w : World) (id : Nat) :
    (txnCommit c w id).1.log = Call.txnCommit id :: w.log ∧
    (txnCommit c w id).1.nextTxn = w.nextTxn := by
  unfold txnCommit
  cases w.txns.find? (fun t => decide (t.id = id)) with
  | none => exact ⟨rfl, rfl⟩
  | some t => cases ht : t.parent <;> simp [engineSetView, World.logCall, ht]

theorem txnAbort_nextTxn (w : World) (id : Nat) :
    (txnAbort c w id).1.nextTxn = w.nextTxn := by
  unfold txnAbort
  cases w.txns.find? (fun t => decide (t.id = id)) <;> rfl

theorem StackChain_mono (log : List Call) (call : Call) (start : Option Nat) (stack : List Nat)
    (h : StackChain log start stack) : StackChain (call :: log) start stack := by
  induction stack generalizing start with
  | nil => trivial
  | cons t ts ih => exact ⟨List.mem_cons_of_mem _ h.1, ih (some t) h.2⟩

theorem StackChain_append (log : List Call) (start : Option Nat) (stack : List Nat) (n : Nat)
    (h : StackChain log start stack)
    (hn : begunAs log n (if stack ≠ [] then stack.getLast? else start)) :
    StackChain log start (stack ++ [n]) := by
  induction stack generalizing start with
  | nil => exact ⟨by simpa using hn, trivial⟩
  | cons t ts ih =>
    refine ⟨h.1, ih (some t) h.2 ?_⟩
    cases ts with
    | nil => simpa using hn
    | cons u us => simpa [List.getLast?_cons_cons] using hn

theorem StackChain_dropLast (log : List Call) (start : Option Nat) (stack : List Nat)
    (h : StackChain log start stack) : StackChain log start stack.dropLast := by
  induction stack generalizing start with
  | nil => trivial
  | cons t ts ih =>
    cases ts with
    | nil => trivial
    | cons u us => exact ⟨h.1, ih (some t) h.2⟩

theorem StackChain_parent (log : List Call) (start : Option Nat) (stack : List Nat) (x : Nat)
    (hchain : StackChain log start stack) (hnd : stack.Nodup)
    (huniq : ∀ p q id, Call.txnBegin p (some id) ∈ log → Call.txnBegin q (some id) ∈ log → p = q)
    (t : Nat) (ht : t ∈ stack) (hchild : begunAs log t (some x)) :
    start = some x ∨ (x ∈ stack ∧ stack.getLast? ≠ some x) := by
  induction stack generalizing start with
  | nil => simp at ht
  | cons a rest ih =>
    rw [List.nodup_cons] at hnd
    rcases List.mem_cons.mp ht with hta | hta
    · left
      rw [hta] at hchild
      exact huniq _ _ _ hchain.1 hchild
    · right
      have hne : rest ≠ [] := List.ne_nil_of_mem hta
      have hlast : (a :: rest).getLast? = rest.getLast? := by
        cases rest with
        | nil => exact absurd rfl hne
        | cons u us => exact List.getLast?_cons_cons
      rcases ih (some a) hchain.2 hnd.2 hta with hax | ⟨hx, hl⟩
      · have hxa : a = x := Option.some.inj hax
        subst hxa
        refine ⟨List.mem_cons_self _ _, ?_⟩
        rw [hlast]
        intro hl
        exact hnd.1 (List.mem_of_getLast?_eq_some hl)
      · exact ⟨List.mem_cons_of_mem _ hx, by rw [hlast]; exact hl⟩

theorem CDB.GetTxn_eq (h : CDB) : h.GetTxn = h.vTxn.getLast? := by
  unfold CDB.GetTxn
  cases hv : h.vTxn with
  | nil => simp
  | cons a rest => simp

theorem CDB.TxnBegin_cases (h : CDB) (w : World) (db : Db) (hdb : h.pdb = some db) :
    (CDB.TxnBegin c h w = (w.logCall (Call.txnBegin h.GetTxn none), h, false)) ∨
    ((CDB.TxnBegin c h w).2.2 = true ∧
      (CDB.TxnBegin c h w).2.1 = { h with vTxn := h.vTxn ++ [w.nextTxn] } ∧
      (CDB.TxnBegin c h w).1.log = Call.txnBegin h.GetTxn (some w.nextTxn) :: w.log ∧
      (CDB.TxnBegin c h w).1.nextTxn = w.nextTxn + 1) := by
  cases hv : engineView w h.GetTxn with
  | none => left; simp [CDB.TxnBegin, hdb, envTxnBegin, hv]
  | some fs => right; rw [CDB.TxnBegin_eq c h w db fs hdb hv]; exact ⟨rfl, rfl, rfl, rfl⟩

theorem CDB.TxnCommit_cons (h : CDB) (w : World) (db : Db) (hdb : h.pdb = some db)
    (last : Nat) (hlast : h.vTxn.getLast? = some last) :
    (CDB.TxnCommit c h w).2.1 = { h with vTxn := h.vTxn.dropLast } ∧
    (CDB.TxnCommit c h w).1.log = Call.txnCommit last :: w.log ∧
    (CDB.TxnCommit c h w).1.nextTxn = w.nextTxn := by
  simp only [CDB.TxnCommit, hdb, hlast]
  exact ⟨trivial, (txnCommit_log c w last).1, (txnCommit_log c w last).2⟩

theorem CDB.TxnAbort_cons (h : CDB) (w : World) (db : Db) (hdb : h.pdb = some db)
    (last : Nat) (hlast : h.vTxn.getLast? = some last) :
    (CDB.TxnAbort c h w).2.1 = { h with vTxn := h.vTxn.dropLast } ∧
    (CDB.TxnAbort c h w).1.log = Call.txnAbort last :: w.log ∧
    (CDB.TxnAbort c h w).1.nextTxn = w.nextTxn := by
  simp only [CDB.TxnAbort, hdb, hlast]
  exact ⟨trivial, txnAbort_log c w last, txnAbort_nextTxn c w last⟩

theorem CDB.TxnCommit_empty (h : CDB) (w : World) (hstack : h.vTxn = []) :
    CDB.TxnCommit c h w = (w, h, false) ∧ CDB.TxnAbort c h w = (w, h, false) := by
  cases hdb : h.pdb <;> simp [CDB.TxnCommit, CDB.TxnAbort, hdb, hstack]

theorem World.LogWF_cons (w w' : World) (call : Call) (hwf : w.LogWF)
    (hlog : w'.log = call :: w.log) (hnext : w.nextTxn ≤ w'.nextTxn)
    (hcall : ∀ p id, call = Call.txnBegin p (some id) → id = w.nextTxn ∧ w.nextTxn < w'.nextTxn) :
    w'.LogWF := by
  obtain ⟨hfresh, huniq⟩ := hwf
  constructor
  · intro p id hmem
    rw [hlog] at hmem
    rcases List.mem_cons.mp hmem with h | h
    · obtain ⟨h1, h2⟩ := hcall p id h.symm
      omega
    · exact lt_of_lt_of_le (hfresh p id h) hnext
  · intro p q id hp hq
    rw [hlog] at hp hq
    rcases List.mem_cons.mp hp with h1 | h1 <;> rcases List.mem_cons.mp hq with h2 | h2
    · rw [← h1] at h2
      injection h2 with h3 _
      exact h3.symm
    · have := (hcall p id h1.symm).1
      have := hfresh q id h2
      omega
    · have := (hcall q id h2.symm).1
      have := hfresh p id h1
      omega
    · exact huniq p q id h1 h2

theorem CDB.txnStep_inv (s : World × CDB) (op : TxnOp) (hinv : CDB.StackInv s.1 s.2) :
    CDB.StackInv (CDB.txnStep c s op).1 (CDB.txnStep c s op).2 := by
  obtain ⟨w, h⟩ := s
  obtain ⟨hchain, hnd, hlt, hlog, hnull⟩ := hinv
  simp only at hchain hnd hlt hlog hnull
  cases hdb : h.pdb with
  | none =>
    have hi := CDB.inert_of_null c h hdb
    cases op <;> simp only [CDB.txnStep, (hi.2 w).1, (hi.2 w).2.1, (hi.2 w).2.2.1] <;>
      exact ⟨hchain, hnd, hlt, hlog, hnull⟩
  | some db =>
    cases op with
    | begin =>
      simp only [CDB.txnStep]
      rcases CDB.TxnBegin_cases c h w db hdb with hb | ⟨_, hh, hl, hn⟩
      · rw [hb]
        refine ⟨StackChain_mono _ _ _ _ hchain, hnd, hlt, ?_, hnull⟩
        exact World.LogWF_cons w _ _ hlog rfl (le_refl _) (fun p id hc => by injection hc with _ h2; simp at h2)
      · rw [hh]
        refine ⟨?_, ?_, ?_, ?_, ?_⟩
        · rw [hl]
          apply StackChain_append
          · exact StackChain_mono _ _ _ _ hchain
          · have hg := CDB.GetTxn_eq h
            unfold begunAs
            rw [hg]
            cases hv : h.vTxn with
            | nil => simp
            | cons a rest => simp
        · rw [List.nodup_append]
          refine ⟨hnd, List.nodup_singleton _, ?_⟩
          intro a ha hb
          rw [List.mem_singleton] at hb
          have := hlt a ha
          omega
        · intro t ht
          rw [hn]
          rcases List.mem_append.mp ht with ht | ht
          · exact Nat.lt_succ_of_lt (hlt t ht)
          · rw [List.mem_singleton] at ht; omega
        · exact World.LogWF_cons w _ _ hlog hl (by omega)
            (fun p id hc => by injection hc with _ h2; injection h2 with h3; omega)
        · intro hp; simp [hdb] at hp
    | commit =>
      simp only [CDB.txnStep]
      cases hlast : h.vTxn.getLast? with
      | none =>
        have hs : h.vTxn = [] := List.getLast?_eq_none_iff.mp hlast
        rw [(CDB.TxnCommit_empty c h w hs).1]
        exact ⟨hchain, hnd, hlt, hlog, hnull⟩
      | some last =>
        obtain ⟨hh, hl, hn⟩ := CDB.TxnCommit_cons c h w db hdb last hlast
        rw [hh]
        refine ⟨?_, ?_, ?_, ?_, ?_⟩
        · rw [hl]; exact StackChain_mono _ _ _ _ (StackChain_dropLast _ _ _ hchain)
        · exact List.Nodup.sublist (List.dropLast_sublist _) hnd
        · intro t ht; rw [hn]; exact hlt t (List.mem_of_mem_dropLast ht)
        · exact World.LogWF_cons w _ _ hlog hl (by omega) (fun p id hc => by simp at hc)
        · intro hp; simp [hdb] at hp
    | abort =>
      simp only [CDB.txnStep]
      cases hlast : h.vTxn.getLast? with
      | none =>
        have hs : h.vTxn = [] := List.getLast?_eq_none_iff.mp hlast
        rw [(CDB.TxnCommit_empty c h w hs).2]
        exact ⟨hchain, hnd, hlt, hlog, hnull⟩
      | some last =>
        obtain ⟨hh, hl, hn⟩ := CDB.TxnAbort_cons c h w db hdb last hlast
        rw [hh]
        refine ⟨?_, ?_, ?_, ?_, ?_⟩
        · rw [hl]; exact StackChain_mono _ _ _ _ (StackChain_dropLast _ _ _ hchain)
        · exact List.Nodup.sublist (List.dropLast_sublist _) hnd
        · intro t ht; rw [hn]; exact hlt t (List.mem_of_mem_dropLast ht)
        · exact World.LogWF_cons w _ _ hlog hl (by omega) (fun p id hc => by simp at hc)
        · intro hp; simp [hdb] at hp

theorem CDB.txnRun_inv (ops : List TxnOp) (s : World × CDB) (hinv : CDB.StackInv s.1 s.2) :
    CDB.StackInv (CDB.txnRun c s ops).1 (CDB.txnRun c s ops).2 := by
  induction ops generalizing s with
  | nil => exact hinv
  | cons op ops ih => exact ih _ (CDB.txnStep_inv c s op hinv)

theorem engineSetView_log (w : World) (txn : Option Nat) (fs : Files) :
    (engineSetView w txn fs).log = w.log := by
  cases txn <;> rfl

theorem Db.put_log (w : World) (db : Db) (txn : Option Nat) (key value : Bytes) (flags : Nat) :
    (Db.put c w db txn key value flags).1.log = Call.put db.file txn key value flags :: w.log := by
  unfold Db.put
  cases engineView w txn with
  | none => rfl
  | some fs =>
    simp only
    split
    · rfl
    · rw [engineSetView_log]; rfl

theorem Db.del_log (w : World) (db : Db) (txn : Option Nat) (key : Bytes) :
    (Db.del c w db txn key).1.log = Call.del db.file txn key :: w.log := by
  unfold Db.del
  cases engineView w txn with
  | none => rfl
  | some fs =>
    simp only
    split
    · rw [engineSetView_log]; rfl
    · rfl

theorem Db.dbExists_log (w : World) (db : Db) (txn : Option Nat) (key : Bytes) :
    (Db.dbExists c w db txn key).1.log = Call.dbExists db.file txn key :: w.log := by
  unfold Db.dbExists
  cases engineView w txn with
  | none => rfl
  | some fs => simp only; split <;> rfl

theorem CDB.Read_log {K T : Type} (ck : Codec K) (cv : Codec T) (h : CDB) (w : World) (db : Db)
    (hdb : h.pdb = some db) (k : K) (v : T) :
    (CDB.Read c ck cv h w k v).1.log = Call.get db.file h.vTxn.getLast? (ck.enc k) :: w.log := by
  simp only [CDB.Read, hdb, Db.get_value, Db.get_world, CDB.GetTxn_eq]
  cases engineLookup w db h.vTxn.getLast? (ck.enc k) with
  | none => rfl
  | some b => simp only; cases cv.dec b <;> rfl

/-- C17. In every state reached from an open or closed handle with an empty
stack by `TxnBegin`, `TxnCommit` and `TxnAbort`: the stack is a chain (its first
element was begun with no parent, every other element as a child of the one
before it); `TxnBegin` appends exactly one element when it returns true and
leaves the stack as it is when it returns false; `TxnCommit` and `TxnAbort`
remove exactly the last element of a non-empty stack, in every engine state,
and on an empty stack return false and change nothing; the transaction they
pass to the engine is the last element, and no element of the stack was begun
as a child of it; `Read`, `Write`, `Erase` and `Exists` pass the last element,
or null when the stack is empty. -/
theorem txn_stack_strictly_nested (w0 : World) (h0 : CDB) (hstack : h0.vTxn = [])
    (hlog : w0.LogWF) (ops : List TxnOp) (s : World × CDB)
    (hs : s = CDB.txnRun c (w0, h0) ops) :
    StackChain s.1.log none s.2.vTxn ∧
    (∀ w : World,
      ((CDB.TxnBegin c s.2 w).2.2 = true →
        ∃ id, (CDB.TxnBegin c s.2 w).2.1.vTxn = s.2.vTxn ++ [id]) ∧
      ((CDB.TxnBegin c s.2 w).2.2 = false → (CDB.TxnBegin c s.2 w).2.1.vTxn = s.2.vTxn)) ∧
    (∀ w : World, s.2.vTxn ≠ [] →
      (CDB.TxnCommit c s.2 w).2.1.vTxn = s.2.vTxn.dropLast ∧
      (CDB.TxnAbort c s.2 w).2.1.vTxn = s.2.vTxn.dropLast) ∧
    (∀ w : World, s.2.vTxn = [] →
      CDB.TxnCommit c s.2 w = (w, s.2, false) ∧ CDB.TxnAbort c s.2 w = (w, s.2, false)) ∧
    (∀ last, s.2.vTxn.getLast? = some last →
      (CDB.TxnCommit c s.2 s.1).1.log = Call.txnCommit last :: s.1.log ∧
      (CDB.TxnAbort c s.2 s.1).1.log = Call.txnAbort last :: s.1.log ∧
      ∀ t ∈ s.2.vTxn, ¬ begunAs s.1.log t (some last)) ∧
    s.2.GetTxn = s.2.vTxn.getLast? ∧
    (∀ db, s.2.pdb = some db →
      ∀ (K T : Type) (ck : Codec K) (cv : Codec T) (w : World) (k : K) (v : T) (fOverwrite : Bool),
      (CDB.Read c ck cv s.2 w k v).1.log = Call.get db.file s.2.vTxn.getLast? (ck.enc k) :: w.log ∧
      (CDB.Write c ck cv s.2 w k v fOverwrite).1.log =
        Call.put db.file s.2.vTxn.getLast? (ck.enc k) (cv.enc v)
          (if fOverwrite then 0 else c.DB_NOOVERWRITE) :: w.log ∧
      (CDB.Erase c ck s.2 w k).1.log = Call.del db.file s.2.vTxn.getLast? (ck.enc k) :: w.log ∧
      (CDB.Exists c ck s.2 w k).1.log =
        Call.dbExists db.file s.2.vTxn.getLast? (ck.enc k) :: w.log) := by
  have hinit : CDB.StackInv (w0, h0).1 (w0, h0).2 := by
    refine ⟨?_, ?_, ?_, hlog, fun _ => hstack⟩
    · show StackChain w0.log none h0.vTxn
      rw [hstack]; trivial
    · show h0.vTxn.Nodup
      rw [hstack]; exact List.nodup_nil
    · intro t ht
      rw [show (w0, h0).2.vTxn = h0.vTxn from rfl, hstack] at ht
      simp at ht
  obtain ⟨hchain, hnd, _, ⟨_, huniq⟩, hnull⟩ := CDB.txnRun_inv c ops (w0, h0) hinit
  rw [← hs] at hchain hnd huniq hnull
  have hopen : s.2.vTxn ≠ [] → ∃ db, s.2.pdb = some db := by
    intro hne
    cases hdb : s.2.pdb with
    | none => exact absurd (hnull hdb) hne
    | some db => exact ⟨db, rfl⟩
  refine ⟨hchain, fun w => ?_, fun w hne => ?_, fun w he => CDB.TxnCommit_empty c s.2 w he,
    fun last hlast => ?_, CDB.GetTxn_eq s.2, fun db hdb K T ck cv w k v fOverwrite => ?_⟩
  · cases hdb : s.2.pdb with
    | none =>
      rw [((CDB.inert_of_null c s.2 hdb).2 w).1]
      exact ⟨fun h => by simp at h, fun _ => rfl⟩
    | some db =>
      rcases CDB.TxnBegin_cases c s.2 w db hdb with hb | ⟨ht, hh, _, _⟩
      · rw [hb]; exact ⟨fun h => by simp at h, fun _ => rfl⟩
      · rw [hh, ht]; exact ⟨fun _ => ⟨w.nextTxn, rfl⟩, fun h => by simp at h⟩
  · obtain ⟨db, hdb⟩ := hopen hne
    obtain ⟨last, hlast⟩ := Option.ne_none_iff_exists'.mp
      (fun h => hne (List.getLast?_eq_none_iff.mp h))
    rw [(CDB.TxnCommit_cons c s.2 w db hdb last hlast).1,
      (CDB.TxnAbort_cons c s.2 w db hdb last hlast).1]
    exact ⟨rfl, rfl⟩
  · have hne : s.2.vTxn ≠ [] := by
      intro h; rw [h] at hlast; simp at hlast
    obtain ⟨db, hdb⟩ := hopen hne
    refine ⟨(CDB.TxnCommit_cons c s.2 s.1 db hdb last hlast).2.1,
      (CDB.TxnAbort_cons c s.2 s.1 db hdb last hlast).2.1, fun t ht hchild => ?_⟩
    rcases StackChain_parent s.1.log none s.2.vTxn last hchain hnd huniq t ht hchild with h | h
    · simp at h
    · exact h.2 hlast
  · refine ⟨CDB.Read_log c ck cv s.2 w db hdb k v, ?_, ?_, ?_⟩
    · simp only [CDB.Write, hdb, Db.put_log, CDB.GetTxn_eq]
    · simp only [CDB.Erase, hdb, Db.del_log, CDB.GetTxn_eq]
    · simp only [CDB.Exists, hdb, Db.dbExists_log, CDB.GetTxn_eq]

/-- Witness for C17: begin, begin, commit, begin on an open wallet handle. -/
theorem txn_stack_strictly_nested_witness :
    sampleHandle.vTxn = [] ∧ sampleWorld.LogWF ∧
    (CDB.txnRun sampleConsts (sampleWorld, sampleHandle)
      [TxnOp.begin, TxnOp.begin, TxnOp.commit, TxnOp.begin]).2.vTxn = [4, 6] ∧
    StackChain (CDB.txnRun sampleConsts (sampleWorld, sampleHandle)
      [TxnOp.begin, TxnOp.begin, TxnOp.commit, TxnOp.begin]).1.log none
      (CDB.txnRun sampleConsts (sampleWorld, sampleHandle)
        [TxnOp.begin, TxnOp.begin, TxnOp.commit, TxnOp.begin]).2.vTxn :=
  have hlog : sampleWorld.LogWF := by
    constructor <;> intro p <;> simp [sampleWorld]
  ⟨rfl, hlog, by decide,
    (txn_stack_strictly_nested sampleConsts sampleWorld sampleHandle rfl hlog
      [TxnOp.begin, TxnOp.begin, TxnOp.commit, TxnOp.begin] _ rfl).1⟩

/-! ## The scan loop delivers the records in key order -/

theorem ReadAtCursor_next (hwf : c.WF) (hcc : cc.WF) (pcursor : Dbc) (ssKey ssValue : Bytes) :
    CDB.ReadAtCursor c cc pcursor ssKey ssValue cc.DB_NEXT =
      match pcursor.rest with
      | [] => (pcursor, c.DB_NOTFOUND, ssKey, ssValue)
      | r :: rs => ({ pcursor with rest := rs }, 0, r.1, r.2) := by
  unfold CDB.ReadAtCursor Dbc.get
  simp only [hcc.next_set, hcc.next_range, hcc.next_both, hcc.next_both_range, or_self,
    if_false, if_true]
  cases pcursor.rest with
  | nil => simp [hwf.notfound_ne]
  | cons r rs => simp

theorem ReadAtCursor_range (hwf : c.WF) (pcursor : Dbc) (ssKey ssValue : Bytes) :
    CDB.ReadAtCursor c cc pcursor ssKey ssValue cc.DB_SET_RANGE =
      match pcursor.all.dropWhile (fun r => bytesLt r.1 ssKey) with
      | [] => (pcursor, c.DB_NOTFOUND, ssKey, ssValue)
      | r :: rs => ({ pcursor with rest := rs }, 0, r.1, r.2) := by
  unfold CDB.ReadAtCursor Dbc.get
  simp only [or_true, true_or, if_true]
  cases pcursor.all.dropWhile (fun r => bytesLt r.1 ssKey) with
  | nil => simp [hwf.notfound_ne]
  | cons r rs => simp

theorem cursorLoop_next {σ : Type} (hwf : c.WF) (hcc : cc.WF)
    (body : σ → Bytes → Bytes → BodyOut σ) (seek : Bytes) (fuel : Nat) (pcursor : Dbc) (st : σ)
    (hfuel : pcursor.rest.length < fuel) :
    cursorLoop c cc body seek fuel pcursor cc.DB_NEXT st = scanList body pcursor.rest st := by
  induction fuel generalizing pcursor st with
  | zero => omega
  | succ fuel ih =>
    unfold cursorLoop
    simp only [hcc.next_range, if_false, ReadAtCursor_next c cc hwf hcc]
    cases hrest : pcursor.rest with
    | nil => simp [scanList]
    | cons r rs =>
      have hlen : rs.length < fuel := by rw [hrest] at hfuel; simpa using hfuel
      simp only [Ne.symm hwf.notfound_ne, if_false, ne_eq, not_true_eq_false, scanList]
      cases body st r.1 r.2 with
      | next st' => exact ih { pcursor with rest := rs } st' hlen
      | brk st' => rfl
      | ret b st' => rfl
      | throw st' => rfl
      | fault st' => rfl

theorem cursorLoop_range {σ : Type} (hwf : c.WF) (hcc : cc.WF)
    (body : σ → Bytes → Bytes → BodyOut σ) (seek : Bytes) (fuel : Nat) (pcursor : Dbc) (st : σ)
    (hfuel : pcursor.all.length < fuel) :
    cursorLoop c cc body seek fuel pcursor cc.DB_SET_RANGE st =
      scanList body (pcursor.all.dropWhile (fun r => bytesLt r.1 seek)) st := by
  cases fuel with
  | zero => omega
  | succ fuel =>
    unfold cursorLoop
    simp only [if_true, ReadAtCursor_range c cc hwf]
    have hle := (List.dropWhile_sublist (fun r : Bytes × Bytes => bytesLt r.1 seek)
      (l := pcursor.all)).length_le
    cases hd : pcursor.all.dropWhile (fun r => bytesLt r.1 seek) with
    | nil => simp [scanList]
    | cons r rs =>
      rw [hd] at hle
      have hlen : rs.length < fuel := by simp at hle; omega
      simp only [Ne.symm hwf.notfound_ne, if_false, ne_eq, not_true_eq_false, scanList]
      cases body st r.1 r.2 with
      | next st' =>
        exact cursorLoop_next c cc hwf hcc body seek fuel { pcursor with rest := rs } st' hlen
      | brk st' => rfl
      | ret b st' => rfl
      | throw st' => rfl
      | fault st' => rfl

/-! ## The block-index graph -/

theorem mapFind_append (m : List (Nat × Nat)) (k p k' : Nat) :
    mapFind (m ++ [(k, p)]) k' =
      match mapFind m k' with
      | some q => some q
      | none => if k = k' then some p else none := by
  induction m with
  | nil => simp [mapFind]
  | cons a rest ih =>
    obtain ⟨a, q⟩ := a
    by_cases h : a = k'
    · simp [mapFind, h]
    · simp [mapFind, h, ih]

theorem mapFind_isSome_iff (m : List (Nat × Nat)) (k : Nat) :
    (mapFind m k).isSome = true ↔ k ∈ m.map Prod.fst := by
  induction m with
  | nil => simp [mapFind]
  | cons a rest ih =>
    obtain ⟨a, q⟩ := a
    by_cases h : a = k
    · simp [mapFind, h]
    · simp only [mapFind, h, if_false, ih, List.map_cons, List.mem_cons]
      constructor
      · exact Or.inr
      · rintro (h1 | h1)
        · exact absurd h1.symm h
        · exact h1

theorem mapFind_mem (m : List (Nat × Nat)) (k p : Nat) (h : mapFind m k = some p) :
    (k, p) ∈ m := by
  induction m with
  | nil => simp [mapFind] at h
  | cons a rest ih =>
    obtain ⟨a, q⟩ := a
    by_cases h1 : a = k
    · simp only [mapFind, h1, if_true, Option.some.injEq] at h
      rw [h1, h]; exact List.mem_cons_self _ _
    · simp only [mapFind, h1, if_false] at h
      exact List.mem_cons_of_mem _ (ih h)

theorem Chain.WF.ptr_lt {st : Chain} (hwf : st.WF) (k p : Nat)
    (h : mapFind st.mapBlockIndex k = some p) : p < st.heap.length := by
  have hm : p ∈ st.mapBlockIndex.map Prod.snd := List.mem_map.mpr ⟨_, mapFind_mem _ _ _ h, rfl⟩
  rw [hwf.1] at hm
  exact List.mem_range.mp hm

theorem Chain.WF.ptr_inj {st : Chain} (hwf : st.WF) (a b p : Nat)
    (ha : mapFind st.mapBlockIndex a = some p) (hb : mapFind st.mapBlockIndex b = some p) :
    a = b := by
  have hnd : (st.mapBlockIndex.map Prod.snd).Nodup := by rw [hwf.1]; exact List.nodup_range _
  have := List.inj_on_of_nodup_map hnd (mapFind_mem _ _ _ ha) (mapFind_mem _ _ _ hb) rfl
  exact (Prod.mk.inj this).1

theorem Chain.Ext.refl (st : Chain) : Chain.Ext st st :=
  ⟨fun _ _ h => h, fun _ _ => rfl⟩

theorem Chain.Ext.trans {a b d : Chain} (hab : Chain.Ext a b) (hbd : Chain.Ext b d)
    (hlen : a.heap.length ≤ b.heap.length) : Chain.Ext a d :=
  ⟨fun k q h => hbd.1 k q (hab.1 k q h),
    fun i hi => by rw [hbd.2 i (lt_of_lt_of_le hi hlen), hab.2 i hi]⟩

theorem InsertBlockIndex_zero (st : Chain) : InsertBlockIndex st 0 = (st, none) := by
  simp [InsertBlockIndex]

theorem InsertBlockIndex_spec (st : Chain) (hash : Nat) (hwf : st.WF) :
    (InsertBlockIndex st hash).1.WF ∧
    Chain.Ext st (InsertBlockIndex st hash).1 ∧
    st.heap.length ≤ (InsertBlockIndex st hash).1.heap.length ∧
    (InsertBlockIndex st hash).2 = nodeFor (InsertBlockIndex st hash).1 hash ∧
    (hash ≠ 0 → ((InsertBlockIndex st hash).2).isSome = true) ∧
    (∀ k, k ∈ (InsertBlockIndex st hash).1.mapBlockIndex.map Prod.fst ↔
      (k ∈ st.mapBlockIndex.map Prod.fst ∨ (k = hash ∧ hash ≠ 0))) ∧
    (InsertBlockIndex st hash).1.pindexGenesisBlock = st.pindexGenesisBlock := by
  by_cases h0 : hash = 0
  · subst h0
    rw [InsertBlockIndex_zero]
    exact ⟨hwf, Chain.Ext.refl st, le_refl _, by simp [nodeFor], fun h => absurd rfl h,
      fun k => by simp, rfl⟩
  · cases hf : mapFind st.mapBlockIndex hash with
    | some p =>
      have hins : InsertBlockIndex st hash = (st, some p) := by
        simp [InsertBlockIndex, h0, hf]
      rw [hins]
      refine ⟨hwf, Chain.Ext.refl st, le_refl _, by simp [nodeFor, h0, hf], fun _ => rfl,
        fun k => ?_, rfl⟩
      constructor
      · exact Or.inl
      · rintro (h | ⟨h, _⟩)
        · exact h
        · rw [h]; exact (mapFind_isSome_iff _ _).mp (by rw [hf]; rfl)
    | none =>
      have hins : InsertBlockIndex st hash =
          ({ st with heap := st.heap ++ [{ CBlockIndex.null with phashBlock := some hash }],
                     mapBlockIndex := st.mapBlockIndex ++ [(hash, st.heap.length)] },
            some st.heap.length) := by
        simp [InsertBlockIndex, h0, hf]
      rw [hins]
      have hnotin : hash ∉ st.mapBlockIndex.map Prod.fst := by
        intro hm
        have := (mapFind_isSome_iff _ _).mpr hm
        rw [hf] at this; simp at this
      obtain ⟨h1, h2, h3, h4⟩ := hwf
      refine ⟨⟨?_, ?_, ?_, ?_⟩, ⟨?_, ?_⟩, ?_, ?_, fun _ => rfl, fun k => ?_, rfl⟩
      · simp only [List.map_append, List.map_cons, List.map_nil, List.length_append,
          List.length_singleton, h1, List.range_succ]
      · simp only [List.map_append, List.map_cons, List.map_nil]
        rw [List.nodup_append]
        refine ⟨h2, List.nodup_singleton _, ?_⟩
        intro a ha hb
        rw [List.mem_singleton] at hb
        exact hnotin (hb ▸ ha)
      · simp only [List.map_append, List.map_cons, List.map_nil, List.mem_append,
          List.mem_singleton, not_or]
        exact ⟨h3, fun h => h0 h.symm⟩
      · intro k p hk
        simp only [mapFind_append] at hk
        cases hk' : mapFind st.mapBlockIndex k with
        | some q =>
          rw [hk'] at hk
          simp only [Option.some.injEq] at hk
          subst hk
          obtain ⟨n, hn, hp⟩ := h4 k q hk'
          have hq := Chain.WF.ptr_lt ⟨h1, h2, h3, h4⟩ k q hk'
          exact ⟨n, by simp only [List.getElem?_append_left hq, hn], hp⟩
        | none =>
          rw [hk'] at hk
          by_cases hkk : hash = k
          · simp only [hkk, if_true, Option.some.injEq] at hk
            subst hk
            exact ⟨_, List.getElem?_concat_length _ _, by rw [hkk]⟩
          · simp [hkk] at hk
      · intro k q hk
        simp only [mapFind_append, hk]
      · intro i hi
        simp only [List.getElem?_append_left hi]
      · simp
      · simp [nodeFor, h0, mapFind_append, hf]
      · simp only [List.map_append, List.map_cons, List.map_nil, List.mem_append,
          List.mem_singleton]
        constructor
        · rintro (h | h)
          · exact Or.inl h
          · exact Or.inr ⟨h, h0⟩
        · rintro (h | ⟨h, _⟩)
          · exact Or.inl h
          · exact Or.inr h

theorem CBlockIndex.assign_phashBlock (n : CBlockIndex) (a b : Option Nat) (d : CDiskBlockIndex) :
    (n.assign a b d).phashBlock = n.phashBlock := rfl

theorem CBlockIndex.assign_congr (n m : CBlockIndex) (a b : Option Nat) (d : CDiskBlockIndex)
    (h : n.phashBlock = m.phashBlock) : n.assign a b d = m.assign a b d := by
  simp [CBlockIndex.assign, h]

theorem nodeFor_ext (a b : Chain)
    (hext : ∀ k q, mapFind a.mapBlockIndex k = some q → mapFind b.mapBlockIndex k = some q)
    (hash : Nat) (h : hash ≠ 0 → (mapFind a.mapBlockIndex hash).isSome = true) :
    nodeFor b hash = nodeFor a hash := by
  by_cases h0 : hash = 0
  · simp [nodeFor, h0]
  · obtain ⟨q, hq⟩ := Option.isSome_iff_exists.mp (h h0)
    simp [nodeFor, h0, hq, hext hash q hq]

theorem Chain.Holds.ext (be : BlockEnv) (a b : Chain) (r : CDiskBlockIndex)
    (hh : Chain.Holds be a r) (hext : Chain.Ext a b) : Chain.Holds be b r := by
  obtain ⟨p, hp, hnode, hprev, hnext⟩ := hh
  have hlt : p < a.heap.length := by
    by_contra hge
    rw [List.getElem?_eq_none (not_lt.mp hge)] at hnode
    exact Option.noConfusion hnode
  refine ⟨p, hext.1 _ _ hp, ?_, ?_, ?_⟩
  · rw [hext.2 p hlt, hnode, nodeFor_ext a b hext.1 _ hprev, nodeFor_ext a b hext.1 _ hnext]
  · intro h0
    obtain ⟨q, hq⟩ := Option.isSome_iff_exists.mp (hprev h0)
    rw [hext.1 _ q hq]; rfl
  · intro h0
    obtain ⟨q, hq⟩ := Option.isSome_iff_exists.mp (hnext h0)
    rw [hext.1 _ q hq]; rfl

theorem Chain.Holds.of_same_graph_holds (be : BlockEnv) (a b : Chain) (r : CDiskBlockIndex)
    (hheap : b.heap = a.heap) (hmap : b.mapBlockIndex = a.mapBlockIndex)
    (hh : Chain.Holds be a r) : Chain.Holds be b r := by
  unfold Chain.Holds nodeFor at *
  rw [hheap, hmap]
  exact hh

theorem Chain.WF.of_same_graph (a b : Chain) (hheap : b.heap = a.heap)
    (hmap : b.mapBlockIndex = a.mapBlockIndex) (hwf : a.WF) : b.WF := by
  unfold Chain.WF at *
  rw [hheap, hmap]
  exact hwf

theorem constructBlockIndex_spec (be : BlockEnv) (st : Chain) (r : CDiskBlockIndex)
    (hwf : st.WF) (hnz : be.GetBlockHash r ≠ 0) :
    ∃ st', constructBlockIndex be st r = BodyOut.next st' ∧ st'.WF ∧
      (∀ k q, mapFind st.mapBlockIndex k = some q → mapFind st'.mapBlockIndex k = some q) ∧
      (∀ k, k ∈ st'.mapBlockIndex.map Prod.fst ↔
        (k ∈ st.mapBlockIndex.map Prod.fst ∨ k = be.GetBlockHash r ∨
          (k = r.hashPrev ∧ r.hashPrev ≠ 0) ∨ (k = r.hashNext ∧ r.hashNext ≠ 0))) ∧
      Chain.Holds be st' r ∧
      (∀ r0, be.GetBlockHash r0 ≠ be.GetBlockHash r → Chain.Holds be st r0 →
        Chain.Holds be st' r0) := by
  obtain ⟨hwf1, hext1, hlen1, hp1, hsome1, hkeys1, _⟩ :=
    InsertBlockIndex_spec st (be.GetBlockHash r) hwf
  generalize hs1 : InsertBlockIndex st (be.GetBlockHash r) = r1 at *
  obtain ⟨hwf2, hext2, hlen2, hp2, hsome2, hkeys2, _⟩ :=
    InsertBlockIndex_spec r1.1 r.hashPrev hwf1
  generalize hs2 : InsertBlockIndex r1.1 r.hashPrev = r2 at *
  obtain ⟨hwf3, hext3, hlen3, hp3, hsome3, hkeys3, _⟩ :=
    InsertBlockIndex_spec r2.1 r.hashNext hwf2
  generalize hs3 : InsertBlockIndex r2.1 r.hashNext = r3 at *
  obtain ⟨p, hp⟩ := Option.isSome_iff_exists.mp (hsome1 hnz)
  -- the node of the record in the three intermediate states
  have hf1 : mapFind r1.1.mapBlockIndex (be.GetBlockHash r) = some p := by
    rw [hp] at hp1
    simpa [nodeFor, hnz] using hp1.symm
  have hf3 : mapFind r3.1.mapBlockIndex (be.GetBlockHash r) = some p :=
    hext3.1 _ _ (hext2.1 _ _ hf1)
  obtain ⟨n, hn, hnk⟩ := hwf3.2.2.2 _ _ hf3
  -- the state after the assignments
  have hext13 : Chain.Ext st r3.1 :=
    (hext1.trans hext2 hlen1).trans hext3 (le_trans hlen1 hlen2)
  let st4 : Chain := { r3.1 with heap := r3.1.heap.modify (fun n => n.assign r2.2 r3.2 r) p }
  have hwf4 : st4.WF := by
    refine ⟨?_, hwf3.2.1, hwf3.2.2.1, ?_⟩
    · show r3.1.mapBlockIndex.map Prod.snd = List.range (List.modify _ p r3.1.heap).length
      rw [List.length_modify]; exact hwf3.1
    · intro k q hk
      obtain ⟨m, hm, hmk⟩ := hwf3.2.2.2 k q hk
      show ∃ n, (List.modify _ p r3.1.heap)[q]? = some n ∧ n.phashBlock = some k
      rw [List.getElem?_modify, hm]
      by_cases hpq : p = q
      · exact ⟨m.assign r2.2 r3.2 r, by simp [hpq],
          by rw [CBlockIndex.assign_phashBlock]; exact hmk⟩
      · exact ⟨m, by simp [hpq], hmk⟩
  have hprev3 : r2.2 = nodeFor r3.1 r.hashPrev := by
    rw [hp2]
    refine (nodeFor_ext r2.1 r3.1 hext3.1 _ (fun h0 => ?_)).symm
    have := hsome2 h0
    rw [hp2] at this
    simpa [nodeFor, h0] using this
  have hholds4 : Chain.Holds be st4 r := by
    refine ⟨p, hf3, ?_, ?_, ?_⟩
    · show (List.modify _ p r3.1.heap)[p]? = _
      rw [List.getElem?_modify_eq, hn]
      show some (n.assign r2.2 r3.2 r) = _
      rw [CBlockIndex.assign_congr n { CBlockIndex.null with phashBlock := some (be.GetBlockHash r) }
        _ _ _ hnk, hprev3, hp3]
      rfl
    · intro h0
      have := hsome2 h0
      rw [hprev3] at this
      simpa [nodeFor, h0] using this
    · intro h0
      have := hsome3 h0
      rw [hp3] at this
      simpa [nodeFor, h0] using this
  have hothers : ∀ r0, be.GetBlockHash r0 ≠ be.GetBlockHash r → Chain.Holds be st r0 →
      Chain.Holds be st4 r0 := by
    intro r0 hne hh
    obtain ⟨q, hq, hnode, hprev, hnext⟩ := Chain.Holds.ext be st r3.1 r0 hh hext13
    have hqp : p ≠ q := fun h => hne (Chain.WF.ptr_inj hwf3 _ _ q hq (h ▸ hf3))
    refine ⟨q, hq, ?_, hprev, hnext⟩
    show (List.modify _ p r3.1.heap)[q]? = _
    rw [List.getElem?_modify_ne _ _ hqp]
    exact hnode
  have hkeys : ∀ k, k ∈ st4.mapBlockIndex.map Prod.fst ↔
      (k ∈ st.mapBlockIndex.map Prod.fst ∨ k = be.GetBlockHash r ∨
        (k = r.hashPrev ∧ r.hashPrev ≠ 0) ∨ (k = r.hashNext ∧ r.hashNext ≠ 0)) := by
    intro k
    show k ∈ r3.1.mapBlockIndex.map Prod.fst ↔ _
    rw [hkeys3, hkeys2, hkeys1]
    constructor
    · rintro (((h | ⟨h, _⟩) | h) | h)
      · exact Or.inl h
      · exact Or.inr (Or.inl h)
      · exact Or.inr (Or.inr (Or.inl h))
      · exact Or.inr (Or.inr (Or.inr h))
    · rintro (h | h | h | h)
      · exact Or.inl (Or.inl (Or.inl h))
      · exact Or.inl (Or.inl (Or.inr ⟨h, hnz⟩))
      · exact Or.inl (Or.inr h)
      · exact Or.inr h
  have hstab : ∀ k q, mapFind st.mapBlockIndex k = some q →
      mapFind st4.mapBlockIndex k = some q := hext13.1
  by_cases hgen : st4.pindexGenesisBlock = none ∧ be.GetBlockHash r = be.hashGenesisBlock
  · refine ⟨{ st4 with pindexGenesisBlock := some p }, ?_, Chain.WF.of_same_graph st4 _ rfl rfl hwf4,
      hstab, hkeys, Chain.Holds.of_same_graph_holds be st4 _ r rfl rfl hholds4,
      fun r0 hne hh => Chain.Holds.of_same_graph_holds be st4 _ r0 rfl rfl (hothers r0 hne hh)⟩
    unfold constructBlockIndex
    simp only [hs1, hs2, hs3, hp]
    rw [if_pos hgen]
  · refine ⟨st4, ?_, hwf4, hstab, hkeys, hholds4, hothers⟩
    unfold constructBlockIndex
    simp only [hs1, hs2, hs3, hp]
    rw [if_neg hgen]

theorem constructBlockIndex_next (be : BlockEnv) (st : Chain) (r : CDiskBlockIndex)
    (hnz : be.GetBlockHash r ≠ 0) :
    constructBlockIndex be st r = BodyOut.next (constructBlockIndex be st r).state := by
  have hsome : ∃ p, (InsertBlockIndex st (be.GetBlockHash r)).2 = some p := by
    unfold InsertBlockIndex
    rw [if_neg hnz]
    cases mapFind st.mapBlockIndex (be.GetBlockHash r) with
    | none => exact ⟨_, rfl⟩
    | some p => exact ⟨p, rfl⟩
  obtain ⟨p, hp⟩ := hsome
  unfold constructBlockIndex
  simp only [hp]
  split <;> rfl

theorem loadRecords_spec (be : BlockEnv) (recs : List CDiskBlockIndex) (st : Chain)
    (hwf : st.WF) (hnz : ∀ r ∈ recs, be.GetBlockHash r ≠ 0)
    (hdist : (recs.map be.GetBlockHash).Nodup) :
    (loadRecords be st recs).WF ∧
    (∀ k q, mapFind st.mapBlockIndex k = some q →
      mapFind (loadRecords be st recs).mapBlockIndex k = some q) ∧
    (∀ k, k ∈ (loadRecords be st recs).mapBlockIndex.map Prod.fst ↔
      (k ∈ st.mapBlockIndex.map Prod.fst ∨ ∃ r ∈ recs, k = be.GetBlockHash r ∨
        (k = r.hashPrev ∧ r.hashPrev ≠ 0) ∨ (k = r.hashNext ∧ r.hashNext ≠ 0))) ∧
    (∀ r ∈ recs, Chain.Holds be (loadRecords be st recs) r) ∧
    (∀ r0, (∀ r ∈ recs, be.GetBlockHash r0 ≠ be.GetBlockHash r) → Chain.Holds be st r0 →
      Chain.Holds be (loadRecords be st recs) r0) := by
  induction recs generalizing st with
  | nil =>
    exact ⟨hwf, fun _ _ h => h, fun k => by simp [loadRecords], fun r hr => by simp at hr,
      fun _ _ h => h⟩
  | cons r rs ih =>
    obtain ⟨st1, hst1, hwf1, hstab1, hkeys1, hholds1, hothers1⟩ :=
      constructBlockIndex_spec be st r hwf (hnz r (List.mem_cons_self _ _))
    have hstep : loadRecords be st (r :: rs) = loadRecords be st1 rs := by
      simp only [loadRecords, List.foldl_cons, hst1, BodyOut.state]
    rw [List.map_cons, List.nodup_cons] at hdist
    obtain ⟨hwf2, hstab2, hkeys2, hholds2, hothers2⟩ :=
      ih st1 hwf1 (fun r' hr' => hnz r' (List.mem_cons_of_mem _ hr')) hdist.2
    rw [hstep]
    refine ⟨hwf2, fun k q h => hstab2 k q (hstab1 k q h), fun k => ?_, fun r' hr' => ?_,
      fun r0 hne hh => ?_⟩
    · rw [hkeys2, hkeys1]
      constructor
      · rintro ((h | h) | ⟨r', hr', h⟩)
        · exact Or.inl h
        · exact Or.inr ⟨r, List.mem_cons_self _ _, h⟩
        · exact Or.inr ⟨r', List.mem_cons_of_mem _ hr', h⟩
      · rintro (h | ⟨r', hr', h⟩)
        · exact Or.inl (Or.inl h)
        · rcases List.mem_cons.mp hr' with hr' | hr'
          · rw [hr'] at h; exact Or.inl (Or.inr h)
          · exact Or.inr ⟨r', hr', h⟩
    · rcases List.mem_cons.mp hr' with hr' | hr'
      · rw [hr']
        refine hothers2 r (fun r2 hr2 heq => ?_) hholds1
        exact hdist.1 (List.mem_map.mpr ⟨r2, hr2, heq.symm⟩)
      · exact hholds2 r' hr'
    · exact hothers2 r0 (fun r2 hr2 => hne r2 (List.mem_cons_of_mem _ hr2))
        (hothers1 r0 (hne r (List.mem_cons_self _ _)) hh)

theorem scanList_cons_next {σ : Type} (body : σ → Bytes → Bytes → BodyOut σ)
    (r : Bytes × Bytes) (rs : List (Bytes × Bytes)) (st st' : σ)
    (h : body st r.1 r.2 = BodyOut.next st') :
    scanList body (r :: rs) st = scanList body rs st' := by
  simp only [scanList, h]

theorem scanList_blockindex (be : BlockEnv) (raw tail : List (Bytes × Bytes))
    (recs : List CDiskBlockIndex) (st : Chain) (hraw : DeliversRecords be raw recs)
    (htail : StopsAt be tail) (hnz : ∀ r ∈ recs, be.GetBlockHash r ≠ 0) :
    scanList (loadBlockIndexBody be) (raw ++ tail) st =
      LoopOut.finished (loadRecords be st recs) := by
  induction hraw generalizing st with
  | nil =>
    rcases htail with h | ⟨kv, rest, strType, restKey, h, hdec, hne⟩
    · rw [h]; rfl
    · rw [h]
      simp [scanList, loadBlockIndexBody, hdec, hne, loadRecords]
  | @cons kv r raw' recs' hkv _ ih =>
    obtain ⟨restKey, restValue, hk, hv⟩ := hkv
    have hbody : loadBlockIndexBody be st kv.1 kv.2 =
        BodyOut.next (constructBlockIndex be st r).state := by
      simp only [loadBlockIndexBody, hk, hv, if_true]
      exact constructBlockIndex_next be st r (hnz r (List.mem_cons_self _ _))
    rw [List.cons_append, scanList_cons_next _ _ _ _ _ hbody,
      ih _ (fun r' hr' => hnz r' (List.mem_cons_of_mem _ hr'))]
    simp only [loadRecords, List.foldl_cons]

theorem loadBestChain_graph (be : BlockEnv) (h : CDB) (w : World) (st : Chain) :
    (loadBestChain c be h w st).2.1.heap = st.heap ∧
    (loadBestChain c be h w st).2.1.mapBlockIndex = st.mapBlockIndex := by
  unfold loadBestChain
  generalize CDB.Read c be.strCodec be.hashCodec h w "hashBestChain" st.hashBestChain = r
  obtain ⟨w', ro⟩ := r
  cases ro with
  | threw => exact ⟨rfl, rfl⟩
  | ret ok value =>
    cases ok
    · simp only [Bool.not_false, if_true]
      split <;> exact ⟨rfl, rfl⟩
    · simp only [Bool.not_true, Bool.false_eq_true, if_false]
      cases mapFind st.mapBlockIndex value with
      | none => exact ⟨rfl, rfl⟩
      | some p =>
        simp only
        cases st.heap[p]? <;> exact ⟨rfl, rfl⟩

theorem Chain.empty_wf : Chain.empty.WF := by
  refine ⟨rfl, List.nodup_nil, by simp [Chain.empty], fun k p h => ?_⟩
  simp [Chain.empty, mapFind] at h

theorem LoadBlockIndex_scan (hwf : c.WF) (hcc : cc.WF) (be : BlockEnv) (h : CDB) (w : World)
    (db : Db) (hdb : h.pdb = some db) (raw tail : List (Bytes × Bytes))
    (recs : List CDiskBlockIndex) (st : Chain)
    (hfile : (filesGet w.data db.file).dropWhile
      (fun kv => bytesLt kv.1 (be.keyCodec.enc ("blockindex", 0))) = raw ++ tail)
    (hraw : DeliversRecords be raw recs) (htail : StopsAt be tail)
    (hnz : ∀ r ∈ recs, be.GetBlockHash r ≠ 0) :
    CTxDB.LoadBlockIndex c cc be h w st = loadBestChain c be h w (loadRecords be st recs) := by
  unfold CTxDB.LoadBlockIndex
  simp only [CDB.GetCursor, hdb, Db.cursor, ne_eq, not_true_eq_false, if_false]
  rw [cursorLoop_range c cc hwf hcc (loadBlockIndexBody be) (be.keyCodec.enc ("blockindex", 0))
    ((filesGet w.data db.file).length + 1)
    { all := filesGet w.data db.file, rest := filesGet w.data db.file } st (Nat.lt_succ_self _)]
  simp only [hfile, scanList_blockindex be raw tail recs st hraw htail hnz]

/-- C11 (as amended). For `"blockindex"` records with non-zero, pairwise
distinct block hashes whose prev and next hashes are zero or the hash of a
record, delivered by the cursor in any order, `LoadBlockIndex` from an empty
`mapBlockIndex` ends with one entry per record hash and no other, each entry
with a node of its own and no other node allocated, and every record is
represented by its node: scalar fields equal, `pprev` and `pnext` the nodes of
`hashPrev` and `hashNext`, null for a zero hash. -/
theorem load_block_index_rebuilds_graph (hwf : c.WF) (hcc : cc.WF) (be : BlockEnv) (h : CDB)
    (w : World) (db : Db) (hdb : h.pdb = some db) (raw tail : List (Bytes × Bytes))
    (recs : List CDiskBlockIndex)
    (hfile : (filesGet w.data db.file).dropWhile
      (fun kv => bytesLt kv.1 (be.keyCodec.enc ("blockindex", 0))) = raw ++ tail)
    (hraw : DeliversRecords be raw recs) (htail : StopsAt be tail)
    (hnz : ∀ r ∈ recs, be.GetBlockHash r ≠ 0)
    (hdist : (recs.map be.GetBlockHash).Nodup)
    (hprev : ∀ r ∈ recs, r.hashPrev = 0 ∨ r.hashPrev ∈ recs.map be.GetBlockHash)
    (hnext : ∀ r ∈ recs, r.hashNext = 0 ∨ r.hashNext ∈ recs.map be.GetBlockHash)
    (st' : Chain) (hst : st' = (CTxDB.LoadBlockIndex c cc be h w Chain.empty).2.1) :
    (st'.mapBlockIndex.map Prod.fst).Perm (recs.map be.GetBlockHash) ∧
    st'.mapBlockIndex.map Prod.snd = List.range st'.heap.length ∧
    ∀ r ∈ recs, Chain.Holds be st' r := by
  rw [LoadBlockIndex_scan c cc hwf hcc be h w db hdb raw tail recs Chain.empty hfile hraw htail
    hnz] at hst
  obtain ⟨hheap, hmap⟩ := loadBestChain_graph c be h w (loadRecords be Chain.empty recs)
  rw [← hst] at hheap hmap
  obtain ⟨hwf', _, hkeys, hholds, _⟩ :=
    loadRecords_spec be recs Chain.empty Chain.empty_wf hnz hdist
  have hwf'' : st'.WF := Chain.WF.of_same_graph _ st' hheap hmap hwf'
  refine ⟨?_, hwf''.1, fun r hr => Chain.Holds.of_same_graph_holds be _ st' r hheap hmap (hholds r hr)⟩
  rw [List.perm_ext_iff_of_nodup hwf''.2.1 hdist]
  intro k
  rw [hmap, hkeys]
  constructor
  · rintro (h | ⟨r, hr, h | ⟨h, h0⟩ | ⟨h, h0⟩⟩)
    · simp [Chain.empty] at h
    · rw [h]; exact List.mem_map.mpr ⟨r, hr, rfl⟩
    · rw [h]; exact (hprev r hr).resolve_left h0
    · rw [h]; exact (hnext r hr).resolve_left h0
  · intro hk
    obtain ⟨r, hr, hrk⟩ := List.mem_map.mp hk
    exact Or.inr ⟨r, hr, Or.inl hrk.symm⟩

/-- Witness for C11 (as amended): the chain of three records. -/
theorem load_block_index_rebuilds_graph_witness :
    sampleConsts.WF ∧ sampleCursorConsts.WF ∧
    DeliversRecords sampleBlockEnv sampleRawRecs sampleRecs ∧
    (sampleRecs.map sampleBlockEnv.GetBlockHash).Nodup ∧
    ((CTxDB.LoadBlockIndex sampleConsts sampleCursorConsts sampleBlockEnv sampleTxHandle
        (sampleTxWorld sampleBlockStore) Chain.empty).2.1.mapBlockIndex.map Prod.fst).Perm
      (sampleRecs.map sampleBlockEnv.GetBlockHash) ∧
    ∀ r ∈ sampleRecs, Chain.Holds sampleBlockEnv
      (CTxDB.LoadBlockIndex sampleConsts sampleCursorConsts sampleBlockEnv sampleTxHandle
        (sampleTxWorld sampleBlockStore) Chain.empty).2.1 r :=
  have hcc : sampleCursorConsts.WF := by constructor <;> decide
  have hraw : DeliversRecords sampleBlockEnv sampleRawRecs sampleRecs :=
    List.Forall₂.cons ⟨_, _, rfl, rfl⟩ (List.Forall₂.cons ⟨_, _, rfl, rfl⟩
      (List.Forall₂.cons ⟨_, _, rfl, rfl⟩ List.Forall₂.nil))
  have hdist : (sampleRecs.map sampleBlockEnv.GetBlockHash).Nodup := by decide
  have h := load_block_index_rebuilds_graph sampleConsts sampleCursorConsts sampleConsts_wf hcc
    sampleBlockEnv sampleTxHandle (sampleTxWorld sampleBlockStore) { file := "blkindex.dat" } rfl
    sampleRawRecs [(sampleSerString "hashBestChain", [3])] sampleRecs (by decide) hraw
    (Or.inr ⟨_, _, "hashBestChain", [], rfl, by decide, by decide⟩)
    (by decide) hdist (by decide) (by decide) _ rfl
  ⟨sampleConsts_wf, hcc, hraw, hdist, h.1, h.2.2⟩

/-- C11, counterexample to the claim as stated: two records with the same
non-zero block hash 7, zero prev and next hashes, and heights 0 and 5.  The
loader ends with one node for hash 7 whose height is 5, so the record of
height 0 is not represented by its node. -/
theorem load_block_index_same_hash_counterexample :
    (∀ r ∈ [sampleDiskIndex 0 0 0 7, sampleDiskIndex 0 0 5 7],
      sampleBlockEnv.GetBlockHash r ≠ 0 ∧ r.hashPrev = 0 ∧ r.hashNext = 0) ∧
    DeliversRecords sampleBlockEnv sampleSameHashStore
      [sampleDiskIndex 0 0 0 7, sampleDiskIndex 0 0 5 7] ∧
    ¬ (∀ r ∈ [sampleDiskIndex 0 0 0 7, sampleDiskIndex 0 0 5 7],
      Chain.Holds sampleBlockEnv
        (CTxDB.LoadBlockIndex sampleConsts sampleCursorConsts sampleBlockEnv sampleTxHandle
          (sampleTxWorld sampleSameHashStore) Chain.empty).2.1 r) := by
  refine ⟨by decide, List.Forall₂.cons ⟨_, _, rfl, rfl⟩
    (List.Forall₂.cons ⟨_, _, rfl, rfl⟩ List.Forall₂.nil), fun h => ?_⟩
  obtain ⟨p, hp, hnode, _⟩ := h (sampleDiskIndex 0 0 0 7) (List.mem_cons_self _ _)
  have hst : (CTxDB.LoadBlockIndex sampleConsts sampleCursorConsts sampleBlockEnv sampleTxHandle
      (sampleTxWorld sampleSameHashStore) Chain.empty).2.1 =
      { heap := [CBlockIndex.assign { CBlockIndex.null with phashBlock := some 7 } none none
          (sampleDiskIndex 0 0 5 7)],
        mapBlockIndex := [(7, 0)], pindexGenesisBlock := none, pindexBest := none,
        hashBestChain := 0, nBestHeight := -1 } := by decide
  rw [hst] at hp hnode
  have hp0 : p = 0 := by
    simp [mapFind, sampleBlockEnv, sampleDiskIndex] at hp
    exact hp.symm
  subst hp0
  revert hnode
  decide

/-! ## The owner scan unserializes the whole key before it looks at the tag -/

/-- C13, evaluation at the failing input: `blkindex.dat` holds one `"owner"`
record for hash 9 at height 5, followed in key order by the `"version"` record.
`ReadOwnerTxes(9, 4)` collects the transaction of the owner record and then
throws while unserializing the key of the `"version"` record, which is shorter
than an owner key; it does not return true. -/
theorem read_owner_txes_throws_on_short_key :
    CTxDB.ReadOwnerTxes sampleConsts sampleCursorConsts sampleOwnerEnv sampleTxHandle
      (sampleTxWorld sampleOwnerStore) 9 4 = ([(1, 100, 7)], CallOut.threw) ∧
    sampleOwnerEnv.unserString (sampleSerString "version") = some ("version", []) := by
  decide

/-! ## The best chain may name a placeholder node -/

/-- C12, evaluation at the failing input: `blkindex.dat` holds one record, of
hash 1 with next hash 2, and the best-chain hash 2; no record has hash 2.
`LoadBlockIndex` returns true, `pindexBest` is the node made for the next
hash of record 1, which carries no record data, and `nBestHeight` is 0. -/
theorem best_chain_placeholder_accepted :
    DeliversRecords sampleBlockEnv (sampleDanglingStore.take 1) [sampleDiskIndex 0 2 0 1] ∧
    sampleBlockEnv.GetBlockHash (sampleDiskIndex 0 2 0 1) = 1 ∧
    (CTxDB.LoadBlockIndex sampleConsts sampleCursorConsts sampleBlockEnv sampleTxHandle
      (sampleTxWorld sampleDanglingStore) Chain.empty).2.2 = CallOut.ret true ∧
    (CTxDB.LoadBlockIndex sampleConsts sampleCursorConsts sampleBlockEnv sampleTxHandle
      (sampleTxWorld sampleDanglingStore) Chain.empty).2.1.hashBestChain = 2 ∧
    (CTxDB.LoadBlockIndex sampleConsts sampleCursorConsts sampleBlockEnv sampleTxHandle
      (sampleTxWorld sampleDanglingStore) Chain.empty).2.1.pindexBest = some 1 ∧
    (CTxDB.LoadBlockIndex sampleConsts sampleCursorConsts sampleBlockEnv sampleTxHandle
      (sampleTxWorld sampleDanglingStore) Chain.empty).2.1.heap[1]? =
        some { CBlockIndex.null with phashBlock := some 2 } ∧
    (CTxDB.LoadBlockIndex sampleConsts sampleCursorConsts sampleBlockEnv sampleTxHandle
      (sampleTxWorld sampleDanglingStore) Chain.empty).2.1.nBestHeight = 0 :=
  ⟨List.Forall₂.cons ⟨_, _, rfl, rfl⟩ List.Forall₂.nil, rfl, by decide, by decide, by decide,
    by decide, by decide⟩

/-! ## The wallet loader stops at the first record that does not unserialize -/

theorem sampleCursorConsts_wf : sampleCursorConsts.WF := by
  constructor <;> decide

theorem CWalletDB.LoadWallet_scan {WTx Addr : Type} (hwf : c.WF) (hcc : cc.WF)
    (we : WalletEnv WTx Addr) (h : CDB) (w : World) (db : Db) (hdb : h.pdb = some db)
    (ws : WalletState WTx Addr) :
    CWalletDB.LoadWallet c cc we h w ws =
      match scanList (loadWalletBody we) (filesGet w.data db.file) (ws, []) with
      | LoopOut.finished st => (st, CallOut.ret true)
      | LoopOut.returned b st => (st, CallOut.ret b)
      | LoopOut.threw st => (st, CallOut.threw)
      | LoopOut.fault st => (st, CallOut.fault)
      | LoopOut.outOfFuel => ((ws, []), CallOut.outOfFuel) := by
  unfold CWalletDB.LoadWallet
  simp only [CDB.GetCursor, hdb, Db.cursor, ne_eq, not_true_eq_false, if_false]
  rw [cursorLoop_next c cc hwf hcc (loadWalletBody we) []
    ((filesGet w.data db.file).length + 1)
    { all := filesGet w.data db.file, rest := filesGet w.data db.file } (ws, [])
    (Nat.lt_succ_self _)]

theorem loadWalletSetting_spec {WTx Addr : Type} (we : WalletEnv WTx Addr)
    (st : WalletState WTx Addr × Bytes) (strKey : String) (ssValue : Bytes) :
    (∀ rec, specDecodeSetting we strKey ssValue = some rec →
      loadWalletSetting we st strKey ssValue = BodyOut.next (specApplyWalletRecord we st rec)) ∧
    (specDecodeSetting we strKey ssValue = none →
      loadWalletSetting we st strKey ssValue = BodyOut.throw st) := by
  unfold specDecodeSetting loadWalletSetting
  split_ifs
  · cases we.unserBool ssValue with
    | none => simp
    | some b => exact ⟨fun rec h => by cases h; rfl, fun h => by simp at h⟩
  · cases we.unserInt64 ssValue with
    | none => simp
    | some b => exact ⟨fun rec h => by cases h; rfl, fun h => by simp at h⟩
  · cases we.unserAddr ssValue with
    | none => simp
    | some b => exact ⟨fun rec h => by cases h; rfl, fun h => by simp at h⟩
  · exact ⟨fun rec h => by cases h; rfl, fun h => by simp at h⟩

theorem loadWalletBody_spec {WTx Addr : Type} (we : WalletEnv WTx Addr)
    (st : WalletState WTx Addr × Bytes) (k v : Bytes) :
    (∀ rec, specDecodeWalletRecord we k v = some rec →
      loadWalletBody we st k v = BodyOut.next (specApplyWalletRecord we st rec)) ∧
    (specDecodeWalletRecord we k v = none →
      ∃ st2, loadWalletBody we st k v = BodyOut.throw st2 ∧ TouchedOnly we st st2) := by
  unfold specDecodeWalletRecord loadWalletBody
  cases hk : we.unserString k with
  | none => exact ⟨fun rec h => by simp at h, fun _ => ⟨st, rfl, Or.inl rfl⟩⟩
  | some r =>
    obtain ⟨strType, ssKey1⟩ := r
    simp only [Option.some_bind]
    split_ifs with h1 h2 h3 h4 h5
    · cases ha : we.unserString ssKey1 with
      | none => exact ⟨fun rec h => by simp at h, fun _ => ⟨st, rfl, Or.inl rfl⟩⟩
      | some a =>
        cases hb : we.unserString v with
        | none =>
          exact ⟨fun rec h => by simp at h, fun _ => ⟨_, rfl, Or.inr (Or.inl ⟨a.1, rfl⟩)⟩⟩
        | some b => exact ⟨fun rec h => by cases h; rfl, fun h => by simp at h⟩
    · cases ha : we.unserHash ssKey1 with
      | none => exact ⟨fun rec h => by simp at h, fun _ => ⟨st, rfl, Or.inl rfl⟩⟩
      | some a =>
        cases hb : we.unserWalletTx v with
        | none =>
          exact ⟨fun rec h => by simp at h, fun _ => ⟨_, rfl, Or.inr (Or.inr ⟨a.1, rfl⟩)⟩⟩
        | some b => exact ⟨fun rec h => by cases h; rfl, fun h => by simp at h⟩
    · cases ha : we.unserBytes ssKey1 with
      | none => exact ⟨fun rec h => by simp at h, fun _ => ⟨st, rfl, Or.inl rfl⟩⟩
      | some a =>
        cases hb : we.unserPrivKey v with
        | none => exact ⟨fun rec h => by simp at h, fun _ => ⟨st, rfl, Or.inl rfl⟩⟩
        | some b => exact ⟨fun rec h => by cases h; rfl, fun h => by simp at h⟩
    · cases hb : we.unserBytes v with
      | none => exact ⟨fun rec h => by simp at h, fun _ => ⟨st, rfl, Or.inl rfl⟩⟩
      | some b => exact ⟨fun rec h => by cases h; rfl, fun h => by simp at h⟩
    · cases ha : we.unserString ssKey1 with
      | none => exact ⟨fun rec h => by simp at h, fun _ => ⟨st, rfl, Or.inl rfl⟩⟩
      | some a =>
        simp only [Option.some_bind]
        exact ⟨(loadWalletSetting_spec we st a.1 v).1,
          fun h => ⟨st, (loadWalletSetting_spec we st a.1 v).2 h, Or.inl rfl⟩⟩
    · exact ⟨fun rec h => by cases h; rfl, fun h => by simp at h⟩

theorem scanList_decoded {WTx Addr : Type} (we : WalletEnv WTx Addr)
    (pre post : List (Bytes × Bytes)) (recs : List (WalletRecord WTx Addr))
    (st : WalletState WTx Addr × Bytes)
    (hpre : pre.map (fun r => specDecodeWalletRecord we r.1 r.2) = recs.map some) :
    scanList (loadWalletBody we) (pre ++ post) st =
      scanList (loadWalletBody we) post (recs.foldl (specApplyWalletRecord we) st) := by
  induction pre generalizing recs st with
  | nil =>
    cases recs with
    | nil => rfl
    | cons r rs => simp at hpre
  | cons p pre ih =>
    cases recs with
    | nil => simp at hpre
    | cons r rs =>
      simp only [List.map_cons, List.cons.injEq] at hpre
      rw [List.cons_append,
        scanList_cons_next _ _ _ _ _ ((loadWalletBody_spec we st p.1 p.2).1 r hpre.1),
        ih rs _ hpre.2]
      rfl

/-- C16 (as amended). When the records of `wallet.dat` that the cursor delivers
first (`pre`) all decode per the schema of their tag, to `recs`: if they are the
whole file, `CWalletDB::LoadWallet` returns true and the wallet globals and the
default key are those obtained by applying every record of `recs`, in order, to
the in-memory maps; if the record after them fails to decode, the exception
leaves `CWalletDB::LoadWallet` at that record, the records before it have been
applied, no later record is read, and of the failing record at most the default
entry that `mapAddressBook[strAddress]` or `mapWallet[hash]` creates is left. -/
theorem load_wallet_aborts_at_first_bad_record {WTx Addr : Type} (hwf : c.WF) (hcc : cc.WF)
    (we : WalletEnv WTx Addr) (h : CDB) (w : World) (db : Db) (hdb : h.pdb = some db)
    (ws : WalletState WTx Addr) (pre rest : List (Bytes × Bytes))
    (recs : List (WalletRecord WTx Addr))
    (hfile : filesGet w.data db.file = pre ++ rest)
    (hpre : pre.map (fun r => specDecodeWalletRecord we r.1 r.2) = recs.map some) :
    (rest = [] → CWalletDB.LoadWallet c cc we h w ws =
      (recs.foldl (specApplyWalletRecord we) (ws, []), CallOut.ret true)) ∧
    (∀ r post, rest = r :: post → specDecodeWalletRecord we r.1 r.2 = none →
      ∃ st2, CWalletDB.LoadWallet c cc we h w ws = (st2, CallOut.threw) ∧
        TouchedOnly we (recs.foldl (specApplyWalletRecord we) (ws, [])) st2) := by
  have hs := CWalletDB.LoadWallet_scan c cc hwf hcc we h w db hdb ws
  rw [hfile, scanList_decoded we pre rest recs (ws, []) hpre] at hs
  refine ⟨fun hrest => ?_, fun r post hrest hbad => ?_⟩
  · rw [hs, hrest]
    rfl
  · obtain ⟨st2, hst2, htouch⟩ :=
      (loadWalletBody_spec we (recs.foldl (specApplyWalletRecord we) (ws, [])) r.1 r.2).2 hbad
    refine ⟨st2, ?_, htouch⟩
    rw [hs, hrest]
    simp only [scanList, hst2]

/-- Witness for C16: a `wallet.dat` with one record of every kind, which loads
into the four maps, the fee setting and the default key; and a `wallet.dat` whose
second record, a `"name"` record with a value cut short, fails to decode. -/
theorem load_wallet_aborts_at_first_bad_record_witness :
    (sampleFullWallet.map (fun r => specDecodeWalletRecord sampleWalletEnv r.1 r.2) =
      [WalletRecord.tx 77 77, WalletRecord.key [7] [8], WalletRecord.name "a" "Bob",
        WalletRecord.fee 3, WalletRecord.ignored, WalletRecord.defaultkey [7]].map some) ∧
    CWalletDB.LoadWallet sampleConsts sampleCursorConsts sampleWalletEnv sampleWalletHandle
        (sampleWalletWorld sampleFullWallet) sampleWalletState =
      (({ mapAddressBook := [("a", "Bob")], mapWallet := [(77, 77)], mapKeys := [([7], [8])],
          mapPubKeys := [(7, [7])], fGenerateBitcoins := false, nTransactionFee := 3,
          addrIncoming := 0 }, [7]), CallOut.ret true) ∧
    ([sampleKeyRec].map (fun r => specDecodeWalletRecord sampleWalletEnv r.1 r.2) =
      [WalletRecord.key [7] [8]].map some) ∧
    specDecodeWalletRecord sampleWalletEnv (sampleSerString "name" ++ sampleSerString "a")
      [5, 66] = none ∧
    (∃ st2, CWalletDB.LoadWallet sampleConsts sampleCursorConsts sampleWalletEnv
        sampleWalletHandle (sampleWalletWorld sampleBrokenWallet) sampleWalletState =
        (st2, CallOut.threw) ∧
      TouchedOnly sampleWalletEnv
        ([WalletRecord.key [7] [8]].foldl (specApplyWalletRecord sampleWalletEnv)
          (sampleWalletState, [])) st2) :=
  have hfull : sampleFullWallet.map (fun r => specDecodeWalletRecord sampleWalletEnv r.1 r.2) =
      [WalletRecord.tx 77 77, WalletRecord.key [7] [8], WalletRecord.name "a" "Bob",
        WalletRecord.fee 3, WalletRecord.ignored, WalletRecord.defaultkey [7]].map some := by
    decide
  have hpre : [sampleKeyRec].map (fun r => specDecodeWalletRecord sampleWalletEnv r.1 r.2) =
      [WalletRecord.key [7] [8]].map some := by decide
  have hbad : specDecodeWalletRecord sampleWalletEnv
      (sampleSerString "name" ++ sampleSerString "a") [5, 66] = none := by decide
  ⟨hfull,
   (load_wallet_aborts_at_first_bad_record sampleConsts sampleCursorConsts sampleConsts_wf
    sampleCursorConsts_wf sampleWalletEnv sampleWalletHandle (sampleWalletWorld sampleFullWallet)
    ⟨"wallet.dat"⟩ rfl sampleWalletState sampleFullWallet [] _ (by decide) hfull).1 rfl,
   hpre, hbad,
   (load_wallet_aborts_at_first_bad_record sampleConsts sampleCursorConsts sampleConsts_wf
    sampleCursorConsts_wf sampleWalletEnv sampleWalletHandle
    (sampleWalletWorld sampleBrokenWallet) ⟨"wallet.dat"⟩ rfl sampleWalletState [sampleKeyRec]
    (sampleBrokenWallet.drop 1) _ (by decide) hpre).2 _ _ rfl hbad⟩

/-- C16, counterexample. A `wallet.dat` with a key record, a `"name"` record
whose value is cut short, the version record and a default-key record: the
loader does not return true, it ends by the exception, and the default-key
record, which unserializes, has not been applied. -/
theorem load_wallet_bad_record_counterexample :
    WalletRecDecodes sampleWalletEnv sampleDefaultKeyRec ∧
    sampleDefaultKeyRec ∈ sampleBrokenWallet ∧
    (∀ st, loadWalletBody sampleWalletEnv st sampleDefaultKeyRec.1 sampleDefaultKeyRec.2 =
      BodyOut.next (st.1, [7])) ∧
    (CWalletDB.LoadWallet sampleConsts sampleCursorConsts sampleWalletEnv sampleWalletHandle
      (sampleWalletWorld sampleBrokenWallet) sampleWalletState).2 = CallOut.threw ∧
    (CWalletDB.LoadWallet sampleConsts sampleCursorConsts sampleWalletEnv sampleWalletHandle
      (sampleWalletWorld sampleBrokenWallet) sampleWalletState).1.2 = [] :=
  ⟨fun st => ⟨_, rfl⟩, by decide, fun st => rfl, by decide, by decide⟩

/-! ## The orchestrator and the default key -/

theorem amGet_amSet {κ ν : Type} [DecidableEq κ] (m : List (κ × ν)) (k k' : κ) (v : ν) :
    amGet (amSet m k v) k' = if k = k' then some v else amGet m k' := by
  induction m with
  | nil => simp [amSet, amGet]
  | cons p m ih =>
    obtain ⟨a, b⟩ := p
    by_cases hak : a = k
    · subst hak
      by_cases hak' : a = k' <;> simp [amSet, amGet, hak']
    · by_cases hkk : k = k'
      · subst hkk
        simp [amSet, amGet, hak, ih]
      · by_cases hak' : a = k'
        · subst hak'
          simp [amSet, amGet, hak, hkk]
        · simp [amSet, amGet, hak, hak', ih, hkk]

theorem loadWalletSetting_keeps {WTx Addr : Type} (we : WalletEnv WTx Addr)
    (st st' : WalletState WTx Addr × Bytes) (strKey : String) (ssValue : Bytes)
    (h : loadWalletSetting we st strKey ssValue = BodyOut.next st') :
    st'.2 = st.2 ∧ st'.1.mapKeys = st.1.mapKeys := by
  unfold loadWalletSetting at h
  split_ifs at h
  · split at h
    · exact absurd h (by simp)
    · cases h; exact ⟨rfl, rfl⟩
  · split at h
    · exact absurd h (by simp)
    · cases h; exact ⟨rfl, rfl⟩
  · split at h
    · exact absurd h (by simp)
    · cases h; exact ⟨rfl, rfl⟩
  · cases h; exact ⟨rfl, rfl⟩

theorem loadWalletSetting_cases {WTx Addr : Type} (we : WalletEnv WTx Addr)
    (st : WalletState WTx Addr × Bytes) (strKey : String) (ssValue : Bytes) :
    (∃ st', loadWalletSetting we st strKey ssValue = BodyOut.next st') ∨
    (∃ st', loadWalletSetting we st strKey ssValue = BodyOut.throw st') := by
  unfold loadWalletSetting
  split_ifs
  · split
    · exact Or.inr ⟨_, rfl⟩
    · exact Or.inl ⟨_, rfl⟩
  · split
    · exact Or.inr ⟨_, rfl⟩
    · exact Or.inl ⟨_, rfl⟩
  · split
    · exact Or.inr ⟨_, rfl⟩
    · exact Or.inl ⟨_, rfl⟩
  · exact Or.inl ⟨_, rfl⟩

theorem loadWalletBody_next {WTx Addr : Type} (we : WalletEnv WTx Addr)
    (st st' : WalletState WTx Addr × Bytes) (k v : Bytes)
    (h : loadWalletBody we st k v = BodyOut.next st') :
    (st'.2 = st.2 ∨ IsDefaultKeyRec we (k, v) st'.2) ∧
    ∀ P, amGet st'.1.mapKeys P = amGet st.1.mapKeys P ∨
      ∃ K, IsKeyRec we (k, v) P K ∧ amGet st'.1.mapKeys P = some K := by
  unfold loadWalletBody at h
  cases hk : we.unserString k with
  | none => simp [hk] at h
  | some r =>
    obtain ⟨strType, ssKey1⟩ := r
    simp only [hk] at h
    split_ifs at h with h1 h2 h3 h4 h5
    · cases ha : we.unserString ssKey1 with
      | none => simp [ha] at h
      | some a =>
        cases hb : we.unserString v with
        | none => simp [ha, hb] at h
        | some b =>
          simp only [ha, hb, BodyOut.next.injEq] at h
          subst h
          exact ⟨Or.inl rfl, fun P => Or.inl rfl⟩
    · cases ha : we.unserHash ssKey1 with
      | none => simp [ha] at h
      | some a =>
        cases hb : we.unserWalletTx v with
        | none => simp [ha, hb] at h
        | some b =>
          simp only [ha, hb, BodyOut.next.injEq] at h
          subst h
          exact ⟨Or.inl rfl, fun P => Or.inl rfl⟩
    · cases ha : we.unserBytes ssKey1 with
      | none => simp [ha] at h
      | some a =>
        cases hb : we.unserPrivKey v with
        | none => simp [ha, hb] at h
        | some b =>
          simp only [ha, hb, BodyOut.next.injEq] at h
          subst h
          refine ⟨Or.inl rfl, fun P => ?_⟩
          simp only [amGet_amSet]
          by_cases hP : a.1 = P
          · subst hP
            exact Or.inr ⟨b.1, ⟨ssKey1, a.2, b.2, by rw [hk, h3], ha, hb⟩, by simp⟩
          · exact Or.inl (by simp [hP])
    · cases hb : we.unserBytes v with
      | none => simp [hb] at h
      | some b =>
        simp only [hb, BodyOut.next.injEq] at h
        subst h
        exact ⟨Or.inr ⟨ssKey1, b.2, by rw [hk, h4], hb⟩, fun P => Or.inl rfl⟩
    · cases ha : we.unserString ssKey1 with
      | none => simp [ha] at h
      | some a =>
        simp only [ha] at h
        obtain ⟨e1, e2⟩ := loadWalletSetting_keeps we st st' a.1 v h
        exact ⟨Or.inl e1, fun P => Or.inl (by rw [e2])⟩
    · cases h
      exact ⟨Or.inl rfl, fun P => Or.inl rfl⟩

theorem loadWalletBody_cases {WTx Addr : Type} (we : WalletEnv WTx Addr)
    (st : WalletState WTx Addr × Bytes) (k v : Bytes) :
    (∃ st', loadWalletBody we st k v = BodyOut.next st') ∨
    (∃ st', loadWalletBody we st k v = BodyOut.throw st') := by
  unfold loadWalletBody
  cases hk : we.unserString k with
  | none => exact Or.inr ⟨_, rfl⟩
  | some r =>
    obtain ⟨strType, ssKey1⟩ := r
    simp only
    split_ifs with h1 h2 h3 h4 h5
    · cases ha : we.unserString ssKey1 with
      | none => exact Or.inr ⟨_, rfl⟩
      | some a =>
        cases hb : we.unserString v with
        | none => exact Or.inr ⟨_, rfl⟩
        | some b => exact Or.inl ⟨_, rfl⟩
    · cases ha : we.unserHash ssKey1 with
      | none => exact Or.inr ⟨_, rfl⟩
      | some a =>
        cases hb : we.unserWalletTx v with
        | none => exact Or.inr ⟨_, rfl⟩
        | some b => exact Or.inl ⟨_, rfl⟩
    · cases ha : we.unserBytes ssKey1 with
      | none => exact Or.inr ⟨_, rfl⟩
      | some a =>
        cases hb : we.unserPrivKey v with
        | none => exact Or.inr ⟨_, rfl⟩
        | some b => exact Or.inl ⟨_, rfl⟩
    · cases hb : we.unserBytes v with
      | none => exact Or.inr ⟨_, rfl⟩
      | some b => exact Or.inl ⟨_, rfl⟩
    · cases ha : we.unserString ssKey1 with
      | none => exact Or.inr ⟨_, rfl⟩
      | some a => exact loadWalletSetting_cases we st a.1 v
    · exact Or.inl ⟨_, rfl⟩

theorem loadWalletBody_defaultkey {WTx Addr : Type} (we : WalletEnv WTx Addr)
    (st : WalletState WTx Addr × Bytes) (r : Bytes × Bytes) (P : Bytes)
    (h : IsDefaultKeyRec we r P) :
    loadWalletBody we st r.1 r.2 = BodyOut.next (st.1, P) := by
  obtain ⟨k1, v1, hk, hv⟩ := h
  unfold loadWalletBody
  simp [hk, hv]

theorem loadWalletBody_key {WTx Addr : Type} (we : WalletEnv WTx Addr)
    (st : WalletState WTx Addr × Bytes) (r : Bytes × Bytes) (P K : Bytes)
    (h : IsKeyRec we r P K) :
    ∃ st', loadWalletBody we st r.1 r.2 = BodyOut.next st' ∧ st'.2 = st.2 ∧
      amGet st'.1.mapKeys P = some K := by
  obtain ⟨k1, k2, v1, hk, hp, hv⟩ := h
  unfold loadWalletBody
  simp [hk, hp, hv, amGet_amSet]

theorem loadWallet_scan_default {WTx Addr : Type} (we : WalletEnv WTx Addr) (P : Bytes)
    (recs : List (Bytes × Bytes)) (st st' : WalletState WTx Addr × Bytes)
    (hscan : scanList (loadWalletBody we) recs st = LoopOut.finished st')
    (huniq : ∀ r ∈ recs, ∀ P', IsDefaultKeyRec we r P' → P' = P)
    (hex : st.2 = P ∨ ∃ r ∈ recs, IsDefaultKeyRec we r P) : st'.2 = P := by
  induction recs generalizing st with
  | nil =>
    simp only [scanList, LoopOut.finished.injEq] at hscan
    subst hscan
    rcases hex with h | ⟨r, hr, _⟩
    · exact h
    · simp at hr
  | cons r rs ih =>
    rcases loadWalletBody_cases we st r.1 r.2 with ⟨st1, h1⟩ | ⟨st1, h1⟩
    · rw [scanList_cons_next _ _ _ _ _ h1] at hscan
      refine ih st1 hscan (fun q hq => huniq q (List.mem_cons_of_mem _ hq)) ?_
      rcases hex with h | ⟨q, hq, hqP⟩
      · rcases (loadWalletBody_next we st st1 r.1 r.2 h1).1 with h2 | h2
        · exact Or.inl (h2.trans h)
        · exact Or.inl (huniq r (List.mem_cons_self _ _) _ h2)
      · rcases List.mem_cons.mp hq with rfl | hq
        · rw [loadWalletBody_defaultkey we st q P hqP] at h1
          cases h1
          exact Or.inl rfl
        · exact Or.inr ⟨q, hq, hqP⟩
    · simp [scanList, h1] at hscan

theorem loadWallet_scan_key {WTx Addr : Type} (we : WalletEnv WTx Addr) (P K : Bytes)
    (recs : List (Bytes × Bytes)) (st st' : WalletState WTx Addr × Bytes)
    (hscan : scanList (loadWalletBody we) recs st = LoopOut.finished st')
    (huniq : ∀ r ∈ recs, ∀ K', IsKeyRec we r P K' → K' = K)
    (hex : amGet st.1.mapKeys P = some K ∨ ∃ r ∈ recs, IsKeyRec we r P K) :
    amGet st'.1.mapKeys P = some K := by
  induction recs generalizing st with
  | nil =>
    simp only [scanList, LoopOut.finished.injEq] at hscan
    subst hscan
    rcases hex with h | ⟨r, hr, _⟩
    · exact h
    · simp at hr
  | cons r rs ih =>
    rcases loadWalletBody_cases we st r.1 r.2 with ⟨st1, h1⟩ | ⟨st1, h1⟩
    · rw [scanList_cons_next _ _ _ _ _ h1] at hscan
      refine ih st1 hscan (fun q hq => huniq q (List.mem_cons_of_mem _ hq)) ?_
      rcases hex with h | ⟨q, hq, hqP⟩
      · rcases (loadWalletBody_next we st st1 r.1 r.2 h1).2 P with h2 | ⟨K', h2, h3⟩
        · exact Or.inl (h2.trans h)
        · rw [huniq r (List.mem_cons_self _ _) K' h2] at h3
          exact Or.inl h3
      · rcases List.mem_cons.mp hq with rfl | hq
        · obtain ⟨st2, h2, _, h4⟩ := loadWalletBody_key we st q P K hqP
          rw [h2] at h1
          cases h1
          exact Or.inl h4
        · exact Or.inr ⟨q, hq, hqP⟩
    · simp [scanList, h1] at hscan

theorem CWalletDB.new_cr_versioned (e : Env) (w : World) (envRet dbRet : Int)
    (hopen : (CWalletDB.new e w "cr" false envRet dbRet).thrown = none)
    (hver : (storeGet (filesGet w.data "wallet.dat") (e.strCodec.enc "version")).isSome) :
    (CWalletDB.new e w "cr" false envRet dbRet).handle =
      { pdb := some { file := "wallet.dat" }, strFile := "wallet.dat", vTxn := [] } ∧
    (CWalletDB.new e w "cr" false envRet dbRet).world.data = w.data ∧
    (CWalletDB.new e w "cr" false envRet dbRet).world.txns = w.txns ∧
    (CWalletDB.new e w "cr" false envRet dbRet).world.log =
      Call.dbExists "wallet.dat" none (e.strCodec.enc "version") ::
        Call.dbOpen "wallet.dat" (openFlags e.consts "cr" false) ::
        (if w.fDbEnvInit then w.log else Call.envOpen :: w.log) := by
  have hc : strchr "cr" 'c' = true := by decide
  unfold CWalletDB.new CDB.new at hopen ⊢
  by_cases hinit : w.fDbEnvInit = true
  · simp only [hinit, Bool.not_true, Bool.false_eq_true, if_false] at hopen ⊢
    unfold CDB.newOpen at hopen ⊢
    by_cases hdb : dbRet > 0
    · simp [hdb] at hopen
    · simp [hdb, hc, CDB.Exists, Db.dbExists, CDB.GetTxn, engineView, World.logCall, hver]
  · simp only [hinit, Bool.not_false, if_true] at hopen ⊢
    by_cases henv : envRet > 0
    · simp [henv] at hopen
    · simp only [henv, if_false] at hopen ⊢
      unfold CDB.newOpen at hopen ⊢
      by_cases hdb : dbRet > 0
      · simp [hdb] at hopen
      · simp [hdb, hc, CDB.Exists, Db.dbExists, CDB.GetTxn, engineView, World.logCall, hver]

theorem loadWalletNewKey_made {WTx Addr : Type} (e : Env) (wd : WalletDeps WTx Addr) (w : World)
    (ws : WalletState WTx Addr) (envRet2 dbRet2 envRet3 dbRet3 : Int) :
    (loadWalletNewKey e wd w ws envRet2 dbRet2 envRet3 dbRet3).madeNewKey = true := by
  unfold loadWalletNewKey
  simp only
  split
  · split
    · split <;> rfl
    · rfl
    · rfl
  · rfl
  · rfl

theorem loadWallet_scan_cases {WTx Addr : Type} (we : WalletEnv WTx Addr)
    (recs : List (Bytes × Bytes)) (st : WalletState WTx Addr × Bytes) :
    (∃ st', scanList (loadWalletBody we) recs st = LoopOut.finished st') ∨
    (∃ st', scanList (loadWalletBody we) recs st = LoopOut.threw st') := by
  induction recs generalizing st with
  | nil => exact Or.inl ⟨st, rfl⟩
  | cons r rs ih =>
    rcases loadWalletBody_cases we st r.1 r.2 with ⟨st1, h1⟩ | ⟨st1, h1⟩
    · rw [scanList_cons_next _ _ _ _ _ h1]
      exact ih st1
    · exact Or.inr ⟨st1, by simp [scanList, h1]⟩

theorem CDB.Close_fresh (h : CDB) (w : World) (db : Db) (hdb : h.pdb = some db)
    (hstack : h.vTxn = []) :
    (CDB.Close c h w).1.data = w.data ∧
    (CDB.Close c h w).1.log = Call.txnCheckpoint :: Call.dbClose db.file :: w.log := by
  unfold CDB.Close
  simp [hdb, hstack, World.logCall]

/-- C15 (as amended). When the constructor of the `CWalletDB("cr")` handle does
not throw and the wallet scan returns true: `LoadWallet()` generates a fresh key
if and only if the loaded default public key is not a key of `mapKeys` after
the scan; and when `wallet.dat` holds a `"version"` record, a record tagged
`"defaultkey"` and all of those with value `P`, and a `"key"` record for `P` and
all of those with private key `K`, then `LoadWallet()` returns true, sets
`keyUser` to `(P, K)`, generates no key, leaves the data of the engine as it
was and makes no engine call but the open, the probe for `"version"` and the
close. -/
theorem load_wallet_installs_default_key {WTx Addr : Type} (e : Env) (hwf : e.consts.WF)
    (hcc : cc.WF) (we : WalletEnv WTx Addr) (wd : WalletDeps WTx Addr) (w : World)
    (ws : WalletState WTx Addr) (keyUser : CKey)
    (envRet1 dbRet1 envRet2 dbRet2 envRet3 dbRet3 : Int)
    (hopen : (CWalletDB.new e w "cr" false envRet1 dbRet1).thrown = none)
    (hscan : (CWalletDB.LoadWallet e.consts cc we
      (CWalletDB.new e w "cr" false envRet1 dbRet1).handle
      (CWalletDB.new e w "cr" false envRet1 dbRet1).world ws).2 = CallOut.ret true) :
    ((LoadWallet cc e we wd w ws keyUser envRet1 dbRet1 envRet2 dbRet2 envRet3
        dbRet3).madeNewKey = true ↔
      amGet (CWalletDB.LoadWallet e.consts cc we
          (CWalletDB.new e w "cr" false envRet1 dbRet1).handle
          (CWalletDB.new e w "cr" false envRet1 dbRet1).world ws).1.1.mapKeys
        (CWalletDB.LoadWallet e.consts cc we
          (CWalletDB.new e w "cr" false envRet1 dbRet1).handle
          (CWalletDB.new e w "cr" false envRet1 dbRet1).world ws).1.2 = none) ∧
    ∀ P K : Bytes,
      (storeGet (filesGet w.data "wallet.dat") (e.strCodec.enc "version")).isSome →
      (∃ r ∈ filesGet w.data "wallet.dat", IsDefaultKeyRec we r P) →
      (∀ r ∈ filesGet w.data "wallet.dat", ∀ P', IsDefaultKeyRec we r P' → P' = P) →
      (∃ r ∈ filesGet w.data "wallet.dat", IsKeyRec we r P K) →
      (∀ r ∈ filesGet w.data "wallet.dat", ∀ K', IsKeyRec we r P K' → K' = K) →
      (LoadWallet cc e we wd w ws keyUser envRet1 dbRet1 envRet2 dbRet2 envRet3 dbRet3).out =
        CallOut.ret true ∧
      (LoadWallet cc e we wd w ws keyUser envRet1 dbRet1 envRet2 dbRet2 envRet3
        dbRet3).keyUser = { vchPubKey := P, vchPrivKey := K } ∧
      (LoadWallet cc e we wd w ws keyUser envRet1 dbRet1 envRet2 dbRet2 envRet3
        dbRet3).madeNewKey = false ∧
      (LoadWallet cc e we wd w ws keyUser envRet1 dbRet1 envRet2 dbRet2 envRet3
        dbRet3).world.data = w.data ∧
      (LoadWallet cc e we wd w ws keyUser envRet1 dbRet1 envRet2 dbRet2 envRet3
        dbRet3).world.log =
        Call.txnCheckpoint :: Call.dbClose "wallet.dat" ::
          Call.dbExists "wallet.dat" none (e.strCodec.enc "version") ::
          Call.dbOpen "wallet.dat" (openFlags e.consts "cr" false) ::
          (if w.fDbEnvInit then w.log else Call.envOpen :: w.log) := by
  constructor
  · unfold LoadWallet
    simp only [hopen, hscan]
    split
    · rename_i k hk
      simp [hk]
    · rename_i hk
      simp [hk, loadWalletNewKey_made]
  · intro P K hver hdk hdku hkey hkeyu
    obtain ⟨hh, hdata, _, hlog⟩ := CWalletDB.new_cr_versioned e w envRet1 dbRet1 hopen hver
    have hs := CWalletDB.LoadWallet_scan e.consts cc hwf hcc we
      (CWalletDB.new e w "cr" false envRet1 dbRet1).handle
      (CWalletDB.new e w "cr" false envRet1 dbRet1).world { file := "wallet.dat" }
      (by rw [hh]) ws
    rw [hdata] at hs
    dsimp only at hs
    have hfin : ∃ st, scanList (loadWalletBody we) (filesGet w.data "wallet.dat") (ws, []) =
        LoopOut.finished st ∧
        CWalletDB.LoadWallet e.consts cc we (CWalletDB.new e w "cr" false envRet1 dbRet1).handle
          (CWalletDB.new e w "cr" false envRet1 dbRet1).world ws = (st, CallOut.ret true) := by
      rw [hs] at hscan ⊢
      cases hsl : scanList (loadWalletBody we) (filesGet w.data "wallet.dat") (ws, []) with
      | finished st => exact ⟨st, rfl, rfl⟩
      | returned b st =>
        rcases loadWallet_scan_cases we (filesGet w.data "wallet.dat") (ws, []) with
          ⟨st1, h1⟩ | ⟨st1, h1⟩ <;>
        · rw [h1] at hsl
          cases hsl
      | threw st => simp [hsl] at hscan
      | fault st => simp [hsl] at hscan
      | outOfFuel => simp [hsl] at hscan
    obtain ⟨st, hsl, hres⟩ := hfin
    have hP := loadWallet_scan_default we P _ (ws, []) st hsl hdku (Or.inr hdk)
    have hK := loadWallet_scan_key we P K _ (ws, []) st hsl hkeyu (Or.inr hkey)
    obtain ⟨hcd, hcl⟩ := CDB.Close_fresh e.consts
      (CWalletDB.new e w "cr" false envRet1 dbRet1).handle
      (CWalletDB.new e w "cr" false envRet1 dbRet1).world { file := "wallet.dat" }
      (by rw [hh]) (by rw [hh])
    unfold LoadWallet
    simp only [hopen, hres, hP, hK, hcd, hcl, hdata, hlog]
    simp

theorem load_wallet_installs_default_key_witness :
    sampleEnv.consts.WF ∧ sampleCursorConsts.WF ∧
    (CWalletDB.new sampleEnv (sampleWalletWorld sampleGoodWallet) "cr" false 0 0).thrown = none ∧
    (CWalletDB.LoadWallet sampleEnv.consts sampleCursorConsts sampleWalletEnv
      (CWalletDB.new sampleEnv (sampleWalletWorld sampleGoodWallet) "cr" false 0 0).handle
      (CWalletDB.new sampleEnv (sampleWalletWorld sampleGoodWallet) "cr" false 0 0).world
      sampleWalletState).2 = CallOut.ret true ∧
    IsDefaultKeyRec sampleWalletEnv sampleDefaultKeyRec [7] ∧
    IsKeyRec sampleWalletEnv sampleKeyRec [7] [8] ∧
    (LoadWallet sampleCursorConsts sampleEnv sampleWalletEnv sampleWalletDeps
      (sampleWalletWorld sampleGoodWallet) sampleWalletState ⟨[], []⟩ 0 0 0 0 0 0).out =
      CallOut.ret true ∧
    (LoadWallet sampleCursorConsts sampleEnv sampleWalletEnv sampleWalletDeps
      (sampleWalletWorld sampleGoodWallet) sampleWalletState ⟨[], []⟩ 0 0 0 0 0 0).keyUser =
      { vchPubKey := [7], vchPrivKey := [8] } ∧
    (LoadWallet sampleCursorConsts sampleEnv sampleWalletEnv sampleWalletDeps
      (sampleWalletWorld sampleGoodWallet) sampleWalletState ⟨[], []⟩ 0 0 0 0 0 0).madeNewKey =
      false ∧
    (LoadWallet sampleCursorConsts sampleEnv sampleWalletEnv sampleWalletDeps
      (sampleWalletWorld sampleGoodWallet) sampleWalletState ⟨[], []⟩ 0 0 0 0 0 0).world.data =
      (sampleWalletWorld sampleGoodWallet).data :=
  have hdk : IsDefaultKeyRec sampleWalletEnv sampleDefaultKeyRec [7] := ⟨_, _, rfl, rfl⟩
  have hkey : IsKeyRec sampleWalletEnv sampleKeyRec [7] [8] := ⟨_, _, _, rfl, rfl, rfl⟩
  have hfile : filesGet (sampleWalletWorld sampleGoodWallet).data "wallet.dat" =
      [sampleKeyRec, sampleVersionRec, sampleDefaultKeyRec] := rfl
  have hopen : (CWalletDB.new sampleEnv (sampleWalletWorld sampleGoodWallet) "cr" false 0
      0).thrown = none := by decide
  have hscan : (CWalletDB.LoadWallet sampleEnv.consts sampleCursorConsts sampleWalletEnv
      (CWalletDB.new sampleEnv (sampleWalletWorld sampleGoodWallet) "cr" false 0 0).handle
      (CWalletDB.new sampleEnv (sampleWalletWorld sampleGoodWallet) "cr" false 0 0).world
      sampleWalletState).2 = CallOut.ret true := by decide
  have h := (load_wallet_installs_default_key sampleCursorConsts sampleEnv sampleConsts_wf
    sampleCursorConsts_wf sampleWalletEnv sampleWalletDeps (sampleWalletWorld sampleGoodWallet)
    sampleWalletState ⟨[], []⟩ 0 0 0 0 0 0 hopen hscan).2 [7] [8] (by decide)
    ⟨sampleDefaultKeyRec, by decide, hdk⟩
    (by
      intro r hr P' hP'
      obtain ⟨k1, v1, hk, hv⟩ := hP'
      rw [hfile] at hr
      simp only [List.mem_cons, List.mem_singleton, List.not_mem_nil, or_false] at hr
      rcases hr with rfl | rfl | rfl
      · exact absurd (congrArg (Option.map Prod.fst) hk)
          (by decide : ¬ Option.map Prod.fst (sampleWalletEnv.unserString sampleKeyRec.1) =
            some "defaultkey")
      · exact absurd (congrArg (Option.map Prod.fst) hk)
          (by decide : ¬ Option.map Prod.fst (sampleWalletEnv.unserString sampleVersionRec.1) =
            some "defaultkey")
      · exact (Option.some.inj ((congrArg (Option.map Prod.fst) hv).symm.trans
          (by decide : Option.map Prod.fst (sampleWalletEnv.unserBytes sampleDefaultKeyRec.2) =
            some [7])))
    )
    ⟨sampleKeyRec, by decide, hkey⟩
    (by
      intro r hr K' hK'
      obtain ⟨k1, k2, v1, hk, hp, hv⟩ := hK'
      rw [hfile] at hr
      simp only [List.mem_cons, List.mem_singleton, List.not_mem_nil, or_false] at hr
      rcases hr with rfl | rfl | rfl
      · exact (Option.some.inj ((congrArg (Option.map Prod.fst) hv).symm.trans
          (by decide : Option.map Prod.fst (sampleWalletEnv.unserPrivKey sampleKeyRec.2) =
            some [8])))
      · exact absurd (congrArg (Option.map Prod.fst) hk)
          (by decide : ¬ Option.map Prod.fst (sampleWalletEnv.unserString sampleVersionRec.1) =
            some "key")
      · exact absurd (congrArg (Option.map Prod.fst) hk)
          (by decide : ¬ Option.map Prod.fst (sampleWalletEnv.unserString sampleDefaultKeyRec.1) =
            some "key"))
  ⟨sampleConsts_wf, sampleCursorConsts_wf, hopen, hscan, hdk, hkey, h.1, h.2.1, h.2.2.1, h.2.2.2.1⟩

/-- C15, counterexample to the claim as stated, at two contents of `wallet.dat`
for which the scan succeeds.  First, a file with the key record `[7] -> [8]`
and the default-key record `[7]` but no `"version"` record: `LoadWallet()`
returns true with `keyUser = ([7], [8])` and no key generation, yet the
constructor of the `CWalletDB("cr")` handle has written the version record
into the file.  Second, a file with the version record, the key record, the
default-key record `[7]` and one more record whose key starts with the tag
`"defaultkey"`, with value `[9]`: the scan leaves `[9]` as the default key, which
is no key of `mapKeys`, so a fresh key is generated and `keyUser` is not
`([7], [8])`. -/
theorem load_wallet_default_key_counterexample :
    (IsDefaultKeyRec sampleWalletEnv sampleDefaultKeyRec [7] ∧
      IsKeyRec sampleWalletEnv sampleKeyRec [7] [8]) ∧
    (sampleDefaultKeyRec ∈ sampleUnversionedWallet ∧ sampleKeyRec ∈ sampleUnversionedWallet ∧
      (LoadWallet sampleCursorConsts sampleEnv sampleWalletEnv sampleWalletDeps
        (sampleWalletWorld sampleUnversionedWallet) sampleWalletState ⟨[], []⟩ 0 0 0 0 0 0).out =
        CallOut.ret true ∧
      (LoadWallet sampleCursorConsts sampleEnv sampleWalletEnv sampleWalletDeps
        (sampleWalletWorld sampleUnversionedWallet) sampleWalletState ⟨[], []⟩ 0 0 0 0 0
        0).madeNewKey = false ∧
      Call.put "wallet.dat" none (sampleStrCodec.enc "version") (sampleIntCodec.enc 105) 0 ∈
        (LoadWallet sampleCursorConsts sampleEnv sampleWalletEnv sampleWalletDeps
          (sampleWalletWorld sampleUnversionedWallet) sampleWalletState ⟨[], []⟩ 0 0 0 0 0
          0).world.log ∧
      (LoadWallet sampleCursorConsts sampleEnv sampleWalletEnv sampleWalletDeps
        (sampleWalletWorld sampleUnversionedWallet) sampleWalletState ⟨[], []⟩ 0 0 0 0 0
        0).world.data = [("wallet.dat", sampleGoodWallet)]) ∧
    (sampleDefaultKeyRec ∈ sampleTwoDefaultsWallet ∧ sampleKeyRec ∈ sampleTwoDefaultsWallet ∧
      sampleVersionRec ∈ sampleTwoDefaultsWallet ∧
      (LoadWallet sampleCursorConsts sampleEnv sampleWalletEnv sampleWalletDeps
        (sampleWalletWorld sampleTwoDefaultsWallet) sampleWalletState ⟨[], []⟩ 0 0 0 0 0 0).out =
        CallOut.ret true ∧
      (LoadWallet sampleCursorConsts sampleEnv sampleWalletEnv sampleWalletDeps
        (sampleWalletWorld sampleTwoDefaultsWallet) sampleWalletState ⟨[], []⟩ 0 0 0 0 0
        0).madeNewKey = true ∧
      (LoadWallet sampleCursorConsts sampleEnv sampleWalletEnv sampleWalletDeps
        (sampleWalletWorld sampleTwoDefaultsWallet) sampleWalletState ⟨[], []⟩ 0 0 0 0 0
        0).keyUser = { vchPubKey := [42], vchPrivKey := [43] }) :=
  ⟨⟨⟨_, _, rfl, rfl⟩, ⟨_, _, _, rfl, rfl, rfl⟩⟩,
   ⟨by decide, by decide, by decide, by decide, by decide, by decide⟩,
   ⟨by decide, by decide, by decide, by decide, by decide, by decide⟩⟩

end BitcoinDb
